import Mathlib

/-!
# Device memory heap (`Quake/gl_heap.c`)

A shallow embedding of the device-memory sub-allocator of `gl_heap.c` and the
verification of its specification.

## Embedding

* `VkDeviceSize` is `uint64_t`: values are natural numbers below `2 ^ 64` and every
  addition or subtraction of the source is taken modulo `2 ^ 64`.
* Pointers are addresses into an object store (`List (Option α)`): cell `p` holds
  `some v` while the object at address `p` is allocated and `none` once it has been
  released with `Mem_Free`.  `Mem_Alloc` always returns a fresh address (the length
  of the store).  `NULL` is `none : Option Nat`.
* Every heap carries the store of its own nodes (`glheap_t.cells`); a pool carries the
  store of its heap objects.
* Reading or writing through a pointer whose cell is not allocated, a division by
  zero, and a loop that would never end are undefined in C; the embedding gives them
  the result `none` (or the status `fault`).
* `Sys_Error` never returns; a function that reaches it yields the state at that
  point together with the status `sys_error`.
-/

namespace GLHeap

/-! ## Object store -/

/-- Read through pointer `p`: `none` when `p` does not point to an allocated object. -/
def load {α : Type} (m : List (Option α)) (p : Nat) : Option α :=
  (m[p]?).join

/-- Overwrite the cell of an allocated object. -/
def poke {α : Type} (m : List (Option α)) (p : Nat) (v : Option α) : Option (List (Option α)) :=
  match load m p with
  | none => none
  | some _ => some (m.set p v)

/-- Assignment to fields of `*p`: the object becomes `f` of its old value. -/
def modify {α : Type} (m : List (Option α)) (p : Nat) (f : α → α) : Option (List (Option α)) :=
  match load m p with
  | none => none
  | some v => some (m.set p (some (f v)))

/-- Allocation of a new object with content `v`: the fresh address and the new store. -/
def Mem_Alloc {α : Type} (m : List (Option α)) (v : α) : Nat × List (Option α) :=
  (m.length, m ++ [some v])

/-- Release of the object at `p`. -/
def Mem_Free {α : Type} (m : List (Option α)) (p : Nat) : Option (List (Option α)) :=
  poke m p none

/-! ## Heap -/

/-- The largest `VkDeviceSize`. -/
def UINT64_MAX : Nat := 2 ^ 64 - 1

/-- One node of a heap's list (`glheapnode_t`). -/
structure glheapnode_t where
  offset : Nat
  size : Nat
  prev : Option Nat
  next : Option Nat
  free : Bool
  deriving DecidableEq, Repr

/-- A heap (`glheap_t`): the pointer to the head node, and the store of its nodes.  The
backing device memory is external and is not modelled. -/
structure glheap_t where
  head : Nat
  cells : List (Option glheapnode_t)
  deriving DecidableEq, Repr

/-- `GL_CreateHeap`: one free node at offset 0 that spans the whole heap. -/
def GL_CreateHeap (size : Nat) : glheap_t :=
  { head := 0
    cells := [some { offset := 0, size := size, prev := none, next := none, free := true }] }

/-- `align_padding` of `GL_HeapAllocate` for a node at `offset`. -/
def align_padding (offset alignment : Nat) : Nat :=
  let align_mod := offset % alignment
  if align_mod = 0 then 0 else alignment - align_mod

/-- How the scanning loop of `GL_HeapAllocate` ends: at a node of exactly the needed
size, or at the end of the list with the best fit found so far. -/
inductive scan_t where
  | exact_fit (current_node : Nat)
  | finished (best_fit_node : Option Nat)
  deriving DecidableEq, Repr

/-- The `for` loop of `GL_HeapAllocate`, from `current_node` on.  `fuel` bounds the number
of nodes visited; `none` is undefined behaviour (a dangling `next`, `alignment = 0`) or a
list longer than `fuel`. -/
def GL_HeapAllocate_scan (cells : List (Option glheapnode_t)) (size alignment : Nat) :
    Nat → Option Nat → Option Nat → Nat → Option scan_t
  | _, none, best_fit_node, _ => some (.finished best_fit_node)
  | 0, some _, _, _ => none
  | fuel + 1, some current_node, best_fit_node, best_fit_size =>
    match load cells current_node with
    | none => none
    | some n =>
      if !n.free then
        GL_HeapAllocate_scan cells size alignment fuel n.next best_fit_node best_fit_size
      else if alignment = 0 then none
      else
        let aligned_size := (size + align_padding n.offset alignment) % 2 ^ 64
        if n.size = aligned_size then some (.exact_fit current_node)
        else if n.size > aligned_size ∧ n.size < best_fit_size then
          GL_HeapAllocate_scan cells size alignment fuel n.next (some current_node) n.size
        else
          GL_HeapAllocate_scan cells size alignment fuel n.next best_fit_node best_fit_size

/-- The split of `best_fit_node` (lines 107-131 of the source): the new store, the new
node and the aligned offset. -/
def GL_HeapAllocate_split (heap : glheap_t) (size alignment best_fit_node : Nat) :
    Option (glheap_t × Nat × Nat) := do
  let b ← load heap.cells best_fit_node
  let padding := align_padding b.offset alignment
  let aligned_size := (size + padding) % 2 ^ 64
  -- new_node = Mem_Alloc (...); *new_node = *best_fit_node;
  let (new_node, m) := Mem_Alloc heap.cells b
  -- new_node->prev = best_fit_node->prev; new_node->next = best_fit_node;
  let m ← modify m new_node (fun n => { n with prev := b.prev, next := some best_fit_node })
  -- if (best_fit_node->prev) best_fit_node->prev->next = new_node;
  let m ← match b.prev with
    | none => some m
    | some q => modify m q (fun n => { n with next := some new_node })
  -- best_fit_node->prev = new_node; new_node->free = false;
  let m ← modify m best_fit_node (fun n => { n with prev := some new_node })
  let m ← modify m new_node (fun n => { n with free := false })
  -- new_node->size = aligned_size;
  let m ← modify m new_node (fun n => { n with size := aligned_size })
  -- best_fit_node->size -= aligned_size; best_fit_node->offset += aligned_size;
  let m ← modify m best_fit_node (fun n => { n with size := (n.size + 2 ^ 64 - aligned_size) % 2 ^ 64 })
  let m ← modify m best_fit_node (fun n => { n with offset := (n.offset + aligned_size) % 2 ^ 64 })
  -- if (best_fit_node == heap->head) heap->head = new_node;
  let head := if best_fit_node = heap.head then new_node else heap.head
  -- *aligned_offset = new_node->offset + align_padding;
  let n ← load m new_node
  some ({ head := head, cells := m }, new_node, (n.offset + padding) % 2 ^ 64)

/-- `GL_HeapAllocate`: the heap afterwards, the returned node (`none` is `NULL`) and
`*aligned_offset`.  The outer `none` is undefined behaviour. -/
def GL_HeapAllocate (heap : glheap_t) (size alignment : Nat) :
    Option (glheap_t × Option Nat × Nat) :=
  match GL_HeapAllocate_scan heap.cells size alignment heap.cells.length (some heap.head)
      none UINT64_MAX with
  | none => none
  | some (.exact_fit current_node) => do
    let n ← load heap.cells current_node
    -- current_node->free = false;
    let m ← modify heap.cells current_node (fun x => { x with free := false })
    -- *aligned_offset = current_node->offset + align_padding;
    some ({ heap with cells := m }, some current_node,
      (n.offset + align_padding n.offset alignment) % 2 ^ 64)
  | some (.finished (some best_fit_node)) => do
    let (heap, new_node, aligned_offset) ← GL_HeapAllocate_split heap size alignment best_fit_node
    some (heap, some new_node, aligned_offset)
  | some (.finished none) => some (heap, none, 0)

/-- How a call that may reach `Sys_Error` ends. -/
inductive status_t where
  | returned
  | sys_error
  | fault
  deriving DecidableEq, Repr

/-- First `if` of `GL_HeapFree` (lines 148-160): merge `node` into a free predecessor.
Yields the store and the node the second `if` looks at. -/
def GL_HeapFree_prev (m : List (Option glheapnode_t)) (node : Nat) :
    Option (List (Option glheapnode_t) × Nat) := do
  let n ← load m node
  match n.prev with
  | none => some (m, node)
  | some prev =>
    let p ← load m prev
    if p.free then
      -- prev->next = node->next;
      let m ← modify m prev (fun x => { x with next := n.next })
      -- if (node->next) node->next->prev = prev;
      let m ← match n.next with
        | none => some m
        | some nx => modify m nx (fun x => { x with prev := some prev })
      -- prev->size += node->size;
      let m ← modify m prev (fun x => { x with size := (x.size + n.size) % 2 ^ 64 })
      -- Mem_Free (node); node = prev;
      let m ← Mem_Free m node
      some (m, prev)
    else some (m, node)

/-- Second `if` of `GL_HeapFree` (lines 162-173): merge a free successor into `node`. -/
def GL_HeapFree_next (m : List (Option glheapnode_t)) (node : Nat) :
    Option (List (Option glheapnode_t)) := do
  let n ← load m node
  match n.next with
  | none => some m
  | some next =>
    let x ← load m next
    if x.free then
      -- if (next->next) next->next->prev = node;
      let m ← match x.next with
        | none => some m
        | some nn => modify m nn (fun y => { y with prev := some node })
      -- node->next = next->next;
      let m ← modify m node (fun y => { y with next := x.next })
      -- node->size += next->size;
      let m ← modify m node (fun y => { y with size := (y.size + x.size) % 2 ^ 64 })
      -- Mem_Free (next);
      Mem_Free m next
    else some m

/-- `GL_HeapFree`.  Status `sys_error` is the call of
`Sys_Error ("Trying to free a node that is already freed")`; status `fault` is a `node`
that does not point to an allocated node (or a broken list). -/
def GL_HeapFree (heap : glheap_t) (node : Nat) : glheap_t × status_t :=
  match load heap.cells node with
  | none => (heap, .fault)
  | some n =>
    if n.free then (heap, .sys_error)
    else
      -- node->free = true;
      match (modify heap.cells node (fun x => { x with free := true })).bind
          (fun m => (GL_HeapFree_prev m node).bind
            (fun r => GL_HeapFree_next r.1 r.2)) with
      | none => (heap, .fault)
      | some m => ({ heap with cells := m }, .returned)

/-- `GL_IsHeapEmpty`: `heap->head->next == NULL`. -/
def GL_IsHeapEmpty (heap : glheap_t) : Option Bool :=
  (load heap.cells heap.head).map (fun n => n.next.isNone)

/-! ## Reading a heap -/

/-- What a node says about the heap's memory: its range and whether it is free. -/
structure range_t where
  offset : Nat
  size : Nat
  free : Bool
  deriving DecidableEq, Repr

/-- The range of a node. -/
def glheapnode_t.range (n : glheapnode_t) : range_t :=
  { offset := n.offset, size := n.size, free := n.free }

/-- The nodes met by following `next` from `current_node`, at most `fuel` of them: the
address and the range of each. -/
def walk (cells : List (Option glheapnode_t)) : Nat → Option Nat → List (Nat × range_t)
  | 0, _ => []
  | _ + 1, none => []
  | fuel + 1, some current_node =>
    match load cells current_node with
    | none => []
    | some n => (current_node, n.range) :: walk cells fuel n.next

/-- The node list of a heap read from `head`: address and range of every node. -/
def glheap_t.nodes (heap : glheap_t) : List (Nat × range_t) :=
  walk heap.cells heap.cells.length (some heap.head)

/-- The node list of a heap read from `head`, as ranges. -/
def glheap_t.ranges (heap : glheap_t) : List range_t :=
  heap.nodes.map Prod.snd

/-! ## Pool of heaps -/

/-- `GL_DestroyHeap`: releases the head node and the heap object (the device memory and the
wait for the device are external). -/
def GL_DestroyHeap (objects : List (Option glheap_t)) (heap : Nat) :
    Option (List (Option glheap_t)) := do
  let h ← load objects heap
  -- Mem_Free (heap->head);
  let _ ← Mem_Free h.cells h.head
  -- Mem_Free (heap);
  Mem_Free objects heap

/-- The state the pool functions read and write through their pointer arguments:
`*num_heaps`, the slot array `*heaps` (a slot holds a heap pointer or `NULL`), the heap
objects, and the counter `*num_allocations` (a 32-bit unsigned integer). -/
structure pool_t where
  num_heaps : Nat
  heaps : List (Option Nat)
  objects : List (Option glheap_t)
  num_allocations : Nat
  deriving DecidableEq, Repr

/-- How `GL_AllocateFromHeaps` ends: with `aligned_offset`, `*heap` and `*heap_node`, in
`Sys_Error ("Could not allocate memory in '%s' heap")`, or undefined. -/
inductive alloc_t where
  | allocated (aligned_offset heap heap_node : Nat)
  | sys_error
  | fault
  deriving DecidableEq, Repr

/-- The `for` loop of `GL_AllocateFromHeaps` with `remaining` iterations to go, the next
one for slot `i` (`remaining + i = num_heaps_allocated + 1`).  Leaving the loop, by its
condition or by `break`, reaches `Sys_Error`. -/
def GL_AllocateFromHeaps_loop (heap_size size alignment num_heaps_allocated : Nat) :
    Nat → Nat → pool_t → pool_t × alloc_t
  | 0, _, pool => (pool, .sys_error)
  | remaining + 1, i, pool =>
    -- if (i == num_heaps_allocated) { *heaps = Mem_Realloc (...); (*heaps)[i] = NULL;
    --   *num_heaps = num_heaps_allocated + 1; }
    let pool :=
      if i = num_heaps_allocated then
        { pool with
          heaps := pool.heaps.take num_heaps_allocated ++ [none]
          num_heaps := num_heaps_allocated + 1 }
      else pool
    match pool.heaps[i]? with
    | none => (pool, .fault)
    | some slot =>
      -- if (!(*heaps)[i]) { (*heaps)[i] = GL_CreateHeap (...);
      --   Atomic_IncrementUInt32 (num_allocations); new_heap = true; }
      let (pool, heap, new_heap) :=
        match slot with
        | some heap => (pool, heap, false)
        | none =>
          let (heap, objects) := Mem_Alloc pool.objects (GL_CreateHeap heap_size)
          ({ pool with
              heaps := pool.heaps.set i (some heap)
              objects := objects
              num_allocations := (pool.num_allocations + 1) % 2 ^ 32 }, heap, true)
      -- node = GL_HeapAllocate ((*heaps)[i], size, alignment, &aligned_offset);
      match (load pool.objects heap).bind (fun h => GL_HeapAllocate h size alignment) with
      | none => (pool, .fault)
      | some (h, some node, aligned_offset) =>
        ({ pool with objects := pool.objects.set heap (some h) },
          .allocated aligned_offset heap node)
      | some (h, none, _) =>
        let pool := { pool with objects := pool.objects.set heap (some h) }
        if new_heap then (pool, .sys_error)
        else GL_AllocateFromHeaps_loop heap_size size alignment num_heaps_allocated
          remaining (i + 1) pool

/-- `GL_AllocateFromHeaps`: the pool afterwards and how the call ended. -/
def GL_AllocateFromHeaps (pool : pool_t) (heap_size size alignment : Nat) :
    pool_t × alloc_t :=
  GL_AllocateFromHeaps_loop heap_size size alignment pool.num_heaps (pool.num_heaps + 1) 0 pool

/-- The loop at the end of `GL_FreeFromHeaps`: every slot below `num_heaps` that holds
`heap` becomes `NULL`. -/
def clear_slots (num_heaps : Nat) (heaps : List (Option Nat)) (heap : Nat) :
    List (Option Nat) :=
  (heaps.take num_heaps).map (fun slot => if slot = some heap then none else slot)
    ++ heaps.drop num_heaps

/-- `GL_FreeFromHeaps` on the pool's own `num_heaps`, `heaps` and `num_allocations`.
Status `sys_error` is the `Sys_Error` of `GL_HeapFree`. -/
def GL_FreeFromHeaps (pool : pool_t) (heap heap_node : Nat) : pool_t × status_t :=
  match load pool.objects heap with
  | none => (pool, .fault)
  | some h =>
    -- GL_HeapFree (heap, heap_node);
    match GL_HeapFree h heap_node with
    | (_, .fault) => (pool, .fault)
    | (_, .sys_error) => (pool, .sys_error)
    | (h, .returned) =>
      let objects := pool.objects.set heap (some h)
      -- if (GL_IsHeapEmpty (heap))
      match GL_IsHeapEmpty h with
      | none => (pool, .fault)
      | some false => ({ pool with objects := objects }, .returned)
      | some true =>
        -- Atomic_DecrementUInt32 (num_allocations); GL_DestroyHeap (heap);
        match GL_DestroyHeap objects heap with
        | none => (pool, .fault)
        | some objects =>
          ({ pool with
              num_allocations := (pool.num_allocations + 2 ^ 32 - 1) % 2 ^ 32
              objects := objects
              heaps := clear_slots pool.num_heaps pool.heaps heap }, .returned)

/-- The number of occupied (non-`NULL`) slots of a pool. -/
def pool_t.occupied (pool : pool_t) : Nat :=
  (pool.heaps.filter (fun slot => slot.isSome)).length

/-- Address of the first node of `L`, or `d` when `L` is empty. -/
def first_or (L : List (Nat × range_t)) (d : Option Nat) : Option Nat :=
  match L with
  | [] => d
  | x :: _ => some x.1

/-- Address of the last node of `L`, or `d` when `L` is empty. -/
def last_or (L : List (Nat × range_t)) (d : Option Nat) : Option Nat :=
  match L with
  | [] => d
  | x :: L => last_or L (some x.1)

/-- The nodes `L` are allocated in `m` with the listed ranges and are linked one to the
next in both directions; the first one's `prev` is `before` and the last one's `next` is
`after`. -/
def Seg (m : List (Option glheapnode_t)) (before : Option Nat) :
    List (Nat × range_t) → Option Nat → Prop
  | [], _ => True
  | x :: L, after =>
    (∃ n, load m x.1 = some n ∧ n.range = x.2 ∧ n.prev = before ∧ n.next = first_or L after)
      ∧ Seg m (some x.1) L after

/-- The store `m` holds exactly the doubly linked list `L`, starting at `head`. -/
structure Linked (m : List (Option glheapnode_t)) (head : Nat) (L : List (Nat × range_t)) :
    Prop where
  head_eq : first_or L none = some head
  seg : Seg m none L none
  nodup : (L.map Prod.fst).Nodup
  live : ∀ p, (load m p).isSome → p ∈ L.map Prod.fst

/-- The heap's store holds a properly linked list (and nothing else). -/
def glheap_t.WF (heap : glheap_t) : Prop :=
  Linked heap.cells heap.head heap.nodes

/-- Addresses of a node list. -/
def addrs (L : List (Nat × range_t)) : List Nat := L.map Prod.fst

/-- `aligned_size` of `GL_HeapAllocate` for a node at `offset`. -/
def aligned_size (size alignment offset : Nat) : Nat :=
  (size + align_padding offset alignment) % 2 ^ 64

/-- The scanning loop of `GL_HeapAllocate` over the node list it walks. -/
def scan_list (size alignment : Nat) : List (Nat × range_t) → Option Nat → Nat → scan_t
  | [], best_fit_node, _ => .finished best_fit_node
  | x :: L, best_fit_node, best_fit_size =>
    if !x.2.free then scan_list size alignment L best_fit_node best_fit_size
    else if x.2.size = aligned_size size alignment x.2.offset then .exact_fit x.1
    else if x.2.size > aligned_size size alignment x.2.offset ∧ x.2.size < best_fit_size then
      scan_list size alignment L (some x.1) x.2.size
    else scan_list size alignment L best_fit_node best_fit_size

/-- The first `if` of `GL_HeapFree` on the node list: `x`, with the nodes `A` before it, is
merged into the last node of `A` when that one is free.  Yields the nodes before the
current node, and the current node. -/
def coalesce_prev (A : List (Nat × range_t)) (x : Nat × range_t) :
    List (Nat × range_t) × (Nat × range_t) :=
  match A.getLast? with
  | none => (A, x)
  | some q =>
    if q.2.free then (A.dropLast, (q.1, { q.2 with size := (q.2.size + x.2.size) % 2 ^ 64 }))
    else (A, x)

/-- The second `if` of `GL_HeapFree` on the node list: the first node of `B`, when free, is
merged into `x`. -/
def coalesce_next (x : Nat × range_t) (B : List (Nat × range_t)) :
    (Nat × range_t) × List (Nat × range_t) :=
  match B with
  | [] => (x, B)
  | y :: B0 =>
    if y.2.free then ((x.1, { x.2 with size := (x.2.size + y.2.size) % 2 ^ 64 }), B0)
    else (x, B)

/-- The node list after `GL_HeapFree` of the node `x` that stands between `A` and `B`. -/
def free_list (A : List (Nat × range_t)) (x : Nat × range_t) (B : List (Nat × range_t)) :
    List (Nat × range_t) :=
  let c := coalesce_prev A (x.1, { x.2 with free := true })
  let d := coalesce_next c.2 B
  c.1 ++ d.1 :: d.2

/-- Partition invariant: the list is not empty, its first node is at offset 0, every later
node starts where its predecessor ends, and the sizes sum to `S`. -/
def partition_inv (S : Nat) (l : List range_t) : Prop :=
  l ≠ [] ∧ (∀ r ∈ l.head?, r.offset = 0)
    ∧ l.Chain' (fun a b => b.offset = a.offset + a.size)
    ∧ (l.map range_t.size).sum = S

/-- No two list-adjacent nodes are both free. -/
def no_adjacent_free (l : List range_t) : Prop :=
  l.Chain' (fun a b => ¬ (a.free = true ∧ b.free = true))

/-- The ranges `l`, in order, tile `[s, e)` without gap or overlap. -/
def tiles : Nat → List range_t → Nat → Prop
  | s, [], e => s = e
  | s, r :: l, e => r.offset = s ∧ tiles (s + r.size) l e

/-- The same invariant by recursion on the list, with the flag of the node before. -/
def naf : Bool → List range_t → Prop
  | _, [] => True
  | b, r :: l => ¬ (b = true ∧ r.free = true) ∧ naf r.free l

/-- The heap states reachable from `GL_CreateHeap S` by calls of `GL_HeapAllocate` (any size,
any alignment above 0, whatever they return) and calls of `GL_HeapFree` on nodes that are
marked used. -/
inductive Reachable (S : Nat) : glheap_t → Prop
  | create : Reachable S (GL_CreateHeap S)
  | allocate {heap heap2 : glheap_t} {size alignment : Nat} {node : Option Nat}
      {aligned_offset : Nat} :
      Reachable S heap → 0 < alignment →
      GL_HeapAllocate heap size alignment = some (heap2, node, aligned_offset) →
      Reachable S heap2
  | free {heap : glheap_t} {node : Nat} {n : glheapnode_t} :
      Reachable S heap → load heap.cells node = some n → n.free = false →
      Reachable S (GL_HeapFree heap node).1

/-- A heap of 1024 bytes after `GL_HeapAllocate (100, 16)`. -/
def demo_heap_1 : glheap_t :=
  { head := 1
    cells := [some { offset := 100, size := 924, prev := some 1, next := none, free := true },
              some { offset := 0, size := 100, prev := none, next := some 0, free := false }] }

/-- The same heap after a second `GL_HeapAllocate (50, 16)`. -/
def demo_heap_2 : glheap_t :=
  { head := 1
    cells := [some { offset := 162, size := 862, prev := some 2, next := none, free := true },
              some { offset := 0, size := 100, prev := none, next := some 2, free := false },
              some { offset := 100, size := 62, prev := some 1, next := some 0, free := false }] }

/-- The heap `demo_heap_2` after `GL_HeapFree` of its first node (address 1). -/
def demo_heap_3 : glheap_t :=
  { head := 1
    cells := [some { offset := 162, size := 862, prev := some 2, next := none, free := true },
              some { offset := 0, size := 100, prev := none, next := some 2, free := true },
              some { offset := 100, size := 62, prev := some 1, next := some 0, free := false }] }

/-- The invariants of one heap of a pool whose heaps have size `heap_size`. -/
def heap_ok (heap_size : Nat) (heap : glheap_t) : Prop :=
  heap.WF ∧ partition_inv heap_size heap.ranges ∧ no_adjacent_free heap.ranges

/-- A well-formed pool: `num_heaps` is the length of the slot array, every occupied slot
points to an allocated heap object that satisfies the heap invariants, and no heap occupies
two slots. -/
structure pool_ok (heap_size : Nat) (pool : pool_t) : Prop where
  count : pool.num_heaps = pool.heaps.length
  heaps_ok : ∀ (i hp : Nat), pool.heaps[i]? = some (some hp) →
    ∃ h, load pool.objects hp = some h ∧ heap_ok heap_size h
  distinct : ∀ (i j hp : Nat), pool.heaps[i]? = some (some hp) →
    pool.heaps[j]? = some (some hp) →
    i = j

/-- Slot `j` holds a heap on which `GL_HeapAllocate` returns `NULL` for the request. -/
def slot_fails (pool : pool_t) (size alignment j : Nat) : Prop :=
  ∃ hp h, pool.heaps[j]? = some (some hp) ∧ load pool.objects hp = some h
    ∧ GL_HeapAllocate h size alignment = some (h, none, 0)

/-- The pool after a new heap, in state `h2`, has been put into slot `k`; when
`k = num_heaps` the slot array has been grown by that slot. -/
def fresh_pool (pool : pool_t) (k : Nat) (h2 : glheap_t) : pool_t :=
  { num_heaps := if k = pool.num_heaps then pool.num_heaps + 1 else pool.num_heaps
    heaps := (if k = pool.num_heaps then pool.heaps ++ [none] else pool.heaps).set k
      (some pool.objects.length)
    objects := pool.objects ++ [some h2]
    num_allocations := (pool.num_allocations + 1) % 2 ^ 32 }

/-- What `GL_AllocateFromHeaps` does: the slots below some `k` hold heaps that cannot serve
the request; either slot `k` holds a heap that serves it, or slot `k` is the first empty
slot (or the slot appended to a full array) and the request goes to a heap created there,
ending in `Sys_Error` when the new heap cannot serve it either. -/
def alloc_outcome (pool : pool_t) (heap_size size alignment : Nat)
    (result : pool_t × alloc_t) : Prop :=
  ∃ k, k ≤ pool.num_heaps ∧ (∀ j, j < k → slot_fails pool size alignment j)
    ∧ ((∃ hp h h2 node off, pool.heaps[k]? = some (some hp) ∧ load pool.objects hp = some h
          ∧ GL_HeapAllocate h size alignment = some (h2, some node, off)
          ∧ result = ({ pool with objects := pool.objects.set hp (some h2) },
              .allocated off hp node))
      ∨ ((k = pool.num_heaps ∨ pool.heaps[k]? = some none)
          ∧ ∃ h2 node off,
            GL_HeapAllocate (GL_CreateHeap heap_size) size alignment = some (h2, node, off)
            ∧ result = (fresh_pool pool k h2,
                match node with
                | some node => .allocated off pool.objects.length node
                | none => .sys_error)))

/-- A heap can satisfy a request: `GL_HeapAllocate` returns a node. -/
def serves (heap : glheap_t) (size alignment : Nat) : Prop :=
  ∃ heap2 node off, GL_HeapAllocate heap size alignment = some (heap2, some node, off)

/-- The pool with no slot. -/
def demo_pool_0 : pool_t :=
  { num_heaps := 0, heaps := [], objects := [], num_allocations := 0 }

/-- The pool (heaps of 1024 bytes) after a first request `(100, 16)`. -/
def demo_pool_1 : pool_t :=
  { num_heaps := 1, heaps := [some 0], objects := [some demo_heap_1], num_allocations := 1 }

/-- The pool `demo_pool_1` after a second request `(1000, 16)`, served by a second heap. -/
def demo_pool_2 : pool_t :=
  { num_heaps := 2
    heaps := [some 0, some 1]
    objects := [some demo_heap_1,
      some { head := 1
             cells := [some { offset := 1000, size := 24, prev := some 1, next := none,
                              free := true },
                       some { offset := 0, size := 1000, prev := none, next := some 0,
                              free := false }] }]
    num_allocations := 2 }

/-- The pool `demo_pool_2` after the allocation in its first heap has been freed: the first
heap is destroyed and slot 0 is empty. -/
def demo_pool_3 : pool_t :=
  { num_heaps := 2
    heaps := [none, some 1]
    objects := [none,
      some { head := 1
             cells := [some { offset := 1000, size := 24, prev := some 1, next := none,
                              free := true },
                       some { offset := 0, size := 1000, prev := none, next := some 0,
                              free := false }] }]
    num_allocations := 1 }

/-- The pool states reachable from the pool with no slot and counter 0 by calls of
`GL_AllocateFromHeaps` (any size, any alignment above 0, also calls that end in
`Sys_Error`) and calls of `GL_FreeFromHeaps` on live allocations: a heap in a slot and a node
of it that is marked used. -/
inductive PoolReachable (heap_size : Nat) : pool_t → Prop
  | empty : PoolReachable heap_size
      { num_heaps := 0, heaps := [], objects := [], num_allocations := 0 }
  | allocate {pool : pool_t} {size alignment : Nat} :
      PoolReachable heap_size pool → 0 < alignment →
      PoolReachable heap_size (GL_AllocateFromHeaps pool heap_size size alignment).1
  | free {pool : pool_t} {i hp : Nat} {h : glheap_t} {node : Nat} {n : glheapnode_t} :
      PoolReachable heap_size pool → pool.heaps[i]? = some (some hp) →
      load pool.objects hp = some h → load h.cells node = some n → n.free = false →
      PoolReachable heap_size (GL_FreeFromHeaps pool hp node).1

/-- The number of occupied slots of a slot array. -/
def occ (l : List (Option Nat)) : Nat :=
  (l.filter (fun slot => slot.isSome)).length

/-- The heap `demo_heap_1` after `GL_HeapAllocate (2 ^ 64 - 4, 16)`: the needed size has
wrapped to 8. -/
def demo_heap_wrap : glheap_t :=
  { head := 1
    cells := [some { offset := 108, size := 916, prev := some 2, next := none, free := true },
              some { offset := 0, size := 100, prev := none, next := some 2, free := false },
              some { offset := 100, size := 8, prev := some 1, next := some 0, free := false }] }

/-- The heap after a call of `GL_HeapAllocate` (the heap itself where the call is
undefined). -/
def heap_after_allocate (heap : glheap_t) (size alignment : Nat) : glheap_t :=
  match GL_HeapAllocate heap size alignment with
  | some (heap2, _, _) => heap2
  | none => heap

/-- A heap of 352 bytes after `GL_HeapAllocate` of 96, 64, 64 and 64 bytes (alignment 16). -/
def demo_heap_full : glheap_t :=
  { head := 1
    cells := [some { offset := 288, size := 64, prev := some 4, next := none, free := true },
              some { offset := 0, size := 96, prev := none, next := some 2, free := false },
              some { offset := 96, size := 64, prev := some 1, next := some 3, free := false },
              some { offset := 160, size := 64, prev := some 2, next := some 4, free := false },
              some { offset := 224, size := 64, prev := some 3, next := some 0,
                     free := false }] }

/-- The heap `demo_heap_full` after `GL_HeapFree` of the nodes at offsets 0 and 160: the free
nodes are 0/96, 160/64 and 288/64. -/
def demo_heap_tie : glheap_t :=
  { head := 1
    cells := [some { offset := 288, size := 64, prev := some 4, next := none, free := true },
              some { offset := 0, size := 96, prev := none, next := some 2, free := true },
              some { offset := 96, size := 64, prev := some 1, next := some 3, free := false },
              some { offset := 160, size := 64, prev := some 2, next := some 4, free := true },
              some { offset := 224, size := 64, prev := some 3, next := some 0,
                     free := false }] }

/-- The heap `demo_heap_tie` after `GL_HeapAllocate (32, 16)`: the first of the two free nodes
of 64 bytes has been split. -/
def demo_heap_tie_2 : glheap_t :=
  { head := 1
    cells := [some { offset := 288, size := 64, prev := some 4, next := none, free := true },
              some { offset := 0, size := 96, prev := none, next := some 2, free := true },
              some { offset := 96, size := 64, prev := some 1, next := some 5, free := false },
              some { offset := 192, size := 32, prev := some 5, next := some 4, free := true },
              some { offset := 224, size := 64, prev := some 3, next := some 0, free := false },
              some { offset := 160, size := 32, prev := some 2, next := some 3,
                     free := false }] }

/-- The immediate predecessor of a node whose predecessors are `A`, when it is free (a list of
no or one node). -/
def free_pred (A : List (Nat × range_t)) : List (Nat × range_t) :=
  (A.getLast?.filter (fun q => q.2.free)).toList

/-- The immediate successor of a node whose successors are `B`, when it is free (a list of no
or one node). -/
def free_succ (B : List (Nat × range_t)) : List (Nat × range_t) :=
  (B.head?.filter (fun q => q.2.free)).toList

/-- The heap states reachable from `GL_CreateHeap S` by calls of `GL_HeapAllocate` with an
alignment above 0, a size above 0 and `size + alignment` within the 64-bit range (whatever
they return), and calls of `GL_HeapFree` on nodes that are marked used. -/
inductive ReachablePos (S : Nat) : glheap_t → Prop
  | create : ReachablePos S (GL_CreateHeap S)
  | allocate {heap heap2 : glheap_t} {size alignment : Nat} {node : Option Nat}
      {aligned_offset : Nat} :
      ReachablePos S heap → 0 < alignment → 0 < size → size + alignment ≤ 2 ^ 64 →
      GL_HeapAllocate heap size alignment = some (heap2, node, aligned_offset) →
      ReachablePos S heap2
  | free {heap : glheap_t} {node : Nat} {n : glheapnode_t} :
      ReachablePos S heap → load heap.cells node = some n → n.free = false →
      ReachablePos S (GL_HeapFree heap node).1

/-- A heap of 1024 bytes after `GL_HeapAllocate (0, 16)`. -/
def demo_heap_zero : glheap_t :=
  { head := 1
    cells := [some { offset := 0, size := 1024, prev := some 1, next := none, free := true },
              some { offset := 0, size := 0, prev := none, next := some 0, free := false }] }

/-! # Theorems -/

/-! ## Linked lists in the node store -/

/-! ### Store lemmas -/

theorem load_lt {α : Type} {m : List (Option α)} {p : Nat} {v : α} (h : load m p = some v) :
    p < m.length := by
  unfold load at h
  by_contra hlt
  rw [List.getElem?_eq_none (by omega)] at h
  simp at h

theorem load_set_eq {α : Type} (m : List (Option α)) (p : Nat) (v : Option α)
    (h : p < m.length) : load (m.set p v) p = v := by
  simp [load, List.getElem?_set, h]

theorem load_set_ne {α : Type} (m : List (Option α)) {p q : Nat} (v : Option α)
    (h : q ≠ p) : load (m.set p v) q = load m q := by
  simp [load, List.getElem?_set, Ne.symm h]

theorem load_append_left {α : Type} (m l : List (Option α)) {p : Nat} (h : p < m.length) :
    load (m ++ l) p = load m p := by
  simp [load, List.getElem?_append_left h]

theorem load_append_new {α : Type} (m : List (Option α)) (v : α) :
    load (m ++ [some v]) m.length = some v := by
  simp [load]

theorem load_length {α : Type} (m : List (Option α)) : load m m.length = none := by
  simp [load]

theorem modify_eq {α : Type} {m : List (Option α)} {p : Nat} {v : α} (f : α → α)
    (h : load m p = some v) : modify m p f = some (m.set p (some (f v))) := by
  simp [modify, h]

/-! ### Segments -/

@[simp] theorem first_or_nil (d : Option Nat) : first_or [] d = d := rfl

@[simp] theorem first_or_cons (x : Nat × range_t) (L : List (Nat × range_t)) (d : Option Nat) :
    first_or (x :: L) d = some x.1 := rfl

@[simp] theorem last_or_nil (d : Option Nat) : last_or [] d = d := rfl

@[simp] theorem last_or_cons (x : Nat × range_t) (L : List (Nat × range_t)) (d : Option Nat) :
    last_or (x :: L) d = last_or L (some x.1) := rfl

theorem first_or_append (A B : List (Nat × range_t)) (d : Option Nat) :
    first_or (A ++ B) d = first_or A (first_or B d) := by
  cases A <;> simp

theorem last_or_append (A B : List (Nat × range_t)) (d : Option Nat) :
    last_or (A ++ B) d = last_or B (last_or A d) := by
  induction A generalizing d with
  | nil => simp
  | cons x A ih => simp [ih]

@[simp] theorem seg_nil (m : List (Option glheapnode_t)) (b a : Option Nat) :
    Seg m b [] a = True := rfl

theorem seg_cons (m : List (Option glheapnode_t)) (b a : Option Nat) (x : Nat × range_t)
    (L : List (Nat × range_t)) :
    Seg m b (x :: L) a ↔
      (∃ n, load m x.1 = some n ∧ n.range = x.2 ∧ n.prev = b ∧ n.next = first_or L a)
        ∧ Seg m (some x.1) L a := Iff.rfl

theorem seg_append (m : List (Option glheapnode_t)) (A B : List (Nat × range_t))
    (b a : Option Nat) :
    Seg m b (A ++ B) a ↔ Seg m b A (first_or B a) ∧ Seg m (last_or A b) B a := by
  induction A generalizing b with
  | nil => simp
  | cons x A ih =>
    simp only [List.cons_append, seg_cons, ih, first_or_append, last_or_cons]
    tauto

theorem seg_frame {m m2 : List (Option glheapnode_t)} {L : List (Nat × range_t)}
    {b a : Option Nat} (hfr : ∀ x ∈ L, load m2 x.1 = load m x.1) (h : Seg m b L a) :
    Seg m2 b L a := by
  induction L generalizing b with
  | nil => trivial
  | cons x L ih =>
    rw [seg_cons] at h ⊢
    refine ⟨?_, ih (fun y hy => hfr y (List.mem_cons_of_mem _ hy)) h.2⟩
    rw [hfr x (List.mem_cons_self _ _)]
    exact h.1

theorem seg_mem {m : List (Option glheapnode_t)} {L : List (Nat × range_t)}
    {b a : Option Nat} (h : Seg m b L a) {x : Nat × range_t} (hx : x ∈ L) :
    ∃ n, load m x.1 = some n ∧ n.range = x.2 := by
  induction L generalizing b with
  | nil => cases hx
  | cons y L ih =>
    rw [seg_cons] at h
    rcases List.mem_cons.1 hx with rfl | hx
    · obtain ⟨n, h1, h2, -⟩ := h.1
      exact ⟨n, h1, h2⟩
    · exact ih h.2 hx

theorem walk_of_seg {m : List (Option glheapnode_t)} {L : List (Nat × range_t)}
    {b : Option Nat} (h : Seg m b L none) (fuel : Nat) (hf : L.length ≤ fuel) :
    walk m fuel (first_or L none) = L := by
  induction L generalizing b fuel with
  | nil => cases fuel <;> rfl
  | cons x L ih =>
    rw [seg_cons] at h
    obtain ⟨⟨n, h1, h2, -, h4⟩, h5⟩ := h
    cases fuel with
    | zero => simp at hf
    | succ fuel =>
      simp only [first_or_cons, walk, h1, h4]
      rw [ih h5 fuel (by simpa using hf), h2]

theorem nodup_lt_length {l : List Nat} {n : Nat} (hd : l.Nodup) (hlt : ∀ p ∈ l, p < n) :
    l.length ≤ n := by
  have hsub : l ⊆ List.range n := fun p hp => List.mem_range.2 (hlt p hp)
  simpa using (List.subperm_of_subset hd hsub).length_le

theorem Linked.length_le {m : List (Option glheapnode_t)} {head : Nat}
    {L : List (Nat × range_t)} (h : Linked m head L) : L.length ≤ m.length := by
  have := nodup_lt_length h.nodup (n := m.length) (by
    intro p hp
    obtain ⟨x, hx, rfl⟩ := List.mem_map.1 hp
    obtain ⟨n, hn, -⟩ := seg_mem h.seg hx
    exact load_lt hn)
  simpa using this

theorem Linked.walk_eq {m : List (Option glheapnode_t)} {head : Nat}
    {L : List (Nat × range_t)} (h : Linked m head L) :
    walk m m.length (some head) = L := by
  rw [← h.head_eq]
  exact walk_of_seg h.seg _ h.length_le

theorem Linked.nodes_eq {heap : glheap_t} {L : List (Nat × range_t)}
    (h : Linked heap.cells heap.head L) : heap.nodes = L :=
  h.walk_eq

theorem Linked.heap_wf {heap : glheap_t} {L : List (Nat × range_t)}
    (h : Linked heap.cells heap.head L) : heap.WF := by
  unfold glheap_t.WF
  rw [h.nodes_eq]
  exact h

theorem Linked.load_of_mem {m : List (Option glheapnode_t)} {head : Nat}
    {L : List (Nat × range_t)} (h : Linked m head L) {x : Nat × range_t} (hx : x ∈ L) :
    ∃ n, load m x.1 = some n ∧ n.range = x.2 :=
  seg_mem h.seg hx

theorem Linked.mem_of_load {m : List (Option glheapnode_t)} {head : Nat}
    {L : List (Nat × range_t)} (h : Linked m head L) {p : Nat} {n : glheapnode_t}
    (hp : load m p = some n) : (p, n.range) ∈ L := by
  have hmem := h.live p (by simp [hp])
  obtain ⟨x, hx, rfl⟩ := List.mem_map.1 hmem
  obtain ⟨n2, h1, h2⟩ := seg_mem h.seg hx
  rw [hp] at h1
  cases h1
  rw [h2]
  exact hx

theorem linked_create (size : Nat) :
    Linked (GL_CreateHeap size).cells (GL_CreateHeap size).head
      [(0, { offset := 0, size := size, free := true })] := by
  refine ⟨rfl, ?_, by simp, ?_⟩
  · simp [seg_cons, GL_CreateHeap, load, glheapnode_t.range]
  · intro p hp
    simp only [GL_CreateHeap, load] at hp
    rcases p with _ | p
    · simp
    · simp at hp

@[simp] theorem addrs_nil : addrs [] = [] := rfl
@[simp] theorem addrs_cons (x : Nat × range_t) (L : List (Nat × range_t)) :
    addrs (x :: L) = x.1 :: addrs L := rfl

@[simp] theorem addrs_append (A B : List (Nat × range_t)) :
    addrs (A ++ B) = addrs A ++ addrs B := by simp [addrs]

theorem mem_addrs_of_mem {L : List (Nat × range_t)} {x : Nat × range_t} (h : x ∈ L) :
    x.1 ∈ addrs L := List.mem_map_of_mem _ h

theorem last_or_mem (A : List (Nat × range_t)) (d : Option Nat) {q : Nat}
    (h : last_or A d = some q) : d = some q ∨ q ∈ addrs A := by
  induction A generalizing d with
  | nil => left; simpa using h
  | cons x A ih =>
    rw [last_or_cons] at h
    rcases ih _ h with h1 | h1
    · right; simp at h1; simp [h1]
    · right; simp [h1]

theorem first_or_mem (A : List (Nat × range_t)) (d : Option Nat) {q : Nat}
    (h : first_or A d = some q) : d = some q ∨ q ∈ addrs A := by
  cases A with
  | nil => left; simpa using h
  | cons x A => right; simp at h; simp [h]

theorem last_or_concat (A : List (Nat × range_t)) (x : Nat × range_t) (d : Option Nat) :
    last_or (A ++ [x]) d = some x.1 := by
  rw [last_or_append]; rfl

/-- A node's range is rewritten in place; its links stay. -/
theorem linked_update {m m2 : List (Option glheapnode_t)} {head : Nat}
    {A B : List (Nat × range_t)} {p : Nat} {r r2 : range_t}
    (hL : Linked m head (A ++ (p, r) :: B))
    (hp : ∀ n, load m p = some n →
      ∃ n2, load m2 p = some n2 ∧ n2.range = r2 ∧ n2.prev = n.prev ∧ n2.next = n.next)
    (ho : ∀ q, q ≠ p → load m2 q = load m q) :
    Linked m2 head (A ++ (p, r2) :: B) := by
  have hnd := hL.nodup
  simp only [List.map_append, List.map_cons, List.nodup_append, List.nodup_cons,
    List.mem_map, List.disjoint_cons_right] at hnd
  have hseg := hL.seg
  rw [seg_append, seg_cons] at hseg
  obtain ⟨hA, ⟨n, hn1, hn2, hn3, hn4⟩, hB⟩ := hseg
  obtain ⟨n2, h21, h22, h23, h24⟩ := hp n hn1
  refine ⟨?_, ?_, ?_, ?_⟩
  · have := hL.head_eq
    rw [first_or_append] at this ⊢
    simpa using this
  · rw [seg_append, seg_cons]
    refine ⟨?_, ⟨n2, h21, h22, ?_, ?_⟩, ?_⟩
    · refine seg_frame (fun x hx => ho _ ?_) hA
      rintro rfl
      exact hnd.2.2.1 ⟨x, hx, rfl⟩
    · rw [h23, hn3]
    · rw [h24, hn4]
    · refine seg_frame (fun x hx => ho _ ?_) hB
      rintro rfl
      exact hnd.2.1.1 ⟨x, hx, rfl⟩
  · simpa using hL.nodup
  · intro q hq
    have : q ∈ List.map Prod.fst (A ++ (p, r) :: B) := by
      by_cases hqp : q = p
      · subst hqp; simp
      · rw [ho q hqp] at hq; exact hL.live q hq
    simpa using this

theorem Linked.not_mem_of_load_none {m : List (Option glheapnode_t)} {head : Nat}
    {L : List (Nat × range_t)} (h : Linked m head L) {a : Nat} (ha : load m a = none) :
    a ∉ addrs L := by
  intro hmem
  obtain ⟨x, hx, rfl⟩ := List.mem_map.1 hmem
  obtain ⟨n, hn, -⟩ := seg_mem h.seg hx
  rw [ha] at hn
  cases hn

theorem eq_nil_or_snoc {α : Type} (A : List α) : A = [] ∨ ∃ A0 x, A = A0 ++ [x] := by
  rcases List.eq_nil_or_concat A with h | ⟨A0, x, h⟩
  · exact Or.inl h
  · exact Or.inr ⟨A0, x, by simpa using h⟩

/-- A new node `a` is linked in before node `c`. -/
theorem linked_insert {m m2 : List (Option glheapnode_t)} {head : Nat}
    {A B : List (Nat × range_t)} {c a : Nat} {r ra rc : range_t}
    (hL : Linked m head (A ++ (c, r) :: B))
    (ha : load m a = none)
    (h_a : ∃ n, load m2 a = some n ∧ n.range = ra ∧ n.prev = last_or A none ∧ n.next = some c)
    (h_c : ∃ n, load m2 c = some n ∧ n.range = rc ∧ n.prev = some a ∧
      n.next = first_or B none)
    (h_q : ∀ q n, last_or A none = some q → load m q = some n →
      load m2 q = some { n with next := some a })
    (h_o : ∀ q, q ≠ a → q ≠ c → last_or A none ≠ some q → load m2 q = load m q) :
    Linked m2 (if A = [] then a else head) (A ++ (a, ra) :: (c, rc) :: B) := by
  have hfresh := hL.not_mem_of_load_none ha
  have hnd := hL.nodup
  have hseg := hL.seg
  have hlive : ∀ p, (load m2 p).isSome → p ∈ List.map Prod.fst (A ++ (a, ra) :: (c, rc) :: B) := by
    intro p hp
    by_cases hpa : p = a
    · subst hpa; simp
    by_cases hpc : p = c
    · subst hpc; simp
    by_cases hpq : last_or A none = some p
    · rcases last_or_mem A none hpq with h1 | h1
      · cases h1
      · have : p ∈ List.map Prod.fst A := h1
        simp only [List.map_append, List.mem_append]; left; exact this
    · rw [h_o p hpa hpc hpq] at hp
      have := hL.live p hp
      simp only [List.map_append, List.map_cons, List.mem_append, List.mem_cons] at this ⊢
      tauto
  have hnd2 : (List.map Prod.fst (A ++ (a, ra) :: (c, rc) :: B)).Nodup := by
    simp only [addrs_append, addrs_cons, List.mem_append, List.mem_cons, not_or] at hfresh
    simp only [List.map_append, List.map_cons, List.nodup_append, List.nodup_cons,
      List.disjoint_cons_right, List.mem_cons, not_or] at hnd ⊢
    refine ⟨hnd.1, ⟨⟨?_, hfresh.2.2⟩, hnd.2.1⟩, hfresh.1, hnd.2.2⟩
    exact fun h => hfresh.2.1 h
  simp only [List.map_append, List.map_cons, List.nodup_append, List.nodup_cons,
    List.mem_map, List.disjoint_cons_right] at hnd
  simp only [addrs_append, addrs_cons, List.mem_append, List.mem_cons, not_or] at hfresh
  rcases eq_nil_or_snoc A with rfl | ⟨A0, ⟨q, rq⟩, rfl⟩
  · refine ⟨by simp, ?_, hnd2, hlive⟩
    simp only [List.nil_append, seg_cons, last_or_nil, first_or_cons] at hseg h_a ⊢
    refine ⟨h_a, h_c, ?_⟩
    refine seg_frame (fun x hx => h_o _ ?_ ?_ (by simp)) hseg.2
    · rintro rfl; exact hfresh.2.2 (mem_addrs_of_mem hx)
    · rintro rfl; exact hnd.2.1.1 ⟨x, hx, rfl⟩
  · have hne : A0 ++ [(q, rq)] ≠ [] := by simp
    have hlast : last_or (A0 ++ [(q, rq)]) none = some q := last_or_concat _ _ _
    rw [hlast] at h_a h_q h_o
    refine ⟨?_, ?_, hnd2, hlive⟩
    · have := hL.head_eq
      rw [if_neg hne]
      simp only [List.append_assoc, first_or_append, List.singleton_append, first_or_cons]
        at this ⊢
      exact this
    · simp only [List.append_assoc, List.singleton_append, seg_append, seg_cons, first_or_cons]
        at hseg ⊢
      obtain ⟨hA0, ⟨nq, hq1, hq2, hq3, hq4⟩, ⟨nc, hc1, hc2, hc3, hc4⟩, hB⟩ := hseg
      have hqa : q ≠ a := fun h => hfresh.1 (by
        subst h; simp [addrs])
      have hqc : q ≠ c := fun h => hnd.2.2.1 ⟨(q, rq), by simp, h⟩
      refine ⟨?_, ⟨_, h_q q nq rfl hq1, hq2, hq3, rfl⟩, h_a, h_c, ?_⟩
      · refine seg_frame (fun x hx => h_o _ ?_ ?_ ?_) hA0
        · rintro rfl
          exact hfresh.1 (mem_addrs_of_mem (List.mem_append_left _ hx))
        · rintro rfl
          exact hnd.2.2.1 ⟨x, by simp [hx], rfl⟩
        · intro hx2
          have hx3 : q = x.1 := by simpa using hx2
          have := hnd.1
          rw [List.map_append, List.nodup_append] at this
          exact this.2.2 (List.mem_map_of_mem _ hx) (by simp [hx3])
      · refine seg_frame (fun x hx => h_o _ ?_ ?_ ?_) hB
        · rintro rfl; exact hfresh.2.2 (mem_addrs_of_mem hx)
        · rintro rfl; exact hnd.2.1.1 ⟨x, hx, rfl⟩
        · intro hx2
          have hx3 : q = x.1 := by simpa using hx2
          have h1 : q ∈ List.map Prod.fst (A0 ++ [(q, rq)]) := by simp
          have h2 : q ∈ List.map Prod.fst B := hx3 ▸ List.mem_map_of_mem _ hx
          exact hnd.2.2.2 h1 h2

/-- Node `y`, the successor of node `x`, is unlinked and released; `x` takes the range
`rx2`. -/
theorem linked_remove {m m2 : List (Option glheapnode_t)} {head : Nat}
    {A B : List (Nat × range_t)} {x y : Nat} {rx ry rx2 : range_t}
    (hL : Linked m head (A ++ (x, rx) :: (y, ry) :: B))
    (h_x : ∀ n, load m x = some n →
      ∃ n2, load m2 x = some n2 ∧ n2.range = rx2 ∧ n2.prev = n.prev ∧
        n2.next = first_or B none)
    (h_y : load m2 y = none)
    (h_z : ∀ z n, first_or B none = some z → load m z = some n →
      load m2 z = some { n with prev := some x })
    (h_o : ∀ q, q ≠ x → q ≠ y → first_or B none ≠ some q → load m2 q = load m q) :
    Linked m2 head (A ++ (x, rx2) :: B) := by
  have hnd := hL.nodup
  have hseg := hL.seg
  have hlive : ∀ p, (load m2 p).isSome → p ∈ List.map Prod.fst (A ++ (x, rx2) :: B) := by
    intro p hp
    by_cases hpx : p = x
    · subst hpx; simp
    by_cases hpy : p = y
    · subst hpy; rw [h_y] at hp; cases hp
    by_cases hpz : first_or B none = some p
    · rcases first_or_mem B none hpz with h1 | h1
      · cases h1
      · have : p ∈ List.map Prod.fst B := h1
        simp only [List.map_append, List.map_cons, List.mem_append, List.mem_cons]
        right; right; exact this
    · rw [h_o p hpx hpy hpz] at hp
      have := hL.live p hp
      simp only [List.map_append, List.map_cons, List.mem_append, List.mem_cons] at this ⊢
      tauto
  have hnd2 : (List.map Prod.fst (A ++ (x, rx2) :: B)).Nodup := by
    simp only [List.map_append, List.map_cons, List.nodup_append, List.nodup_cons,
      List.disjoint_cons_right, List.mem_cons, not_or] at hnd ⊢
    tauto
  simp only [List.map_append, List.map_cons, List.nodup_append, List.nodup_cons,
    List.mem_map, List.disjoint_cons_right, List.mem_cons, not_or] at hnd
  obtain ⟨hndA, ⟨⟨hxy, hxB⟩, hyB, hndB⟩, hxA, hyA, hAB⟩ := hnd
  simp only [seg_append, seg_cons, first_or_cons] at hseg
  obtain ⟨hA, ⟨nx, hx1, hx2, hx3, hx4⟩, ⟨ny, hy1, hy2, hy3, hy4⟩, hB⟩ := hseg
  obtain ⟨n2, h21, h22, h23, h24⟩ := h_x nx hx1
  refine ⟨?_, ?_, hnd2, hlive⟩
  · have := hL.head_eq
    rw [first_or_append] at this ⊢
    simpa using this
  · simp only [seg_append, seg_cons, first_or_cons]
    refine ⟨?_, ⟨n2, h21, h22, by rw [h23, hx3], h24⟩, ?_⟩
    · refine seg_frame (fun w hw => h_o _ ?_ ?_ ?_) hA
      · rintro rfl; exact hxA ⟨w, hw, rfl⟩
      · rintro rfl; exact hyA ⟨w, hw, rfl⟩
      · intro hz
        rcases first_or_mem B none hz with h1 | h1
        · cases h1
        · exact hAB (List.mem_map_of_mem _ hw) h1
    · cases B with
      | nil => trivial
      | cons z B0 =>
        simp only [seg_cons, first_or_cons, List.map_cons, List.nodup_cons, List.mem_map,
          List.mem_cons, not_or, not_exists, not_and] at hB hxB hyB hndB h_z h_o ⊢
        obtain ⟨⟨nz, hz1, hz2, hz3, hz4⟩, hB0⟩ := hB
        refine ⟨⟨_, h_z z.1 nz rfl hz1, hz2, rfl, hz4⟩, ?_⟩
        refine seg_frame (fun w hw => h_o _ ?_ ?_ ?_) hB0
        · rintro rfl; exact hxB w (Or.inr hw) rfl
        · rintro rfl; exact hyB w (Or.inr hw) rfl
        · intro hz
          have hz5 : z.1 = w.1 := by simpa using hz
          exact hndB.1 w hw hz5.symm

theorem scan_eq {m : List (Option glheapnode_t)} {L : List (Nat × range_t)} {b : Option Nat}
    (size : Nat) {alignment : Nat} (hal : alignment ≠ 0) (h : Seg m b L none) (fuel : Nat)
    (hf : L.length ≤ fuel) (best : Option Nat) (bs : Nat) :
    GL_HeapAllocate_scan m size alignment fuel (first_or L none) best bs
      = some (scan_list size alignment L best bs) := by
  induction L generalizing b fuel best bs with
  | nil => cases fuel <;> rfl
  | cons x L ih =>
    obtain ⟨p, r⟩ := x
    rw [seg_cons] at h
    obtain ⟨⟨n, h1, h2, -, h4⟩, h5⟩ := h
    subst h2
    cases fuel with
    | zero => simp at hf
    | succ fuel =>
      have hf2 : L.length ≤ fuel := by simpa using hf
      simp only [first_or_cons, GL_HeapAllocate_scan, h1, h4, scan_list, glheapnode_t.range,
        aligned_size, hal, if_false]
      split_ifs <;> first | rfl | exact ih h5 fuel hf2 _ _

/-- What the scan found, in terms of the node list. -/
theorem scan_list_exact {size alignment : Nat} {L : List (Nat × range_t)} {best : Option Nat}
    {bs p : Nat} (h : scan_list size alignment L best bs = .exact_fit p) :
    ∃ A r B, L = A ++ (p, r) :: B ∧ r.free = true ∧
      r.size = aligned_size size alignment r.offset ∧
      ∀ x ∈ A, x.2.free = true → x.2.size ≠ aligned_size size alignment x.2.offset := by
  induction L generalizing best bs with
  | nil => simp [scan_list] at h
  | cons x L ih =>
    obtain ⟨q, r⟩ := x
    simp only [scan_list] at h
    split_ifs at h with h1 h2 h3
    · obtain ⟨A, r2, B, rfl, hr⟩ := ih h
      refine ⟨(q, r) :: A, r2, B, rfl, hr.1, hr.2.1, ?_⟩
      intro x hx
      rcases List.mem_cons.1 hx with rfl | hx
      · intro hfree; simp_all
      · exact hr.2.2 x hx
    · cases h
      exact ⟨[], r, L, rfl, by simpa using h1, h2, by simp⟩
    · obtain ⟨A, r2, B, rfl, hr⟩ := ih h
      refine ⟨(q, r) :: A, r2, B, rfl, hr.1, hr.2.1, ?_⟩
      intro x hx
      rcases List.mem_cons.1 hx with rfl | hx
      · intro _; exact h2
      · exact hr.2.2 x hx
    · obtain ⟨A, r2, B, rfl, hr⟩ := ih h
      refine ⟨(q, r) :: A, r2, B, rfl, hr.1, hr.2.1, ?_⟩
      intro x hx
      rcases List.mem_cons.1 hx with rfl | hx
      · intro _; exact h2
      · exact hr.2.2 x hx

theorem scan_list_finished_some {size alignment : Nat} {L : List (Nat × range_t)}
    {best : Option Nat} {bs p : Nat}
    (h : scan_list size alignment L best bs = .finished (some p)) :
    best = some p ∨ ∃ A r B, L = A ++ (p, r) :: B ∧ r.free = true ∧
      aligned_size size alignment r.offset < r.size ∧ r.size < bs := by
  induction L generalizing best bs with
  | nil => left; simpa [scan_list] using h
  | cons x L ih =>
    obtain ⟨q, r⟩ := x
    simp only [scan_list] at h
    split_ifs at h with h1 h2 h3
    · rcases ih h with h4 | ⟨A, r2, B, rfl, hr⟩
      · exact Or.inl h4
      · exact Or.inr ⟨(q, r) :: A, r2, B, rfl, hr⟩
    · rcases ih h with h4 | ⟨A, r2, B, rfl, hr⟩
      · cases h4
        exact Or.inr ⟨[], r, L, rfl, by simpa using h1, h3.1, h3.2⟩
      · exact Or.inr ⟨(q, r) :: A, r2, B, rfl, hr.1, hr.2.1, lt_trans hr.2.2 h3.2⟩
    · rcases ih h with h4 | ⟨A, r2, B, rfl, hr⟩
      · exact Or.inl h4
      · exact Or.inr ⟨(q, r) :: A, r2, B, rfl, hr⟩

/-- A scan that runs to the end met no node of exactly the needed size. -/
theorem scan_list_finished_no_exact {size alignment : Nat} {L : List (Nat × range_t)}
    {best res : Option Nat} {bs : Nat}
    (h : scan_list size alignment L best bs = .finished res) :
    ∀ x ∈ L, x.2.free = true → x.2.size ≠ aligned_size size alignment x.2.offset := by
  induction L generalizing best bs with
  | nil => simp
  | cons x L ih =>
    simp only [scan_list] at h
    intro y hy hfree
    split_ifs at h with h1 h2 h3
    · rcases List.mem_cons.1 hy with rfl | hy
      · simp_all
      · exact ih h y hy hfree
    · rcases List.mem_cons.1 hy with rfl | hy
      · exact h2
      · exact ih h y hy hfree
    · rcases List.mem_cons.1 hy with rfl | hy
      · exact h2
      · exact ih h y hy hfree

/-- A scan that ends without a best fit met no free node larger than needed and smaller
than the initial `best_fit_size`. -/
theorem scan_list_finished_none {size alignment : Nat} {L : List (Nat × range_t)}
    {best : Option Nat} {bs : Nat}
    (h : scan_list size alignment L best bs = .finished none) :
    best = none ∧ ∀ x ∈ L, x.2.free = true →
      ¬ (aligned_size size alignment x.2.offset < x.2.size ∧ x.2.size < bs) := by
  induction L generalizing best bs with
  | nil => simpa [scan_list] using h
  | cons x L ih =>
    simp only [scan_list] at h
    split_ifs at h with h1 h2 h3
    · obtain ⟨hb, hr⟩ := ih h
      refine ⟨hb, fun y hy hfree => ?_⟩
      rcases List.mem_cons.1 hy with rfl | hy
      · simp_all
      · exact hr y hy hfree
    · exact absurd (ih h).1 (by simp)
    · obtain ⟨hb, hr⟩ := ih h
      refine ⟨hb, fun y hy hfree => ?_⟩
      rcases List.mem_cons.1 hy with rfl | hy
      · exact h3
      · exact hr y hy hfree

theorem Linked.scan {heap : glheap_t} {L : List (Nat × range_t)}
    (hL : Linked heap.cells heap.head L) (size : Nat) {alignment : Nat} (hal : alignment ≠ 0) :
    GL_HeapAllocate_scan heap.cells size alignment heap.cells.length (some heap.head) none
      UINT64_MAX = some (scan_list size alignment L none UINT64_MAX) := by
  rw [← hL.head_eq]
  exact scan_eq size hal hL.seg _ hL.length_le _ _

theorem alloc_exact {heap : glheap_t} {L A B : List (Nat × range_t)} {size alignment p : Nat}
    {r : range_t} (hL : Linked heap.cells heap.head L) (hal : alignment ≠ 0)
    (hs : scan_list size alignment L none UINT64_MAX = .exact_fit p)
    (hLeq : L = A ++ (p, r) :: B) :
    ∃ h2, GL_HeapAllocate heap size alignment
        = some (h2, some p, (r.offset + align_padding r.offset alignment) % 2 ^ 64)
      ∧ h2.head = heap.head
      ∧ Linked h2.cells h2.head (A ++ (p, { r with free := false }) :: B) := by
  subst hLeq
  obtain ⟨n, hn1, hn2⟩ := hL.load_of_mem (x := (p, r)) (by simp)
  simp only at hn1 hn2
  refine ⟨{ heap with cells := heap.cells.set p (some { n with free := false }) }, ?_, rfl, ?_⟩
  · unfold GL_HeapAllocate
    rw [hL.scan size hal, hs]
    simp only [hn1, modify_eq _ hn1, Option.bind_eq_bind, Option.some_bind]
    subst hn2
    rfl
  · refine linked_update hL (fun n2 hn2' => ?_) (fun q hq => ?_)
    · rw [hn1] at hn2'
      cases hn2'
      refine ⟨_, load_set_eq _ _ _ (load_lt hn1), ?_, rfl, rfl⟩
      subst hn2
      rfl
    · exact load_set_ne _ _ hq

theorem modify_map {α : Type} (m : List (Option α)) (p : Nat) (f : α → α) :
    modify m p f = (load m p).map (fun v => m.set p (some (f v))) := by
  unfold modify; cases load m p <;> rfl

theorem load_set_if {α : Type} (m : List (Option α)) (p q : Nat) (v : Option α) :
    load (m.set p v) q = if q = p then (if p < m.length then v else none) else load m q := by
  split_ifs with h1 h2
  · subst h1; exact load_set_eq _ _ _ h2
  · subst h1; simp [load, List.getElem?_set, h2]
  · exact load_set_ne _ _ h1

theorem load_append_if {α : Type} (m : List (Option α)) (q : Nat) (v : α) :
    load (m ++ [some v]) q = if q = m.length then some v else load m q := by
  split_ifs with h1
  · subst h1; exact load_append_new _ _
  · rcases Nat.lt_or_gt_of_ne h1 with h2 | h2
    · exact load_append_left _ _ h2
    · have h3 : load m q = none := by simp [load, List.getElem?_eq_none (Nat.le_of_lt h2)]
      rw [h3]
      simp only [load]
      rw [List.getElem?_eq_none (by simp; omega)]
      rfl

/-- The store after the split of `p`, cell by cell. -/
theorem split_cells {heap : glheap_t} (size alignment : Nat) {p : Nat} {b : glheapnode_t}
    (hb : load heap.cells p = some b)
    (hq : ∀ q, b.prev = some q → q ≠ p ∧ ∃ n, load heap.cells q = some n) :
    ∃ h2, GL_HeapAllocate_split heap size alignment p = some (h2, heap.cells.length,
        (b.offset + align_padding b.offset alignment) % 2 ^ 64)
      ∧ h2.head = (if p = heap.head then heap.cells.length else heap.head)
      ∧ load h2.cells heap.cells.length = some
          { offset := b.offset, size := aligned_size size alignment b.offset, prev := b.prev,
            next := some p, free := false }
      ∧ load h2.cells p = some
          { offset := (b.offset + aligned_size size alignment b.offset) % 2 ^ 64,
            size := (b.size + 2 ^ 64 - aligned_size size alignment b.offset) % 2 ^ 64,
            prev := some heap.cells.length, next := b.next, free := b.free }
      ∧ (∀ q n, b.prev = some q → load heap.cells q = some n →
          load h2.cells q = some { n with next := some heap.cells.length })
      ∧ (∀ q, q ≠ heap.cells.length → q ≠ p → b.prev ≠ some q →
          load h2.cells q = load heap.cells q) := by
  have hp := load_lt hb
  have hne : p ≠ heap.cells.length := by omega
  have hne2 : heap.cells.length ≠ p := by omega
  unfold GL_HeapAllocate_split
  simp only [hb, Mem_Alloc, Option.bind_eq_bind, Option.some_bind]
  rcases hprev : b.prev with _ | q
  · simp [modify_map, load_set_if, load_append_if, hp, hne, hne2, hb, aligned_size]
    intro q h1 h2
    simp [h1, h2]
  · obtain ⟨hqp, nq, hnq⟩ := hq q hprev
    have hql := load_lt hnq
    have hne3 : q ≠ heap.cells.length := by omega
    have hne4 : heap.cells.length ≠ q := by omega
    simp [modify_map, load_set_if, load_append_if, hp, hne, hne2, hb, aligned_size, hnq,
      hne3, hne4, hqp, Ne.symm hqp, hql]
    refine ⟨?_, ?_⟩
    · rintro q1 n rfl h1
      rw [hnq] at h1
      cases h1
      simp [hne3, hqp]
    · intro q1 h1 h2 h3
      simp [h1, h2, Ne.symm h3]

theorem Linked.head_iff {m : List (Option glheapnode_t)} {head : Nat}
    {A B : List (Nat × range_t)} {p : Nat} {r : range_t}
    (hL : Linked m head (A ++ (p, r) :: B)) : p = head ↔ A = [] := by
  have hh := hL.head_eq
  have hnd := hL.nodup
  constructor
  · rintro rfl
    cases A with
    | nil => rfl
    | cons x A =>
      exfalso
      simp only [List.cons_append, first_or_cons, Option.some.injEq] at hh
      simp only [List.cons_append, List.map_cons, List.map_append, List.nodup_cons,
        List.mem_append, List.mem_cons, not_or] at hnd
      exact hnd.1.2.1 hh
  · rintro rfl
    simpa using hh

theorem alloc_split {heap : glheap_t} {L A B : List (Nat × range_t)} {size alignment p : Nat}
    {r : range_t} (hL : Linked heap.cells heap.head L) (hal : alignment ≠ 0)
    (hs : scan_list size alignment L none UINT64_MAX = .finished (some p))
    (hLeq : L = A ++ (p, r) :: B) :
    ∃ h2, GL_HeapAllocate heap size alignment
        = some (h2, some heap.cells.length,
            (r.offset + align_padding r.offset alignment) % 2 ^ 64)
      ∧ h2.head = (if A = [] then heap.cells.length else heap.head)
      ∧ Linked h2.cells h2.head
          (A ++ (heap.cells.length,
                  { offset := r.offset, size := aligned_size size alignment r.offset,
                    free := false })
             :: (p, { offset := (r.offset + aligned_size size alignment r.offset) % 2 ^ 64,
                      size := (r.size + 2 ^ 64 - aligned_size size alignment r.offset) % 2 ^ 64,
                      free := r.free }) :: B) := by
  subst hLeq
  have hseg := hL.seg
  rw [seg_append, seg_cons] at hseg
  obtain ⟨-, ⟨b, hb1, hb2, hb3, hb4⟩, -⟩ := hseg
  simp only at hb1 hb2
  have hq : ∀ q, b.prev = some q → q ≠ p ∧ ∃ n, load heap.cells q = some n := by
    intro q hq
    rw [hb3] at hq
    rcases last_or_mem A none hq with h1 | h1
    · cases h1
    · obtain ⟨x, hx, rfl⟩ := List.mem_map.1 h1
      refine ⟨?_, ?_⟩
      · rintro h2
        have hnd := hL.nodup
        simp only [List.map_append, List.map_cons, List.nodup_append, List.nodup_cons,
          List.mem_map, List.disjoint_cons_right] at hnd
        exact hnd.2.2.1 ⟨x, hx, h2⟩
      · obtain ⟨n, hn, -⟩ := hL.load_of_mem (x := x) (by simp [hx])
        exact ⟨n, hn⟩
  obtain ⟨h2, e1, e2, e3, e4, e5, e6⟩ := split_cells size alignment hb1 hq
  subst hb2
  have hhead : h2.head = if A = [] then heap.cells.length else heap.head := by
    rw [e2]
    by_cases hA : A = []
    · rw [if_pos hA, if_pos (hL.head_iff.2 hA)]
    · rw [if_neg hA, if_neg (fun h => hA (hL.head_iff.1 h))]
  refine ⟨h2, ?_, hhead, ?_⟩
  · unfold GL_HeapAllocate
    rw [hL.scan size hal, hs]
    simp only [e1, Option.bind_eq_bind, Option.some_bind]
    rfl
  · rw [hhead]
    refine linked_insert hL (load_length _) ⟨_, e3, rfl, hb3, rfl⟩ ⟨_, e4, rfl, rfl, hb4⟩ ?_ ?_
    · intro q n h1 h2'
      exact e5 q n (hb3.trans h1) h2'
    · intro q h1 h2' h3
      exact e6 q h1 h2' (fun h => h3 (hb3.symm.trans h))

theorem alloc_none {heap : glheap_t} {L : List (Nat × range_t)} {size alignment : Nat}
    (hL : Linked heap.cells heap.head L) (hal : alignment ≠ 0)
    (hs : scan_list size alignment L none UINT64_MAX = .finished none) :
    GL_HeapAllocate heap size alignment = some (heap, none, 0) := by
  unfold GL_HeapAllocate
  rw [hL.scan size hal, hs]

theorem poke_map {α : Type} (m : List (Option α)) (p : Nat) (w : Option α) :
    poke m p w = (load m p).map (fun _ => m.set p w) := by
  unfold poke; cases load m p <;> rfl

/-- The store after `node` has been merged into its free predecessor `q`, cell by cell. -/
theorem free_prev_cells {m : List (Option glheapnode_t)} {node q : Nat} {n nq : glheapnode_t}
    (hn : load m node = some n) (hprev : n.prev = some q) (hnq : load m q = some nq)
    (hfree : nq.free = true) (hqn : q ≠ node)
    (hz : ∀ z, n.next = some z → z ≠ q ∧ z ≠ node ∧ ∃ nz, load m z = some nz) :
    ∃ m2, GL_HeapFree_prev m node = some (m2, q)
      ∧ load m2 q = some { nq with next := n.next, size := (nq.size + n.size) % 2 ^ 64 }
      ∧ load m2 node = none
      ∧ (∀ z nz, n.next = some z → load m z = some nz →
          load m2 z = some { nz with prev := some q })
      ∧ (∀ p, p ≠ q → p ≠ node → n.next ≠ some p → load m2 p = load m p) := by
  have hl1 := load_lt hn
  have hl2 := load_lt hnq
  unfold GL_HeapFree_prev
  simp only [hn, Option.bind_eq_bind, Option.some_bind, hprev, hnq, hfree, if_true, Mem_Free]
  rcases hnext : n.next with _ | z
  · simp [modify_map, poke_map, load_set_if, hfree, hn, hnq, hl1, hl2, hqn, Ne.symm hqn]
    intro p h1 h2
    simp [h1, h2]
  · obtain ⟨hzq, hzn, nz, hnz⟩ := hz z hnext
    have hl3 := load_lt hnz
    simp [modify_map, poke_map, load_set_if, hfree, hn, hnq, hnz, hl1, hl2, hl3, hqn, Ne.symm hqn,
      hzq, Ne.symm hzq, hzn, Ne.symm hzn]
    refine ⟨?_, ?_⟩
    · rintro z1 nz1 rfl h1
      rw [hnz] at h1
      cases h1
      simp [hzq, hzn]
    · intro p h1 h2 h3
      simp [h1, h2, Ne.symm h3]

/-- The store after the free successor `y` has been merged into `node`, cell by cell. -/
theorem free_next_cells {m : List (Option glheapnode_t)} {node y : Nat} {n ny : glheapnode_t}
    (hn : load m node = some n) (hnext : n.next = some y) (hny : load m y = some ny)
    (hfree : ny.free = true) (hyn : y ≠ node)
    (hz : ∀ z, ny.next = some z → z ≠ y ∧ z ≠ node ∧ ∃ nz, load m z = some nz) :
    ∃ m2, GL_HeapFree_next m node = some m2
      ∧ load m2 node = some { n with next := ny.next, size := (n.size + ny.size) % 2 ^ 64 }
      ∧ load m2 y = none
      ∧ (∀ z nz, ny.next = some z → load m z = some nz →
          load m2 z = some { nz with prev := some node })
      ∧ (∀ p, p ≠ node → p ≠ y → ny.next ≠ some p → load m2 p = load m p) := by
  have hl1 := load_lt hn
  have hl2 := load_lt hny
  unfold GL_HeapFree_next
  simp only [hn, Option.bind_eq_bind, Option.some_bind, hnext, hny, hfree, if_true, Mem_Free]
  rcases hnn : ny.next with _ | z
  · simp [modify_map, poke_map, load_set_if, hfree, hn, hny, hl1, hl2, hyn, Ne.symm hyn]
    intro p h1 h2
    simp [h1, h2]
  · obtain ⟨hzy, hzn, nz, hnz⟩ := hz z hnn
    have hl3 := load_lt hnz
    simp [modify_map, poke_map, load_set_if, hfree, hn, hny, hnz, hl1, hl2, hl3, hyn, Ne.symm hyn,
      hzy, Ne.symm hzy, hzn, Ne.symm hzn]
    refine ⟨?_, ?_⟩
    · rintro z1 nz1 rfl h1
      rw [hnz] at h1
      cases h1
      simp [hzy, hzn]
    · intro p h1 h2 h3
      simp [h1, h2, Ne.symm h3]

theorem coalesce_prev_nil (x : Nat × range_t) : coalesce_prev [] x = ([], x) := rfl

theorem coalesce_prev_snoc (A0 : List (Nat × range_t)) (q x : Nat × range_t) :
    coalesce_prev (A0 ++ [q]) x =
      if q.2.free then (A0, (q.1, { q.2 with size := (q.2.size + x.2.size) % 2 ^ 64 }))
      else (A0 ++ [q], x) := by
  simp [coalesce_prev]

theorem free_next_spec {m : List (Option glheapnode_t)} {head : Nat}
    {A B : List (Nat × range_t)} {x : Nat × range_t} (hL : Linked m head (A ++ x :: B)) :
    ∃ m2, GL_HeapFree_next m x.1 = some m2
      ∧ Linked m2 head (A ++ (coalesce_next x B).1 :: (coalesce_next x B).2) := by
  obtain ⟨x, rx⟩ := x
  have hseg := hL.seg
  have hnd := hL.nodup
  rw [seg_append, seg_cons] at hseg
  obtain ⟨-, ⟨n, hn1, hn2, hn3, hn4⟩, hB⟩ := hseg
  simp only at hn1 hn2
  cases B with
  | nil =>
    refine ⟨m, ?_, hL⟩
    simp at hn4
    simp [GL_HeapFree_next, hn1, hn4]
  | cons y B0 =>
    obtain ⟨y, ry⟩ := y
    rw [seg_cons] at hB
    obtain ⟨⟨ny, hy1, hy2, hy3, hy4⟩, hB0⟩ := hB
    simp only [first_or_cons] at hn4 hy1 hy2 hy4
    by_cases hfree : ry.free = true
    · simp only [List.map_append, List.map_cons, List.nodup_append, List.nodup_cons,
        List.mem_map, List.disjoint_cons_right, List.mem_cons, not_or] at hnd
      obtain ⟨-, ⟨⟨hxy, hxB⟩, hyB, -⟩, -, -, -⟩ := hnd
      have hz : ∀ z, ny.next = some z → z ≠ y ∧ z ≠ x ∧ ∃ nz, load m z = some nz := by
        intro z hz
        rw [hy4] at hz
        rcases first_or_mem B0 none hz with h1 | h1
        · cases h1
        · obtain ⟨w, hw, rfl⟩ := List.mem_map.1 h1
          refine ⟨fun h => hyB ⟨w, hw, h⟩, fun h => hxB ⟨w, hw, h⟩, ?_⟩
          obtain ⟨nz, hnz, -⟩ := seg_mem hB0 hw
          exact ⟨nz, hnz⟩
      obtain ⟨m2, e1, e2, e3, e4, e5⟩ :=
        free_next_cells hn1 hn4 hy1 (by rw [← hy2] at hfree; exact hfree)
          (fun h => hxy h.symm) hz
      refine ⟨m2, e1, ?_⟩
      simp only [coalesce_next, hfree, if_true]
      refine linked_remove hL ?_ e3 ?_ ?_
      · intro n' hn'
        rw [hn1] at hn'
        cases hn'
        refine ⟨_, e2, ?_, rfl, hy4⟩
        subst hn2 hy2
        rfl
      · intro z nz h1 h2
        exact e4 z nz (hy4.trans h1) h2
      · intro p h1 h2 h3
        exact e5 p h1 h2 (fun h => h3 (hy4.symm.trans h))
    · refine ⟨m, ?_, ?_⟩
      · have : ny.free = false := by
          rw [← hy2] at hfree
          simpa [glheapnode_t.range] using hfree
        simp [GL_HeapFree_next, hn1, hn4, hy1, this]
      · simp only [coalesce_next, hfree]
        exact hL

theorem free_prev_spec {m : List (Option glheapnode_t)} {head : Nat}
    {A B : List (Nat × range_t)} {x : Nat × range_t} (hL : Linked m head (A ++ x :: B)) :
    ∃ m2, GL_HeapFree_prev m x.1 = some (m2, (coalesce_prev A x).2.1)
      ∧ Linked m2 head ((coalesce_prev A x).1 ++ (coalesce_prev A x).2 :: B) := by
  obtain ⟨x, rx⟩ := x
  rcases eq_nil_or_snoc A with rfl | ⟨A0, ⟨q, rq⟩, rfl⟩
  · have hseg := hL.seg
    simp only [List.nil_append, seg_cons, last_or_nil] at hseg
    obtain ⟨⟨n, hn1, hn2, hn3, hn4⟩, -⟩ := hseg
    refine ⟨m, ?_, hL⟩
    simp [GL_HeapFree_prev, hn1, hn3, coalesce_prev_nil]
  · have hL2 : Linked m head (A0 ++ (q, rq) :: (x, rx) :: B) := by simpa using hL
    have hseg := hL2.seg
    have hnd := hL2.nodup
    simp only [seg_append, seg_cons, first_or_cons] at hseg
    obtain ⟨-, ⟨nq, hq1, hq2, hq3, hq4⟩, ⟨n, hn1, hn2, hn3, hn4⟩, hB⟩ := hseg
    rw [coalesce_prev_snoc]
    by_cases hfree : rq.free = true
    · simp only [hfree, if_true]
      simp only [List.map_append, List.map_cons, List.nodup_append, List.nodup_cons,
        List.mem_map, List.disjoint_cons_right, List.mem_cons, not_or] at hnd
      obtain ⟨-, ⟨⟨hqx, hqB⟩, hxB, -⟩, -, -, -⟩ := hnd
      have hz : ∀ z, n.next = some z → z ≠ q ∧ z ≠ x ∧ ∃ nz, load m z = some nz := by
        intro z hz
        rw [hn4] at hz
        rcases first_or_mem B none hz with h1 | h1
        · cases h1
        · obtain ⟨w, hw, rfl⟩ := List.mem_map.1 h1
          refine ⟨fun h => hqB ⟨w, hw, h⟩, fun h => hxB ⟨w, hw, h⟩, ?_⟩
          obtain ⟨nz, hnz, -⟩ := seg_mem hB hw
          exact ⟨nz, hnz⟩
      obtain ⟨m2, e1, e2, e3, e4, e5⟩ :=
        free_prev_cells hn1 hn3 hq1 (by rw [← hq2] at hfree; exact hfree) hqx hz
      refine ⟨m2, e1, ?_⟩
      refine linked_remove hL2 ?_ e3 ?_ ?_
      · intro n' hn'
        rw [hq1] at hn'
        cases hn'
        refine ⟨_, e2, ?_, rfl, hn4⟩
        subst hn2 hq2
        simp only [glheapnode_t.range] at hfree ⊢
        rw [hfree]
      · intro z nz h1 h2
        exact e4 z nz (hn4.trans h1) h2
      · intro p h1 h2 h3
        exact e5 p h1 h2 (fun h => h3 (hn4.symm.trans h))
    · simp only [hfree]
      refine ⟨m, ?_, hL⟩
      have : nq.free = false := by
        rw [← hq2] at hfree
        simpa [glheapnode_t.range] using hfree
      simp [GL_HeapFree_prev, hn1, hn3, hq1, this]

theorem free_spec {heap : glheap_t} {A B : List (Nat × range_t)} {x : Nat} {rx : range_t}
    (hL : Linked heap.cells heap.head (A ++ (x, rx) :: B)) (hused : rx.free = false) :
    ∃ h2, GL_HeapFree heap x = (h2, .returned) ∧ h2.head = heap.head
      ∧ Linked h2.cells h2.head (free_list A (x, rx) B) := by
  obtain ⟨n, hn1, hn2⟩ := hL.load_of_mem (x := (x, rx)) (by simp)
  simp only at hn1 hn2
  have hnf : n.free = false := by rw [← hn2] at hused; exact hused
  have hL1 : Linked (heap.cells.set x (some { n with free := true })) heap.head
      (A ++ (x, { rx with free := true }) :: B) := by
    refine linked_update hL (fun n2 hn2' => ?_) (fun q hq => load_set_ne _ _ hq)
    rw [hn1] at hn2'
    cases hn2'
    refine ⟨_, load_set_eq _ _ _ (load_lt hn1), ?_, rfl, rfl⟩
    subst hn2
    rfl
  obtain ⟨m2, e1, hL2⟩ := free_prev_spec hL1
  obtain ⟨m3, e2, hL3⟩ := free_next_spec hL2
  refine ⟨{ heap with cells := m3 }, ?_, rfl, hL3⟩
  unfold GL_HeapFree
  simp only [hn1, hnf, modify_eq _ hn1, Option.some_bind, e1, e2]
  rfl

theorem free_already_freed {heap : glheap_t} {x : Nat} {n : glheapnode_t}
    (hn : load heap.cells x = some n) (hfree : n.free = true) :
    GL_HeapFree heap x = (heap, .sys_error) := by
  simp [GL_HeapFree, hn, hfree]

theorem free_dangling {heap : glheap_t} {x : Nat} (hn : load heap.cells x = none) :
    GL_HeapFree heap x = (heap, .fault) := by
  simp [GL_HeapFree, hn]

/-! ## Invariants of the node list -/

theorem tiles_nil (s e : Nat) : tiles s [] e ↔ s = e := Iff.rfl

theorem tiles_cons (s e : Nat) (r : range_t) (l : List range_t) :
    tiles s (r :: l) e ↔ r.offset = s ∧ tiles (s + r.size) l e := Iff.rfl

theorem tiles_iff (s e : Nat) (l : List range_t) :
    tiles s l e ↔ (∀ r ∈ l.head?, r.offset = s)
      ∧ l.Chain' (fun a b => b.offset = a.offset + a.size)
      ∧ s + (l.map range_t.size).sum = e := by
  induction l generalizing s with
  | nil => simp [tiles_nil]
  | cons r l ih =>
    simp only [tiles_cons, ih, List.head?_cons, Option.mem_def, Option.some.injEq, forall_eq',
      List.map_cons, List.sum_cons, List.chain'_cons']
    constructor
    · rintro ⟨h1, h2, h3, h4⟩
      subst h1
      exact ⟨rfl, ⟨h2, h3⟩, by omega⟩
    · rintro ⟨h1, ⟨h2, h3⟩, h4⟩
      subst h1
      exact ⟨rfl, h2, h3, by omega⟩

theorem partition_inv_iff (S : Nat) (l : List range_t) :
    partition_inv S l ↔ l ≠ [] ∧ tiles 0 l S := by
  simp [partition_inv, tiles_iff]

theorem tiles_append (s e : Nat) (A B : List range_t) :
    tiles s (A ++ B) e ↔ ∃ mid, tiles s A mid ∧ tiles mid B e := by
  induction A generalizing s with
  | nil => simp [tiles_nil]
  | cons r A ih =>
    simp only [List.cons_append, tiles_cons, ih]
    constructor
    · rintro ⟨h1, mid, h2, h3⟩
      exact ⟨mid, ⟨h1, h2⟩, h3⟩
    · rintro ⟨mid, ⟨h1, h2⟩, h3⟩
      exact ⟨h1, mid, h2, h3⟩

theorem tiles_le {s e : Nat} {l : List range_t} (h : tiles s l e) : s ≤ e := by
  induction l generalizing s with
  | nil => exact le_of_eq h
  | cons r l ih => have := ih h.2; omega

/-- Every node of a tiling lies inside the tiled span. -/
theorem tiles_mem_le {s e : Nat} {l : List range_t} (h : tiles s l e) {r : range_t}
    (hr : r ∈ l) : s ≤ r.offset ∧ r.offset + r.size ≤ e := by
  obtain ⟨A, B, rfl⟩ := List.append_of_mem hr
  rw [tiles_append] at h
  obtain ⟨mid, h1, h2, h3⟩ := h
  have := tiles_le h1
  have := tiles_le h3
  omega

/-- Only offsets and sizes matter for a tiling. -/
theorem tiles_congr {s e : Nat} {A B : List range_t} {x y : range_t}
    (h : tiles s (A ++ x :: B) e) (ho : y.offset = x.offset) (hs : y.size = x.size) :
    tiles s (A ++ y :: B) e := by
  rw [tiles_append] at h ⊢
  obtain ⟨mid, h1, h2, h3⟩ := h
  exact ⟨mid, h1, by rw [ho, h2], by rw [hs]; exact h3⟩

/-- A node is split in two. -/
theorem tiles_split {s e : Nat} {A B : List range_t} {x y z : range_t}
    (h : tiles s (A ++ x :: B) e) (hy : y.offset = x.offset) (hz : z.offset = x.offset + y.size)
    (hsz : y.size + z.size = x.size) : tiles s (A ++ y :: z :: B) e := by
  rw [tiles_append] at h ⊢
  obtain ⟨mid, h1, h2, h3⟩ := h
  refine ⟨mid, h1, by rw [hy, h2], by rw [hz, h2], ?_⟩
  have : mid + y.size + z.size = mid + x.size := by omega
  rw [this]
  exact h3

/-- Two neighbours are merged. -/
theorem tiles_merge {s e : Nat} {A B : List range_t} {x y z : range_t}
    (h : tiles s (A ++ x :: y :: B) e) (hz : z.offset = x.offset)
    (hsz : z.size = x.size + y.size) : tiles s (A ++ z :: B) e := by
  rw [tiles_append] at h ⊢
  obtain ⟨mid, h1, h2, h3, h4⟩ := h
  refine ⟨mid, h1, by rw [hz, h2], ?_⟩
  have : mid + z.size = mid + x.size + y.size := by omega
  rw [this]
  exact h4

/-! ### No two adjacent free nodes -/

theorem naf_iff (b : Bool) (r : range_t) (l : List range_t) (hb : r.free = b) :
    naf b l ↔ no_adjacent_free (r :: l) := by
  induction l generalizing b r with
  | nil => simp [naf, no_adjacent_free]
  | cons x l ih =>
    unfold no_adjacent_free at ih ⊢
    rw [List.chain'_cons, ← ih x.free x rfl]
    simp [naf, hb]

theorem no_adjacent_free_iff (l : List range_t) : no_adjacent_free l ↔ naf false l := by
  cases l with
  | nil => simp [naf, no_adjacent_free]
  | cons r l =>
    rw [← naf_iff r.free r l rfl]
    simp [naf]

theorem naf_nil (b : Bool) : naf b [] ↔ True := Iff.rfl

theorem naf_cons (b : Bool) (r : range_t) (l : List range_t) :
    naf b (r :: l) ↔ ¬ (b = true ∧ r.free = true) ∧ naf r.free l := Iff.rfl

theorem naf_weaken {b : Bool} {l : List range_t} (h : naf b l) : naf false l := by
  cases l with
  | nil => trivial
  | cons r l => exact ⟨by simp, h.2⟩

theorem naf_split (b : Bool) (A B : List range_t) (x : range_t) :
    naf b (A ++ x :: B) ↔ naf b (A ++ [x]) ∧ naf x.free B := by
  induction A generalizing b with
  | nil => simp [naf_cons, naf_nil]
  | cons r A ih =>
    simp only [List.cons_append, naf_cons, ih, and_assoc]

/-- Only the flag of the last node matters to what follows it; making it used is always
safe. -/
theorem naf_snoc_mono {b : Bool} {A : List range_t} {x y : range_t}
    (h : naf b (A ++ [x])) (hxy : y.free = true → x.free = true) : naf b (A ++ [y]) := by
  induction A generalizing b with
  | nil =>
    simp only [List.nil_append, naf_cons, naf_nil, and_true] at h ⊢
    tauto
  | cons r A ih =>
    simp only [List.cons_append, naf_cons] at h ⊢
    exact ⟨h.1, ih h.2⟩

theorem naf_snoc_init {b : Bool} {A : List range_t} {x : range_t}
    (h : naf b (A ++ [x])) : naf b A := by
  induction A generalizing b with
  | nil => trivial
  | cons r A ih =>
    simp only [List.cons_append, naf_cons] at h ⊢
    exact ⟨h.1, ih h.2⟩

/-- A free node may follow a list that ends in a used node. -/
theorem naf_snoc_snoc {b : Bool} {A : List range_t} {q x : range_t}
    (h : naf b (A ++ [q])) (hq : q.free = false) : naf b (A ++ [q] ++ [x]) := by
  rw [List.append_assoc, List.singleton_append, naf_split]
  refine ⟨h, ?_⟩
  simp [naf_cons, naf_nil, hq]

theorem glheap_t.WF.linked {heap : glheap_t} (h : heap.WF) :
    Linked heap.cells heap.head heap.nodes := h

theorem wf_create (size : Nat) : (GL_CreateHeap size).WF :=
  (linked_create size).heap_wf

theorem nodes_create (size : Nat) :
    (GL_CreateHeap size).nodes = [(0, { offset := 0, size := size, free := true })] :=
  (linked_create size).nodes_eq

/-- The three ways `GL_HeapAllocate` ends on a well-formed heap: an exact fit, a split of the
best fit, or no node. -/
theorem alloc_cases {heap : glheap_t} (hwf : heap.WF) (size : Nat) {alignment : Nat}
    (hal : alignment ≠ 0) :
    (∃ A p r B h2, heap.nodes = A ++ (p, r) :: B ∧ r.free = true
        ∧ r.size = aligned_size size alignment r.offset
        ∧ (∀ x ∈ A, x.2.free = true → x.2.size ≠ aligned_size size alignment x.2.offset)
        ∧ GL_HeapAllocate heap size alignment
            = some (h2, some p, (r.offset + align_padding r.offset alignment) % 2 ^ 64)
        ∧ h2.head = heap.head ∧ h2.WF
        ∧ h2.nodes = A ++ (p, { r with free := false }) :: B)
    ∨ (∃ A p r B h2, heap.nodes = A ++ (p, r) :: B ∧ r.free = true
        ∧ aligned_size size alignment r.offset < r.size ∧ r.size < UINT64_MAX
        ∧ (∀ x ∈ heap.nodes, x.2.free = true →
            x.2.size ≠ aligned_size size alignment x.2.offset)
        ∧ GL_HeapAllocate heap size alignment
            = some (h2, some heap.cells.length,
                (r.offset + align_padding r.offset alignment) % 2 ^ 64)
        ∧ h2.head = (if A = [] then heap.cells.length else heap.head) ∧ h2.WF
        ∧ h2.nodes = A ++ (heap.cells.length,
                  { offset := r.offset, size := aligned_size size alignment r.offset,
                    free := false })
             :: (p, { offset := (r.offset + aligned_size size alignment r.offset) % 2 ^ 64,
                      size := (r.size + 2 ^ 64 - aligned_size size alignment r.offset) % 2 ^ 64,
                      free := r.free }) :: B)
    ∨ (GL_HeapAllocate heap size alignment = some (heap, none, 0)
        ∧ ∀ x ∈ heap.nodes, x.2.free = true →
            x.2.size ≠ aligned_size size alignment x.2.offset
            ∧ ¬ (aligned_size size alignment x.2.offset < x.2.size ∧ x.2.size < UINT64_MAX)) := by
  have hL := hwf.linked
  rcases hs : scan_list size alignment heap.nodes none UINT64_MAX with p | (_ | p)
  · left
    obtain ⟨A, r, B, hLeq, h1, h2, h3⟩ := scan_list_exact hs
    obtain ⟨h2', e1, e2, e3⟩ := alloc_exact hL hal hs hLeq
    exact ⟨A, p, r, B, h2', hLeq, h1, h2, h3, e1, e2, e3.heap_wf, e3.nodes_eq⟩
  · right; right
    refine ⟨alloc_none hL hal hs, fun x hx hfree => ⟨?_, ?_⟩⟩
    · exact scan_list_finished_no_exact hs x hx hfree
    · exact (scan_list_finished_none hs).2 x hx hfree
  · right; left
    rcases scan_list_finished_some hs with h0 | ⟨A, r, B, hLeq, h1, h2, h3⟩
    · cases h0
    · obtain ⟨h2', e1, e2, e3⟩ := alloc_split hL hal hs hLeq
      exact ⟨A, p, r, B, h2', hLeq, h1, h2, h3, scan_list_finished_no_exact hs, e1, e2,
        e3.heap_wf, e3.nodes_eq⟩

/-- `GL_HeapFree` of a used node of a well-formed heap. -/
theorem free_cases {heap : glheap_t} (hwf : heap.WF) {node : Nat} {n : glheapnode_t}
    (hn : load heap.cells node = some n) (hused : n.free = false) :
    ∃ A B h2, heap.nodes = A ++ (node, n.range) :: B
      ∧ GL_HeapFree heap node = (h2, .returned) ∧ h2.head = heap.head ∧ h2.WF
      ∧ h2.nodes = free_list A (node, n.range) B := by
  have hL := hwf.linked
  have hmem := hL.mem_of_load hn
  obtain ⟨A, B, hLeq⟩ := List.append_of_mem hmem
  rw [hLeq] at hL
  obtain ⟨h2, e1, e2, e3⟩ := free_spec hL (by simpa [glheapnode_t.range] using hused)
  exact ⟨A, B, h2, hLeq, e1, e2, e3.heap_wf, e3.nodes_eq⟩

/-! ### The allocator keeps the partition -/

theorem ranges_eq (heap : glheap_t) : heap.ranges = heap.nodes.map Prod.snd := rfl

theorem tiles_coalesce_prev {s e : Nat} (he : e < 2 ^ 64) (A : List (Nat × range_t))
    (x : Nat × range_t) (rest : List range_t)
    (h : tiles s (A.map Prod.snd ++ x.2 :: rest) e) :
    tiles s ((coalesce_prev A x).1.map Prod.snd ++ (coalesce_prev A x).2.2 :: rest) e := by
  rcases eq_nil_or_snoc A with rfl | ⟨A0, q, rfl⟩
  · exact h
  · rw [coalesce_prev_snoc]
    split_ifs with hq
    · simp only [List.map_append, List.map_cons, List.map_nil, List.append_assoc,
        List.singleton_append] at h ⊢
      have hb := tiles_mem_le h (r := x.2) (by simp)
      have hb2 := tiles_mem_le h (r := q.2) (by simp)
      have hx : x.2.offset = q.2.offset + q.2.size := by
        rw [tiles_append] at h
        obtain ⟨mid, -, h2, h3, -⟩ := h
        omega
      refine tiles_merge h rfl ?_
      simp only
      rw [Nat.mod_eq_of_lt (by omega)]
    · exact h

theorem tiles_coalesce_next {s e : Nat} (he : e < 2 ^ 64) (pre : List range_t)
    (x : Nat × range_t) (B : List (Nat × range_t))
    (h : tiles s (pre ++ x.2 :: B.map Prod.snd) e) :
    tiles s (pre ++ (coalesce_next x B).1.2 :: (coalesce_next x B).2.map Prod.snd) e := by
  cases B with
  | nil => exact h
  | cons y B0 =>
    simp only [coalesce_next]
    split_ifs with hy
    · simp only [List.map_cons] at h ⊢
      have hb := tiles_mem_le h (r := y.2) (by simp)
      have hb2 := tiles_mem_le h (r := x.2) (by simp)
      have hx : y.2.offset = x.2.offset + x.2.size := by
        rw [tiles_append] at h
        obtain ⟨mid, -, h2, h3, -⟩ := h
        omega
      refine tiles_merge h rfl ?_
      simp only
      rw [Nat.mod_eq_of_lt (by omega)]
    · exact h

theorem tiles_free_list {s e : Nat} (he : e < 2 ^ 64) (A B : List (Nat × range_t))
    (x : Nat × range_t) (h : tiles s ((A ++ x :: B).map Prod.snd) e) :
    tiles s ((free_list A x B).map Prod.snd) e := by
  simp only [free_list, List.map_append, List.map_cons] at h ⊢
  apply tiles_coalesce_next he
  apply tiles_coalesce_prev he A (x.1, { x.2 with free := true })
  exact tiles_congr h rfl rfl

theorem free_list_ne_nil (A B : List (Nat × range_t)) (x : Nat × range_t) :
    free_list A x B ≠ [] := by
  simp [free_list]

theorem partition_free_list {S : Nat} (hS : S < 2 ^ 64) (A B : List (Nat × range_t))
    (x : Nat × range_t) (h : partition_inv S ((A ++ x :: B).map Prod.snd)) :
    partition_inv S ((free_list A x B).map Prod.snd) := by
  rw [partition_inv_iff] at h ⊢
  exact ⟨by simpa using free_list_ne_nil A B x, tiles_free_list hS A B x h.2⟩

theorem partition_exact {S : Nat} (A B : List (Nat × range_t)) (p : Nat) (r : range_t)
    (h : partition_inv S ((A ++ (p, r) :: B).map Prod.snd)) :
    partition_inv S ((A ++ (p, { r with free := false }) :: B).map Prod.snd) := by
  rw [partition_inv_iff] at h ⊢
  simp only [List.map_append, List.map_cons] at h ⊢
  exact ⟨by simp, tiles_congr h.2 rfl rfl⟩

theorem partition_split {S : Nat} (hS : S < 2 ^ 64) (A B : List (Nat × range_t))
    (p a asz : Nat) (r : range_t) (hlt : asz < r.size)
    (h : partition_inv S ((A ++ (p, r) :: B).map Prod.snd)) :
    partition_inv S ((A ++ (a, { offset := r.offset, size := asz, free := false })
      :: (p, { offset := (r.offset + asz) % 2 ^ 64, size := (r.size + 2 ^ 64 - asz) % 2 ^ 64,
               free := r.free }) :: B).map Prod.snd) := by
  rw [partition_inv_iff] at h ⊢
  simp only [List.map_append, List.map_cons] at h ⊢
  have hb := tiles_mem_le h.2 (r := r) (by simp)
  refine ⟨by simp, tiles_split h.2 rfl ?_ ?_⟩
  · simp only
    rw [Nat.mod_eq_of_lt (by omega)]
  · simp only
    have : r.size + 2 ^ 64 - asz = (r.size - asz) + 2 ^ 64 := by omega
    rw [this, Nat.add_mod_right, Nat.mod_eq_of_lt (by omega)]
    omega

/-! ### The allocator never leaves two adjacent free nodes -/

theorem naf_exact (A B : List (Nat × range_t)) (p : Nat) (r : range_t)
    (h : no_adjacent_free ((A ++ (p, r) :: B).map Prod.snd)) :
    no_adjacent_free ((A ++ (p, { r with free := false }) :: B).map Prod.snd) := by
  rw [no_adjacent_free_iff] at h ⊢
  simp only [List.map_append, List.map_cons] at h ⊢
  rw [naf_split] at h ⊢
  refine ⟨naf_snoc_mono h.1 (by simp), naf_weaken h.2⟩

theorem naf_split_node (A B : List (Nat × range_t)) (p a : Nat) (r y z : range_t)
    (hy : y.free = false) (hz : z.free = r.free)
    (h : no_adjacent_free ((A ++ (p, r) :: B).map Prod.snd)) :
    no_adjacent_free ((A ++ (a, y) :: (p, z) :: B).map Prod.snd) := by
  rw [no_adjacent_free_iff] at h ⊢
  simp only [List.map_append, List.map_cons] at h ⊢
  rw [naf_split] at h ⊢
  refine ⟨naf_snoc_mono h.1 (by simp [hy]), ?_⟩
  rw [naf_cons]
  refine ⟨by simp [hy], ?_⟩
  rw [hz]
  exact h.2

theorem naf_coalesce_prev {b : Bool} (hb : b = false) (A : List (Nat × range_t))
    (x : Nat × range_t) (h : naf b (A.map Prod.snd ++ [x.2])) :
    naf b ((coalesce_prev A (x.1, { x.2 with free := true })).1.map Prod.snd
        ++ [(coalesce_prev A (x.1, { x.2 with free := true })).2.2])
      ∧ (coalesce_prev A (x.1, { x.2 with free := true })).2.2.free = true := by
  rcases eq_nil_or_snoc A with rfl | ⟨A0, q, rfl⟩
  · subst hb
    simp [coalesce_prev_nil, naf_cons, naf_nil]
  · rw [coalesce_prev_snoc]
    split_ifs with hq
    · simp only [List.map_append, List.map_cons, List.map_nil] at h ⊢
      exact ⟨naf_snoc_mono (naf_snoc_init h) (fun _ => hq), hq⟩
    · simp only [List.map_append, List.map_cons, List.map_nil] at h ⊢
      exact ⟨naf_snoc_snoc (naf_snoc_init h) (by simpa using hq), trivial⟩

theorem naf_coalesce_next {b : Bool} (pre : List range_t) (x : Nat × range_t)
    (B : List (Nat × range_t)) (h1 : naf b (pre ++ [x.2])) (h2 : naf false (B.map Prod.snd)) :
    naf b (pre ++ (coalesce_next x B).1.2 :: (coalesce_next x B).2.map Prod.snd) := by
  cases B with
  | nil => simpa [coalesce_next] using h1
  | cons y B0 =>
    simp only [coalesce_next]
    split_ifs with hy
    · simp only [List.map_cons, naf_cons] at h2 ⊢
      rw [naf_split]
      refine ⟨naf_snoc_mono h1 (fun h => h), ?_⟩
      simp only
      by_cases hxf : x.2.free = true
      · rw [hxf, ← hy]; exact h2.2
      · have : x.2.free = false := by simpa using hxf
        rw [this]; exact naf_weaken h2.2
    · simp only [List.map_cons, naf_cons] at h2 ⊢
      rw [naf_split]
      refine ⟨h1, ?_⟩
      rw [naf_cons]
      exact ⟨fun h => hy h.2, h2.2⟩

theorem naf_free_list (A B : List (Nat × range_t)) (x : Nat × range_t)
    (hx : x.2.free = false) (h : no_adjacent_free ((A ++ x :: B).map Prod.snd)) :
    no_adjacent_free ((free_list A x B).map Prod.snd) := by
  rw [no_adjacent_free_iff] at h ⊢
  simp only [free_list, List.map_append, List.map_cons] at h ⊢
  rw [naf_split, hx] at h
  obtain ⟨h1, h2⟩ := naf_coalesce_prev rfl A x h.1
  exact naf_coalesce_next _ _ B h1 h.2

/-! ## Reachable heaps -/

theorem align_padding_lt {alignment : Nat} (offset : Nat) (hal : 0 < alignment) :
    align_padding offset alignment < alignment := by
  unfold align_padding
  simp only
  split_ifs with h
  · exact hal
  · have := Nat.mod_lt offset hal
    omega

theorem align_padding_mod (offset : Nat) {alignment : Nat} (hal : 0 < alignment) :
    (offset + align_padding offset alignment) % alignment = 0 := by
  unfold align_padding
  simp only
  split_ifs with h
  · simpa using h
  · have h1 := Nat.mod_lt offset hal
    have h2 := Nat.div_add_mod offset alignment
    have h3 : offset + (alignment - offset % alignment)
        = alignment * (offset / alignment + 1) := by
      rw [Nat.mul_add, Nat.mul_one]
      omega
    rw [h3]
    exact Nat.mul_mod_right _ _

theorem partition_create (S : Nat) : partition_inv S (GL_CreateHeap S).ranges := by
  rw [ranges_eq, nodes_create]
  simp [partition_inv]

theorem naf_create (S : Nat) : no_adjacent_free (GL_CreateHeap S).ranges := by
  rw [ranges_eq, nodes_create]
  simp [no_adjacent_free]

/-- `GL_HeapAllocate` keeps a well-formed heap well-formed. -/
theorem alloc_wf {heap heap2 : glheap_t} {size alignment : Nat} {node : Option Nat}
    {off : Nat} (hwf : heap.WF) (hal : 0 < alignment)
    (h : GL_HeapAllocate heap size alignment = some (heap2, node, off)) : heap2.WF := by
  rcases alloc_cases hwf size (Nat.pos_iff_ne_zero.1 hal) with
    ⟨A, p, r, B, h2, -, -, -, -, e, -, hw, -⟩ | ⟨A, p, r, B, h2, -, -, -, -, -, e, -, hw, -⟩
    | ⟨e, -⟩
  all_goals
    rw [e] at h
    simp only [Option.some.injEq, Prod.mk.injEq] at h
    obtain ⟨rfl, -, -⟩ := h
    assumption

/-- `GL_HeapAllocate` keeps the partition invariant. -/
theorem alloc_partition {S : Nat} (hS : S < 2 ^ 64) {heap heap2 : glheap_t}
    {size alignment : Nat} {node : Option Nat} {off : Nat} (hwf : heap.WF)
    (hp : partition_inv S heap.ranges) (hal : 0 < alignment)
    (h : GL_HeapAllocate heap size alignment = some (heap2, node, off)) :
    partition_inv S heap2.ranges := by
  rw [ranges_eq] at hp ⊢
  rcases alloc_cases hwf size (Nat.pos_iff_ne_zero.1 hal) with
    ⟨A, p, r, B, h2, e0, -, -, -, e, -, -, e2⟩
    | ⟨A, p, r, B, h2, e0, -, hlt, -, -, e, -, -, e2⟩ | ⟨e, -⟩
  all_goals
    rw [e] at h
    simp only [Option.some.injEq, Prod.mk.injEq] at h
    obtain ⟨rfl, -, -⟩ := h
  · rw [e2]; rw [e0] at hp; exact partition_exact A B p r hp
  · rw [e2]; rw [e0] at hp; exact partition_split hS A B p _ _ r hlt hp
  · exact hp

/-- `GL_HeapAllocate` never leaves two adjacent free nodes. -/
theorem alloc_naf {heap heap2 : glheap_t} {size alignment : Nat} {node : Option Nat}
    {off : Nat} (hwf : heap.WF) (hp : no_adjacent_free heap.ranges) (hal : 0 < alignment)
    (h : GL_HeapAllocate heap size alignment = some (heap2, node, off)) :
    no_adjacent_free heap2.ranges := by
  rw [ranges_eq] at hp ⊢
  rcases alloc_cases hwf size (Nat.pos_iff_ne_zero.1 hal) with
    ⟨A, p, r, B, h2, e0, -, -, -, e, -, -, e2⟩
    | ⟨A, p, r, B, h2, e0, -, hlt, -, -, e, -, -, e2⟩ | ⟨e, -⟩
  all_goals
    rw [e] at h
    simp only [Option.some.injEq, Prod.mk.injEq] at h
    obtain ⟨rfl, -, -⟩ := h
  · rw [e2]; rw [e0] at hp; exact naf_exact A B p r hp
  · rw [e2]; rw [e0] at hp; exact naf_split_node A B p _ r _ _ rfl rfl hp
  · exact hp

theorem free_wf {heap : glheap_t} (hwf : heap.WF) {node : Nat} {n : glheapnode_t}
    (hn : load heap.cells node = some n) (hused : n.free = false) :
    (GL_HeapFree heap node).1.WF := by
  obtain ⟨A, B, h2, -, e, -, hw, -⟩ := free_cases hwf hn hused
  rw [e]; exact hw

theorem free_partition {S : Nat} (hS : S < 2 ^ 64) {heap : glheap_t} (hwf : heap.WF)
    (hp : partition_inv S heap.ranges) {node : Nat} {n : glheapnode_t}
    (hn : load heap.cells node = some n) (hused : n.free = false) :
    partition_inv S (GL_HeapFree heap node).1.ranges := by
  obtain ⟨A, B, h2, e0, e, -, -, e2⟩ := free_cases hwf hn hused
  rw [e, ranges_eq, e2]
  rw [ranges_eq, e0] at hp
  exact partition_free_list hS A B _ hp

theorem free_naf {heap : glheap_t} (hwf : heap.WF)
    (hp : no_adjacent_free heap.ranges) {node : Nat} {n : glheapnode_t}
    (hn : load heap.cells node = some n) (hused : n.free = false) :
    no_adjacent_free (GL_HeapFree heap node).1.ranges := by
  obtain ⟨A, B, h2, e0, e, -, -, e2⟩ := free_cases hwf hn hused
  rw [e, ranges_eq, e2]
  rw [ranges_eq, e0] at hp
  exact naf_free_list A B _ (by simpa [glheapnode_t.range] using hused) hp

theorem Reachable.well_formed {S : Nat} {heap : glheap_t} (h : Reachable S heap) : heap.WF := by
  induction h with
  | create => exact wf_create S
  | allocate _ hal e ih => exact alloc_wf ih hal e
  | free _ hn hu ih => exact free_wf ih hn hu

theorem Reachable.partition {S : Nat} (hS : S < 2 ^ 64) {heap : glheap_t}
    (h : Reachable S heap) : partition_inv S heap.ranges := by
  induction h with
  | create => exact partition_create S
  | allocate hr hal e ih => exact alloc_partition hS hr.well_formed ih hal e
  | free hr hn hu ih => exact free_partition hS hr.well_formed ih hn hu

theorem Reachable.naf {S : Nat} {heap : glheap_t}
    (h : Reachable S heap) : no_adjacent_free heap.ranges := by
  induction h with
  | create => exact naf_create S
  | allocate hr hal e ih => exact alloc_naf hr.well_formed ih hal e
  | free hr hn hu ih => exact free_naf hr.well_formed ih hn hu

/-- On a well-formed heap `GL_HeapAllocate` with a positive alignment always returns. -/
theorem alloc_returns {heap : glheap_t} (hwf : heap.WF) (size : Nat) {alignment : Nat}
    (hal : 0 < alignment) : ∃ res, GL_HeapAllocate heap size alignment = some res := by
  rcases alloc_cases hwf size (Nat.pos_iff_ne_zero.1 hal) with
    ⟨A, p, r, B, h2, -, -, -, -, e, -⟩ | ⟨A, p, r, B, h2, -, -, -, -, -, e, -⟩ | ⟨e, -⟩
  all_goals exact ⟨_, e⟩

theorem free_returns {heap : glheap_t} (hwf : heap.WF) {node : Nat} {n : glheapnode_t}
    (hn : load heap.cells node = some n) (hused : n.free = false) :
    (GL_HeapFree heap node).2 = .returned := by
  obtain ⟨A, B, h2, -, e, -⟩ := free_cases hwf hn hused
  rw [e]

/-- Every address of a tiled span lies in exactly one node. -/
theorem tiles_cover {s e : Nat} {l : List range_t} (h : tiles s l e) (a : Nat) (hs : s ≤ a)
    (he : a < e) :
    ∃! i : Nat, ∃ r : range_t, l[i]? = some r ∧ r.offset ≤ a ∧ a < r.offset + r.size := by
  induction l generalizing s with
  | nil => rw [tiles_nil] at h; omega
  | cons r l ih =>
    rw [tiles_cons] at h
    obtain ⟨h1, h2⟩ := h
    by_cases ha : a < s + r.size
    · refine ⟨0, ⟨r, by simp, by omega, by omega⟩, ?_⟩
      rintro j ⟨r2, hj, hj1, hj2⟩
      cases j with
      | zero => rfl
      | succ k =>
        exfalso
        simp only [List.getElem?_cons_succ] at hj
        have := tiles_mem_le h2 (List.getElem?_mem hj)
        omega
    · obtain ⟨k, ⟨r2, hk, hk1, hk2⟩, huniq⟩ := ih h2 (by omega)
      refine ⟨k + 1, ⟨r2, by simpa using hk, hk1, hk2⟩, ?_⟩
      rintro j ⟨r3, hj, hj1, hj2⟩
      cases j with
      | zero =>
        exfalso
        simp only [List.getElem?_cons_zero, Option.some.injEq] at hj
        subst hj
        omega
      | succ j =>
        simp only [List.getElem?_cons_succ] at hj
        rw [huniq j ⟨r3, hj, hj1, hj2⟩]

/-! ## Example states -/

theorem demo_heap_1_eq :
    GL_HeapAllocate (GL_CreateHeap 1024) 100 16 = some (demo_heap_1, some 1, 0) := by
  decide

theorem demo_heap_2_eq : GL_HeapAllocate demo_heap_1 50 16 = some (demo_heap_2, some 2, 112) := by
  decide

theorem demo_heap_1_reachable : Reachable 1024 demo_heap_1 :=
  Reachable.allocate Reachable.create (by decide) demo_heap_1_eq

theorem demo_heap_2_reachable : Reachable 1024 demo_heap_2 :=
  Reachable.allocate demo_heap_1_reachable (by decide) demo_heap_2_eq

/-! ## The claims about one heap -/

/-- C1, partition invariant (cover part).  In every heap state reachable from
`GL_CreateHeap S` by calls of `GL_HeapAllocate` (any size, any alignment above 0) and calls
of `GL_HeapFree` on used nodes, the node list read from `head` is not empty, its first node
has offset 0, every later node's offset is its predecessor's offset plus size, and the sizes
sum to `S`; hence every address below `S` lies in exactly one node.  In such a state both
functions return (no undefined behaviour, no endless loop). -/
theorem partition_invariant (S : Nat) (hS : S < 2 ^ 64) (heap : glheap_t)
    (h : Reachable S heap) :
    heap.ranges ≠ []
    ∧ heap.ranges.head?.map range_t.offset = some 0
    ∧ heap.ranges.Chain' (fun a b => b.offset = a.offset + a.size)
    ∧ (heap.ranges.map range_t.size).sum = S
    ∧ (∀ a, a < S → ∃! i : Nat, ∃ r : range_t,
        heap.ranges[i]? = some r ∧ r.offset ≤ a ∧ a < r.offset + r.size)
    ∧ (∀ size alignment, 0 < alignment →
        ∃ res, GL_HeapAllocate heap size alignment = some res)
    ∧ (∀ node n, load heap.cells node = some n → n.free = false →
        (GL_HeapFree heap node).2 = .returned) := by
  have hp := h.partition hS
  have ht := ((partition_inv_iff S _).1 hp).2
  obtain ⟨h1, h2, h3, h4⟩ := hp
  refine ⟨h1, ?_, h3, h4, fun a ha => tiles_cover ht a (Nat.zero_le a) ha,
    fun size alignment hal => alloc_returns h.well_formed size hal,
    fun node n hn hu => free_returns h.well_formed hn hu⟩
  cases hr : heap.ranges with
  | nil => exact absurd hr h1
  | cons r l =>
    rw [hr] at h2
    simp only [List.head?_cons, Option.map_some', Option.some.injEq]
    exact h2 r rfl

theorem partition_invariant_witness :
    (1024 < 2 ^ 64 ∧ Reachable 1024 demo_heap_2)
    ∧ demo_heap_2.ranges ≠ []
    ∧ demo_heap_2.ranges.head?.map range_t.offset = some 0
    ∧ demo_heap_2.ranges.Chain' (fun a b => b.offset = a.offset + a.size)
    ∧ (demo_heap_2.ranges.map range_t.size).sum = 1024
    ∧ (∀ a, a < 1024 → ∃! i : Nat, ∃ r : range_t,
        demo_heap_2.ranges[i]? = some r ∧ r.offset ≤ a ∧ a < r.offset + r.size)
    ∧ (∀ size alignment, 0 < alignment →
        ∃ res, GL_HeapAllocate demo_heap_2 size alignment = some res)
    ∧ (∀ node n, load demo_heap_2.cells node = some n → n.free = false →
        (GL_HeapFree demo_heap_2 node).2 = .returned) :=
  ⟨⟨by norm_num, demo_heap_2_reachable⟩,
    partition_invariant 1024 (by norm_num) demo_heap_2 demo_heap_2_reachable⟩

/-- C2, no-adjacent-free invariant.  If the node list of a (properly linked) heap has no two
adjacent free nodes, then neither has the list after `GL_HeapFree` of a used node, nor the
list after any `GL_HeapAllocate` call with an alignment above 0; hence no state reachable
from `GL_CreateHeap` has two adjacent free nodes. -/
theorem no_adjacent_free_invariant :
    (∀ (heap : glheap_t) (node : Nat) (n : glheapnode_t), heap.WF →
        no_adjacent_free heap.ranges → load heap.cells node = some n → n.free = false →
        (GL_HeapFree heap node).2 = .returned
          ∧ no_adjacent_free (GL_HeapFree heap node).1.ranges)
    ∧ (∀ (heap : glheap_t) (size alignment : Nat), heap.WF →
        no_adjacent_free heap.ranges → 0 < alignment →
        ∃ heap2 node off, GL_HeapAllocate heap size alignment = some (heap2, node, off)
          ∧ no_adjacent_free heap2.ranges)
    ∧ (∀ (S : Nat) (heap : glheap_t), Reachable S heap → no_adjacent_free heap.ranges) := by
  refine ⟨fun heap node n hwf hp hn hu => ⟨free_returns hwf hn hu, free_naf hwf hp hn hu⟩,
    fun heap size alignment hwf hp hal => ?_, fun S heap h => h.naf⟩
  obtain ⟨⟨heap2, node, off⟩, e⟩ := alloc_returns hwf size hal
  exact ⟨heap2, node, off, e, alloc_naf hwf hp hal e⟩

theorem no_adjacent_free_invariant_witness :
    (GL_HeapFree demo_heap_2 2).2 = .returned
      ∧ no_adjacent_free (GL_HeapFree demo_heap_2 2).1.ranges :=
  no_adjacent_free_invariant.1 demo_heap_2 2
    { offset := 100, size := 62, prev := some 1, next := some 0, free := false }
    demo_heap_2_reachable.well_formed demo_heap_2_reachable.naf rfl rfl

/-- Where `GL_HeapAllocate` places a request: the returned node is a used node of the heap
afterwards, and the aligned offset is a multiple of the alignment inside the node, `size`
bytes before the node's end. -/
theorem alloc_placement (S : Nat) (hS : S < 2 ^ 64) (heap heap2 : glheap_t)
    (size alignment node aligned_offset : Nat) (hwf : heap.WF)
    (hp : partition_inv S heap.ranges) (hal : 0 < alignment)
    (hsz : size + alignment < 2 ^ 64)
    (h : GL_HeapAllocate heap size alignment = some (heap2, some node, aligned_offset)) :
    ∃ n, load heap2.cells node = some n ∧ (node, n.range) ∈ heap2.nodes ∧ n.free = false
      ∧ aligned_offset % alignment = 0 ∧ n.offset ≤ aligned_offset
      ∧ aligned_offset + size = n.offset + n.size := by
  have hpad : ∀ o, align_padding o alignment < alignment := fun o => align_padding_lt o hal
  rw [ranges_eq, partition_inv_iff] at hp
  rcases alloc_cases hwf size (Nat.pos_iff_ne_zero.1 hal) with
    ⟨A, p, r, B, h2, e0, -, hr, -, e, -, hw, e2⟩
    | ⟨A, p, r, B, h2, e0, -, hlt, -, -, e, -, hw, e2⟩ | ⟨e, -⟩
  · rw [e] at h
    simp only [Option.some.injEq, Prod.mk.injEq] at h
    obtain ⟨rfl, rfl, rfl⟩ := h
    have hmem : (p, (⟨r.offset, r.size, false⟩ : range_t)) ∈ h2.nodes := by rw [e2]; simp
    obtain ⟨n, hn1, hn2⟩ := hw.linked.load_of_mem hmem
    simp only at hn1 hn2
    have hb := tiles_mem_le hp.2 (r := r) (by rw [e0]; simp)
    have hpd := hpad r.offset
    have hno : n.offset = r.offset := congrArg range_t.offset hn2
    have hns : n.size = r.size := congrArg range_t.size hn2
    have hnf : n.free = false := congrArg range_t.free hn2
    have hasz : aligned_size size alignment r.offset
        = size + align_padding r.offset alignment := Nat.mod_eq_of_lt (by omega)
    rw [hasz] at hr
    have hoff : (r.offset + align_padding r.offset alignment) % 2 ^ 64
        = r.offset + align_padding r.offset alignment := Nat.mod_eq_of_lt (by omega)
    rw [hoff]
    refine ⟨n, hn1, by rw [hn2]; exact hmem, hnf, align_padding_mod _ hal, by omega, by omega⟩
  · rw [e] at h
    simp only [Option.some.injEq, Prod.mk.injEq] at h
    obtain ⟨rfl, rfl, rfl⟩ := h
    have hmem : (heap.cells.length,
        (⟨r.offset, aligned_size size alignment r.offset, false⟩ : range_t)) ∈ h2.nodes := by
      rw [e2]; simp
    obtain ⟨n, hn1, hn2⟩ := hw.linked.load_of_mem hmem
    simp only at hn1 hn2
    have hb := tiles_mem_le hp.2 (r := r) (by rw [e0]; simp)
    have hpd := hpad r.offset
    have hno : n.offset = r.offset := congrArg range_t.offset hn2
    have hns : n.size = aligned_size size alignment r.offset := congrArg range_t.size hn2
    have hnf : n.free = false := congrArg range_t.free hn2
    have hasz : aligned_size size alignment r.offset
        = size + align_padding r.offset alignment := Nat.mod_eq_of_lt (by omega)
    rw [hasz] at hlt hns
    have hoff : (r.offset + align_padding r.offset alignment) % 2 ^ 64
        = r.offset + align_padding r.offset alignment := Nat.mod_eq_of_lt (by omega)
    rw [hoff]
    refine ⟨n, hn1, by rw [hn2]; exact hmem, hnf, align_padding_mod _ hal, by omega, by omega⟩
  · rw [e] at h
    simp at h

/-- C3, aligned placement.  On a (properly linked) heap of size `S` that satisfies the
partition invariant, for an alignment above 0 and a size with `size + alignment` within the
64-bit range, whenever `GL_HeapAllocate` returns a node, that node is a used node of the
heap afterwards, the returned aligned offset is a multiple of the alignment, it is not below
the node's offset, and `aligned_offset + size = node.offset + node.size`. -/
theorem aligned_placement (S : Nat) (hS : S < 2 ^ 64) (heap heap2 : glheap_t)
    (size alignment node aligned_offset : Nat) (hwf : heap.WF)
    (hp : partition_inv S heap.ranges) (hal : 0 < alignment)
    (hsz : size + alignment < 2 ^ 64)
    (h : GL_HeapAllocate heap size alignment = some (heap2, some node, aligned_offset)) :
    ∃ n, load heap2.cells node = some n ∧ (node, n.range) ∈ heap2.nodes ∧ n.free = false
      ∧ aligned_offset % alignment = 0 ∧ n.offset ≤ aligned_offset
      ∧ aligned_offset + size = n.offset + n.size := by
  obtain ⟨n, h1, h2, h3, h4, h5, h6⟩ :=
    alloc_placement S hS heap heap2 size alignment node aligned_offset hwf hp hal hsz h
  exact ⟨n, h1, h2, h3, h4, h5, h6⟩

theorem aligned_placement_witness :
    (1024 < 2 ^ 64 ∧ demo_heap_1.WF ∧ partition_inv 1024 demo_heap_1.ranges ∧ 0 < 16
      ∧ 50 + 16 < 2 ^ 64
      ∧ GL_HeapAllocate demo_heap_1 50 16 = some (demo_heap_2, some 2, 112))
    ∧ ∃ n, load demo_heap_2.cells 2 = some n ∧ (2, n.range) ∈ demo_heap_2.nodes
      ∧ n.free = false ∧ 112 % 16 = 0 ∧ n.offset ≤ 112 ∧ 112 + 50 = n.offset + n.size :=
  ⟨⟨by norm_num, demo_heap_1_reachable.well_formed, demo_heap_1_reachable.partition (by norm_num),
      by norm_num, by norm_num, demo_heap_2_eq⟩,
    aligned_placement 1024 (by norm_num) demo_heap_1 demo_heap_2 50 16 2 112
      demo_heap_1_reachable.well_formed (demo_heap_1_reachable.partition (by norm_num)) (by norm_num)
      (by norm_num) demo_heap_2_eq⟩

theorem coalesce_next_fst (x : Nat × range_t) (B : List (Nat × range_t)) :
    (coalesce_next x B).1.1 = x.1 ∧ (coalesce_next x B).1.2.free = x.2.free
      ∧ (coalesce_next x B).1.2.offset = x.2.offset := by
  cases B with
  | nil => simp [coalesce_next]
  | cons y B0 =>
    simp only [coalesce_next]
    split_ifs <;> simp

theorem coalesce_next_snd_sublist (x : Nat × range_t) (B : List (Nat × range_t)) :
    List.Sublist (coalesce_next x B).2 B := by
  cases B with
  | nil => simp [coalesce_next]
  | cons y B0 =>
    simp only [coalesce_next]
    split_ifs
    · exact List.sublist_cons_self _ _
    · exact List.Sublist.refl _

theorem nodup_mid {A B : List (Nat × range_t)} {p : Nat} {r : range_t}
    (h : (List.map Prod.fst (A ++ (p, r) :: B)).Nodup) : p ∉ addrs A ∧ p ∉ addrs B := by
  simp only [List.map_append, List.map_cons, List.nodup_append, List.nodup_cons,
    List.disjoint_cons_right] at h
  exact ⟨h.2.2.1, h.2.1.1⟩

/-- The predecessor of a node of a linked list, read from the list. -/
theorem Linked.prev_eq {m : List (Option glheapnode_t)} {head : Nat}
    {A B : List (Nat × range_t)} {p : Nat} {r : range_t} {n : glheapnode_t}
    (hL : Linked m head (A ++ (p, r) :: B)) (hn : load m p = some n) :
    n.prev = last_or A none ∧ n.next = first_or B none ∧ n.range = r := by
  have hseg := hL.seg
  rw [seg_append, seg_cons] at hseg
  obtain ⟨-, ⟨n2, h1, h2, h3, h4⟩, -⟩ := hseg
  simp only at h1
  rw [hn] at h1
  cases h1
  exact ⟨h3, h4, h2⟩

/-- After `GL_HeapFree` of a used node whose predecessor is absent or used, the node is
still a node of the list and is marked free. -/
theorem free_keeps_node {heap : glheap_t} (hwf : heap.WF) {node : Nat} {n : glheapnode_t}
    (hn : load heap.cells node = some n) (hused : n.free = false)
    (hprev : ∀ q nq, n.prev = some q → load heap.cells q = some nq → nq.free = false) :
    ∃ n2, load (GL_HeapFree heap node).1.cells node = some n2 ∧ n2.free = true := by
  obtain ⟨A, B, h2, e0, e, -, hw, e2⟩ := free_cases hwf hn hused
  rw [e]
  have hL : Linked heap.cells heap.head (A ++ (node, n.range) :: B) := by
    rw [← e0]; exact hwf.linked
  obtain ⟨hp1, -, -⟩ := hL.prev_eq hn
  have hc : coalesce_prev A (node, { n.range with free := true })
      = (A, (node, { n.range with free := true })) := by
    rcases eq_nil_or_snoc A with rfl | ⟨A0, ⟨q, rq⟩, rfl⟩
    · rfl
    · rw [coalesce_prev_snoc]
      rw [last_or_concat] at hp1
      obtain ⟨nq, hq1, hq2⟩ := hL.load_of_mem (x := (q, rq)) (by simp)
      have := hprev q nq hp1 hq1
      have hrq : rq.free = false := (congrArg range_t.free hq2).symm.trans this
      simp [hrq]
  have hmem : (coalesce_next (node, { n.range with free := true }) B).1 ∈ h2.nodes := by
    rw [e2]; simp [free_list, hc]
  obtain ⟨n2, hn21, hn22⟩ := hw.linked.load_of_mem hmem
  obtain ⟨c1, c2, -⟩ := coalesce_next_fst (node, { n.range with free := true }) B
  rw [c1] at hn21
  refine ⟨n2, hn21, ?_⟩
  have := congrArg range_t.free hn22
  rw [c2] at this
  exact this

/-- After `GL_HeapFree` of a used node whose predecessor is free, the node object has been
released. -/
theorem free_releases_node {heap : glheap_t} (hwf : heap.WF) {node : Nat} {n : glheapnode_t}
    (hn : load heap.cells node = some n) (hused : n.free = false)
    {q : Nat} {nq : glheapnode_t} (hq : n.prev = some q) (hnq : load heap.cells q = some nq)
    (hfree : nq.free = true) :
    load (GL_HeapFree heap node).1.cells node = none := by
  obtain ⟨A, B, h2, e0, e, -, hw, e2⟩ := free_cases hwf hn hused
  rw [e]
  have hL : Linked heap.cells heap.head (A ++ (node, n.range) :: B) := by
    rw [← e0]; exact hwf.linked
  obtain ⟨hp1, -, -⟩ := hL.prev_eq hn
  rw [hq] at hp1
  rcases eq_nil_or_snoc A with rfl | ⟨A0, ⟨q2, rq⟩, rfl⟩
  · simp at hp1
  · rw [last_or_concat] at hp1
    simp only [Option.some.injEq] at hp1
    subst hp1
    obtain ⟨nq2, hq1, hq2⟩ := hL.load_of_mem (x := (q, rq)) (by simp)
    simp only at hq1
    rw [hnq] at hq1
    cases hq1
    have hrq : rq.free = true := (congrArg range_t.free hq2).symm.trans hfree
    obtain ⟨hnA, hnB⟩ := nodup_mid hL.nodup
    have hc : coalesce_prev (A0 ++ [(q, rq)]) (node, { n.range with free := true })
        = (A0, (q, { rq with size := (rq.size + n.range.size) % 2 ^ 64 })) := by
      rw [coalesce_prev_snoc, if_pos hrq]
    by_contra hne
    have hsome : (load h2.cells node).isSome := by
      cases hl : load h2.cells node with
      | none => exact absurd hl hne
      | some v => rfl
    have hmem := hw.linked.live node hsome
    rw [e2] at hmem
    unfold free_list at hmem
    rw [hc] at hmem
    simp only [List.map_append, List.map_cons, List.mem_append, List.mem_cons] at hmem
    obtain ⟨c1, -, -⟩ := coalesce_next_fst
      (q, ({ rq with size := (rq.size + n.range.size) % 2 ^ 64 } : range_t)) B
    rcases hmem with h1 | h1 | h1
    · exact hnA (by rw [addrs_append]; exact List.mem_append_left _ h1)
    · rw [c1] at h1
      exact hnA (by rw [addrs_append, h1]; simp)
    · obtain ⟨w, hw1, hw2⟩ := List.mem_map.1 h1
      have hw3 := (coalesce_next_snd_sublist _ _).subset hw1
      exact hnB (hw2 ▸ mem_addrs_of_mem hw3)

theorem demo_heap_3_eq : GL_HeapFree demo_heap_2 1 = (demo_heap_3, .returned) := by
  decide

theorem demo_heap_3_reachable : Reachable 1024 demo_heap_3 := by
  have h := Reachable.free demo_heap_2_reachable
    (rfl : load demo_heap_2.cells 1
      = some { offset := 0, size := 100, prev := none, next := some 2, free := false }) rfl
  rw [demo_heap_3_eq] at h
  exact h

/-- `GL_HeapFree` reaches its `Sys_Error` exactly when the node's flag is set. -/
theorem free_sys_error_iff {heap : glheap_t} {node : Nat} {n : glheapnode_t}
    (hn : load heap.cells node = some n) :
    (GL_HeapFree heap node).2 = .sys_error ↔ n.free = true := by
  constructor
  · intro h
    by_contra hf
    have hf2 : n.free = false := by simpa using hf
    unfold GL_HeapFree at h
    simp only [hn, hf2] at h
    revert h
    generalize (modify heap.cells node fun x =>
      ({ x with free := true } : glheapnode_t)).bind
        (fun m => (GL_HeapFree_prev m node).bind fun r => GL_HeapFree_next r.1 r.2) = o
    cases o <;> simp
  · intro hf
    rw [free_already_freed hn hf]

/-- Double free and the node object.  In a reachable heap let `node` be marked used.  If its
predecessor is absent or used, a first `GL_HeapFree` keeps the node object, and a second
`GL_HeapFree` of the same node ends in the double-free `Sys_Error` and leaves the heap exactly
as it was after the first call.  If its predecessor is free, the first call merges the node
into the predecessor and releases the node object, so the second call reads a released
object (undefined; status `fault`).  In general, for a pointer to an allocated node,
`GL_HeapFree` ends in the double-free error exactly when the node's `free` flag is set, and
then changes nothing. -/
theorem double_free_detection (S : Nat) (heap : glheap_t) (node : Nat) (n : glheapnode_t)
    (h : Reachable S heap) (hn : load heap.cells node = some n) (hu : n.free = false) :
    ((∀ q nq, n.prev = some q → load heap.cells q = some nq → nq.free = false) →
        GL_HeapFree (GL_HeapFree heap node).1 node = ((GL_HeapFree heap node).1, .sys_error))
    ∧ (∀ q nq, n.prev = some q → load heap.cells q = some nq → nq.free = true →
        load (GL_HeapFree heap node).1.cells node = none
        ∧ GL_HeapFree (GL_HeapFree heap node).1 node = ((GL_HeapFree heap node).1, .fault))
    ∧ (∀ (heap2 : glheap_t) (node2 : Nat) (n2 : glheapnode_t),
        load heap2.cells node2 = some n2 →
        ((GL_HeapFree heap2 node2).2 = .sys_error ↔ n2.free = true)
        ∧ (n2.free = true → GL_HeapFree heap2 node2 = (heap2, .sys_error))) := by
  refine ⟨fun hprev => ?_, fun q nq hq hnq hfree => ?_, fun heap2 node2 n2 hn2 => ?_⟩
  · obtain ⟨n2, h1, h2⟩ := free_keeps_node h.well_formed hn hu hprev
    exact free_already_freed h1 h2
  · have := free_releases_node h.well_formed hn hu hq hnq hfree
    exact ⟨this, free_dangling this⟩
  · exact ⟨free_sys_error_iff hn2, fun hf => free_already_freed hn2 hf⟩

theorem double_free_detection_witness :
    (Reachable 1024 demo_heap_2
      ∧ load demo_heap_2.cells 1
          = some { offset := 0, size := 100, prev := none, next := some 2, free := false })
    ∧ GL_HeapFree (GL_HeapFree demo_heap_2 1).1 1 = ((GL_HeapFree demo_heap_2 1).1, .sys_error) :=
  ⟨⟨demo_heap_2_reachable, rfl⟩,
    (double_free_detection 1024 demo_heap_2 1
      { offset := 0, size := 100, prev := none, next := some 2, free := false }
      demo_heap_2_reachable rfl rfl).1 (fun q nq hq => by simp at hq)⟩

/-- C6, double free after a merge into the predecessor.  In the reachable heap `demo_heap_3`
(1024 bytes; the 100-byte node has been freed) the used 62-byte node at address 2 has a free
predecessor.  The first `GL_HeapFree` of it returns, leaves the single free node 0/1024 and
has released the node object with `Mem_Free`; the second `GL_HeapFree` of the same pointer
evaluates `node->free` on the released object, which is undefined (status `fault`), so the
double-free `Sys_Error` is not guaranteed.  When no merge into the predecessor takes place
(the 100-byte node of `demo_heap_2`) the second call does end in the double-free error and
changes nothing. -/
theorem double_free_after_merge :
    Reachable 1024 demo_heap_3
    ∧ load demo_heap_3.cells 2
        = some { offset := 100, size := 62, prev := some 1, next := some 0, free := false }
    ∧ (load demo_heap_3.cells 1).map glheapnode_t.range
        = some { offset := 0, size := 100, free := true }
    ∧ (GL_HeapFree demo_heap_3 2).2 = .returned
    ∧ (GL_HeapFree demo_heap_3 2).1.ranges = [{ offset := 0, size := 1024, free := true }]
    ∧ load (GL_HeapFree demo_heap_3 2).1.cells 2 = none
    ∧ GL_HeapFree (GL_HeapFree demo_heap_3 2).1 2 = ((GL_HeapFree demo_heap_3 2).1, .fault)
    ∧ GL_HeapFree (GL_HeapFree demo_heap_2 1).1 1
        = ((GL_HeapFree demo_heap_2 1).1, .sys_error) := by
  refine ⟨demo_heap_3_reachable, rfl, ?_⟩
  and_intros
  all_goals decide

/-! ## Pools -/

theorem load_eq_some_iff {α : Type} {m : List (Option α)} {p : Nat} {v : α} :
    load m p = some v ↔ m[p]? = some (some v) := by
  unfold load
  cases m[p]? with
  | none => simp
  | some x => cases x <;> simp

theorem set_load_self {α : Type} {m : List (Option α)} {p : Nat} {v : α}
    (h : load m p = some v) : m.set p (some v) = m := by
  have hlt := load_lt h
  rw [load_eq_some_iff] at h
  apply List.ext_getElem?
  intro i
  rw [List.getElem?_set]
  by_cases h1 : p = i
  · subst h1; simp [hlt, h]
  · simp [h1]

theorem set_append_new {α : Type} (m : List (Option α)) (v w : Option α) :
    (m ++ [v]).set m.length w = m ++ [w] := by
  simp

theorem alloc_null_unchanged {heap h2 : glheap_t} {size alignment off : Nat} (hwf : heap.WF)
    (hal : 0 < alignment) (h : GL_HeapAllocate heap size alignment = some (h2, none, off)) :
    h2 = heap ∧ off = 0 := by
  rcases alloc_cases hwf size (Nat.pos_iff_ne_zero.1 hal) with
    ⟨A, p, r, B, h3, -, -, -, -, e, -⟩ | ⟨A, p, r, B, h3, -, -, -, -, -, e, -⟩ | ⟨e, -⟩
  all_goals
    rw [e] at h
    simp only [Option.some.injEq, Prod.mk.injEq] at h
  · exact absurd h.2.1 (by simp)
  · exact absurd h.2.1 (by simp)
  · exact ⟨h.1.symm, h.2.2.symm⟩

/-- One iteration of the loop of `GL_AllocateFromHeaps` at an empty (or appended) slot `k`,
from the pool `pool1` in which the slot exists. -/
theorem alloc_loop_fresh (heap_size size alignment n remaining k : Nat) (pool1 : pool_t)
    (hk : k ≠ n) (hslot : pool1.heaps[k]? = some none) (hal : 0 < alignment) :
    ∃ h2 node off,
      GL_HeapAllocate (GL_CreateHeap heap_size) size alignment = some (h2, node, off)
      ∧ GL_AllocateFromHeaps_loop heap_size size alignment n (remaining + 1) k pool1
        = ({ num_heaps := pool1.num_heaps
             heaps := pool1.heaps.set k (some pool1.objects.length)
             objects := pool1.objects ++ [some h2]
             num_allocations := (pool1.num_allocations + 1) % 2 ^ 32 },
            match node with
            | some node => .allocated off pool1.objects.length node
            | none => .sys_error) := by
  obtain ⟨⟨h2, node, off⟩, e⟩ := alloc_returns (wf_create heap_size) size hal
  refine ⟨h2, node, off, e, ?_⟩
  unfold GL_AllocateFromHeaps_loop
  simp only [hk, if_false, hslot, Mem_Alloc, load_append_new, Option.some_bind, e]
  cases node with
  | none => simp [set_append_new]
  | some node => simp [set_append_new]

/-- The iteration of the loop of `GL_AllocateFromHeaps` that appends a slot to a full
array. -/
theorem alloc_loop_grow (heap_size size alignment remaining : Nat) (pool : pool_t)
    (hn : pool.num_heaps = pool.heaps.length) (hal : 0 < alignment) :
    ∃ h2 node off,
      GL_HeapAllocate (GL_CreateHeap heap_size) size alignment = some (h2, node, off)
      ∧ GL_AllocateFromHeaps_loop heap_size size alignment pool.num_heaps (remaining + 1)
          pool.num_heaps pool
        = (fresh_pool pool pool.num_heaps h2,
            match node with
            | some node => .allocated off pool.objects.length node
            | none => .sys_error) := by
  obtain ⟨⟨h2, node, off⟩, e⟩ := alloc_returns (wf_create heap_size) size hal
  refine ⟨h2, node, off, e, ?_⟩
  have htake : List.take pool.num_heaps pool.heaps = pool.heaps := by
    rw [hn]; exact List.take_length _
  have hget : (pool.heaps ++ [none])[pool.num_heaps]? = some (none : Option Nat) := by
    rw [hn]; simp
  unfold GL_AllocateFromHeaps_loop
  simp only [if_true, htake, hget, Mem_Alloc, load_append_new, Option.some_bind, e, fresh_pool]
  cases node with
  | none => simp [set_append_new]
  | some node => simp [set_append_new]

theorem alloc_loop_spec (heap_size size alignment : Nat) (hal : 0 < alignment)
    (pool : pool_t) (hok : pool_ok heap_size pool) :
    ∀ remaining i, remaining + i = pool.num_heaps + 1 →
      (∀ j, j < i → slot_fails pool size alignment j) →
      alloc_outcome pool heap_size size alignment
        (GL_AllocateFromHeaps_loop heap_size size alignment pool.num_heaps remaining i pool) := by
  intro remaining
  induction remaining with
  | zero =>
    intro i hi hfail
    exfalso
    obtain ⟨hp, h, h1, -⟩ := hfail pool.num_heaps (by omega)
    rw [hok.count, List.getElem?_eq_none (le_refl _)] at h1
    cases h1
  | succ remaining ih =>
    intro i hi hfail
    by_cases hin : i = pool.num_heaps
    · subst hin
      obtain ⟨h2, node, off, e1, e2⟩ :=
        alloc_loop_grow heap_size size alignment remaining pool hok.count hal
      rw [e2]
      exact ⟨pool.num_heaps, le_refl _, hfail, Or.inr ⟨Or.inl rfl, h2, node, off, e1, rfl⟩⟩
    · have hlt : i < pool.heaps.length := by rw [← hok.count]; omega
      rcases hslot : pool.heaps[i] with _ | hp
      · have hget : pool.heaps[i]? = some none := by
          rw [List.getElem?_eq_getElem hlt, hslot]
        obtain ⟨h2, node, off, e1, e2⟩ :=
          alloc_loop_fresh heap_size size alignment pool.num_heaps remaining i pool hin hget hal
        rw [e2]
        refine ⟨i, by omega, hfail, Or.inr ⟨Or.inr hget, h2, node, off, e1, ?_⟩⟩
        simp [fresh_pool, hin]
      · have hget : pool.heaps[i]? = some (some hp) := by
          rw [List.getElem?_eq_getElem hlt, hslot]
        obtain ⟨h, hh1, hh2⟩ := hok.heaps_ok i hp hget
        obtain ⟨⟨h2, node, off⟩, e⟩ := alloc_returns hh2.1 size hal
        unfold GL_AllocateFromHeaps_loop
        simp only [hin, if_false, hget, hh1, Option.some_bind, e]
        cases node with
        | some node =>
          exact ⟨i, by omega, hfail, Or.inl ⟨hp, h, h2, node, off, hget, hh1, e, rfl⟩⟩
        | none =>
          obtain ⟨rfl, rfl⟩ := alloc_null_unchanged hh2.1 hal e
          simp only [set_load_self hh1, Bool.false_eq_true, if_false]
          refine ih (i + 1) (by omega) (fun j hj => ?_)
          rcases Nat.lt_succ_iff_lt_or_eq.1 hj with h3 | rfl
          · exact hfail j h3
          · exact ⟨hp, h2, hget, hh1, e⟩

/-- `GL_AllocateFromHeaps` on a well-formed pool. -/
theorem alloc_from_heaps_spec (heap_size size alignment : Nat) (hal : 0 < alignment)
    (pool : pool_t) (hok : pool_ok heap_size pool) :
    alloc_outcome pool heap_size size alignment
      (GL_AllocateFromHeaps pool heap_size size alignment) :=
  alloc_loop_spec heap_size size alignment hal pool hok (pool.num_heaps + 1) 0 rfl
    (fun j hj => absurd hj (Nat.not_lt_zero j))

theorem align_padding_zero (alignment : Nat) : align_padding 0 alignment = 0 := by
  simp [align_padding]

/-- A new heap serves a request of exactly its size with its only node. -/
theorem fresh_alloc_exact (S alignment : Nat) (hal : 0 < alignment) (hS : S < 2 ^ 64) :
    GL_HeapAllocate (GL_CreateHeap S) S alignment
      = some ({ head := 0
                cells := [some { offset := 0, size := S, prev := none, next := none,
                                 free := false }] }, some 0, 0) := by
  have h0 : alignment ≠ 0 := Nat.pos_iff_ne_zero.1 hal
  have hm : S % 18446744073709551616 = S := Nat.mod_eq_of_lt (by simpa using hS)
  simp [GL_HeapAllocate, GL_CreateHeap, GL_HeapAllocate_scan, load, align_padding_zero, h0,
    hm, modify]

/-- A new heap serves a smaller request by splitting its only node. -/
theorem fresh_alloc_split (S size alignment : Nat) (hal : 0 < alignment) (hlt : size < S)
    (hS : S < 2 ^ 64 - 1) :
    GL_HeapAllocate (GL_CreateHeap S) size alignment
      = some ({ head := 1
                cells := [some { offset := size, size := S - size, prev := some 1,
                                 next := none, free := true },
                          some { offset := 0, size := size, prev := none, next := some 0,
                                 free := false }] }, some 1, 0) := by
  have h0 : alignment ≠ 0 := Nat.pos_iff_ne_zero.1 hal
  have hm : size % 18446744073709551616 = size := Nat.mod_eq_of_lt (by omega)
  have hne : ¬ S = size := by omega
  have h1 : size < S ∧ S < UINT64_MAX := ⟨hlt, by unfold UINT64_MAX; omega⟩
  have h2 : (S + 18446744073709551616 - size) % 18446744073709551616 = S - size := by
    have : S + 18446744073709551616 - size = (S - size) + 18446744073709551616 := by omega
    rw [this, Nat.add_mod_right]
    exact Nat.mod_eq_of_lt (by omega)
  simp [GL_HeapAllocate, GL_CreateHeap, GL_HeapAllocate_scan, GL_HeapAllocate_split, load,
    align_padding_zero, h0, hm, hne, h1, h2, modify, Mem_Alloc]

/-- A new heap cannot serve a request larger than itself. -/
theorem fresh_alloc_none (S size alignment : Nat) (hal : 0 < alignment) (hlt : S < size)
    (hsz : size < 2 ^ 64) :
    GL_HeapAllocate (GL_CreateHeap S) size alignment = some (GL_CreateHeap S, none, 0) := by
  have h0 : alignment ≠ 0 := Nat.pos_iff_ne_zero.1 hal
  have hm : size % 18446744073709551616 = size := Nat.mod_eq_of_lt (by simpa using hsz)
  have hne : ¬ S = size := by omega
  have h1 : ¬ (size < S ∧ S < UINT64_MAX) := by omega
  simp [GL_HeapAllocate, GL_CreateHeap, GL_HeapAllocate_scan, load, align_padding_zero, h0,
    hm, hne, h1]

/-- A heap of size `S` that satisfies the partition invariant cannot serve a request larger
than `S` (when `size + alignment` does not wrap). -/
theorem alloc_too_large {S : Nat} {heap : glheap_t} {size alignment : Nat}
    (hok : heap_ok S heap) (hal : 0 < alignment) (hlt : S < size)
    (hsz : size + alignment < 2 ^ 64) :
    GL_HeapAllocate heap size alignment = some (heap, none, 0) := by
  obtain ⟨hwf, hp, -⟩ := hok
  rw [ranges_eq, partition_inv_iff] at hp
  have hasz : ∀ o, aligned_size size alignment o = size + align_padding o alignment := by
    intro o
    have := align_padding_lt o hal
    exact Nat.mod_eq_of_lt (by omega)
  rcases alloc_cases hwf size (Nat.pos_iff_ne_zero.1 hal) with
    ⟨A, p, r, B, h2, e0, -, hr, -, -⟩ | ⟨A, p, r, B, h2, e0, -, hr, -, -⟩ | ⟨e, -⟩
  · exfalso
    have hb := tiles_mem_le hp.2 (r := r) (by rw [e0]; simp)
    rw [hasz] at hr
    omega
  · exfalso
    have hb := tiles_mem_le hp.2 (r := r) (by rw [e0]; simp)
    rw [hasz] at hr
    omega
  · exact e

/-- On a well-formed heap `GL_IsHeapEmpty` tells whether the list has exactly one node. -/
theorem is_empty_spec {heap : glheap_t} (hwf : heap.WF) :
    GL_IsHeapEmpty heap = some (decide (heap.nodes.length = 1)) := by
  have hL := hwf.linked
  have hh := hL.head_eq
  have hseg := hL.seg
  cases hnodes : heap.nodes with
  | nil => rw [hnodes] at hh; simp at hh
  | cons x rest =>
    rw [hnodes] at hh hseg
    simp only [first_or_cons, Option.some.injEq] at hh
    rw [seg_cons] at hseg
    obtain ⟨⟨nd, h1, -, -, h4⟩, -⟩ := hseg
    rw [hh] at h1
    unfold GL_IsHeapEmpty
    rw [h1]
    simp only [Option.map_some', h4, List.length_cons, Option.some.injEq]
    cases rest with
    | nil => simp
    | cons y rest => simp

theorem head_live {heap : glheap_t} (hwf : heap.WF) :
    ∃ nd, load heap.cells heap.head = some nd := by
  have hL := hwf.linked
  have hh := hL.head_eq
  cases hnodes : heap.nodes with
  | nil => rw [hnodes] at hh; simp at hh
  | cons x rest =>
    rw [hnodes] at hh
    simp only [first_or_cons, Option.some.injEq] at hh
    obtain ⟨nd, h1, -⟩ := hL.load_of_mem (x := x) (by rw [hnodes]; simp)
    rw [hh] at h1
    exact ⟨nd, h1⟩

theorem destroy_spec {objects : List (Option glheap_t)} {hp : Nat} {h : glheap_t}
    (hload : load objects hp = some h) (hwf : h.WF) :
    GL_DestroyHeap objects hp = some (objects.set hp none) := by
  obtain ⟨nd, hnd⟩ := head_live hwf
  simp [GL_DestroyHeap, hload, Mem_Free, poke, hnd]

/-- `GL_FreeFromHeaps` of a used node of a well-formed heap of the pool. -/
theorem free_from_heaps_spec {pool : pool_t} {hp : Nat} {h : glheap_t} {node : Nat}
    {n : glheapnode_t} (hload : load pool.objects hp = some h) (hwf : h.WF)
    (hn : load h.cells node = some n) (hu : n.free = false) :
    GL_FreeFromHeaps pool hp node =
      if (GL_HeapFree h node).1.nodes.length = 1 then
        ({ pool with
            num_allocations := (pool.num_allocations + 2 ^ 32 - 1) % 2 ^ 32
            objects := pool.objects.set hp none
            heaps := clear_slots pool.num_heaps pool.heaps hp }, .returned)
      else ({ pool with objects := pool.objects.set hp (some (GL_HeapFree h node).1) },
        .returned) := by
  obtain ⟨A, B, h2, -, e, -, hw2, -⟩ := free_cases hwf hn hu
  have hlt := load_lt hload
  unfold GL_FreeFromHeaps
  simp only [hload, e, is_empty_spec hw2]
  by_cases hlen : h2.nodes.length = 1
  · have hd : GL_DestroyHeap (pool.objects.set hp (some h2)) hp
        = some ((pool.objects.set hp (some h2)).set hp none) :=
      destroy_spec (load_set_eq _ _ _ hlt) hw2
    simp only [hlen, decide_True, hd, if_true, List.set_set]
  · simp only [hlen, decide_False, if_false]

theorem coalesce_prev_free (A : List (Nat × range_t)) (x : Nat × range_t) :
    (coalesce_prev A (x.1, { x.2 with free := true })).2.2.free = true := by
  rcases eq_nil_or_snoc A with rfl | ⟨A0, q, rfl⟩
  · rfl
  · rw [coalesce_prev_snoc]
    split_ifs with hq
    · exact hq
    · rfl

theorem free_list_free (A B : List (Nat × range_t)) (x : Nat × range_t) :
    ∃ P m Q, free_list A x B = P ++ m :: Q ∧ m.2.free = true ∧ P.length ≤ A.length
      ∧ Q.length ≤ B.length ∧ (free_list A x B).length = P.length + 1 + Q.length := by
  refine ⟨(coalesce_prev A (x.1, { x.2 with free := true })).1,
    (coalesce_next (coalesce_prev A (x.1, { x.2 with free := true })).2 B).1,
    (coalesce_next (coalesce_prev A (x.1, { x.2 with free := true })).2 B).2, rfl, ?_, ?_, ?_, ?_⟩
  · rw [(coalesce_next_fst _ B).2.1]
    exact coalesce_prev_free A x
  · rcases eq_nil_or_snoc A with rfl | ⟨A0, q, rfl⟩
    · simp [coalesce_prev_nil]
    · rw [coalesce_prev_snoc]
      split_ifs <;> simp
  · exact (coalesce_next_snd_sublist _ B).length_le
  · simp [free_list]; omega

/-- The list after `GL_HeapFree` of `x` has one node exactly when all other nodes were
free. -/
theorem free_list_length_one_iff (A B : List (Nat × range_t)) (x : Nat × range_t)
    (hnaf : no_adjacent_free ((A ++ x :: B).map Prod.snd)) :
    (free_list A x B).length = 1 ↔ ∀ y ∈ A ++ B, y.2.free = true := by
  have hlen : (free_list A x B).length
      = (coalesce_prev A (x.1, { x.2 with free := true })).1.length + 1
        + (coalesce_next (coalesce_prev A (x.1, { x.2 with free := true })).2 B).2.length := by
    simp [free_list]; omega
  -- the part before
  have hA : (coalesce_prev A (x.1, { x.2 with free := true })).1.length = 0
      ↔ ∀ y ∈ A, y.2.free = true := by
    rcases eq_nil_or_snoc A with rfl | ⟨A0, q, rfl⟩
    · simp [coalesce_prev_nil]
    · rw [coalesce_prev_snoc]
      by_cases hq : q.2.free = true
      · simp only [hq, if_true, List.length_eq_zero]
        constructor
        · rintro rfl; simpa using hq
        · intro hall
          rcases eq_nil_or_snoc A0 with rfl | ⟨A1, p, rfl⟩
          · rfl
          · exfalso
            have hp : p.2.free = true := hall p (by simp)
            have hin : [p.2, q.2] <:+: (A1 ++ [p] ++ [q] ++ x :: B).map Prod.snd :=
              ⟨A1.map Prod.snd, x.2 :: B.map Prod.snd, by simp⟩
            have := List.Chain'.infix hnaf hin
            rw [List.chain'_pair] at this
            exact this ⟨hp, hq⟩
      · simp only [hq, if_false]
        constructor
        · intro h; simp at h
        · intro hall; exact absurd (hall q (by simp)) hq
  have hB : ∀ z, (coalesce_next z B).2.length = 0 ↔ ∀ y ∈ B, y.2.free = true := by
    intro z
    cases B with
    | nil => simp [coalesce_next]
    | cons y B0 =>
      simp only [coalesce_next]
      by_cases hy : y.2.free = true
      · simp only [hy, if_true, List.length_eq_zero]
        constructor
        · rintro rfl; simpa using hy
        · intro hall
          cases B0 with
          | nil => rfl
          | cons w B1 =>
            exfalso
            have hw : w.2.free = true := hall w (by simp)
            have hin : [y.2, w.2] <:+: (A ++ x :: y :: w :: B1).map Prod.snd :=
              ⟨A.map Prod.snd ++ [x.2], B1.map Prod.snd, by simp⟩
            have := List.Chain'.infix hnaf hin
            rw [List.chain'_pair] at this
            exact this ⟨hy, hw⟩
      · simp only [hy, if_false]
        constructor
        · intro h; simp at h
        · intro hall; exact absurd (hall y (by simp)) hy
  rw [hlen]
  constructor
  · intro h y hy
    rcases List.mem_append.1 hy with h1 | h1
    · exact (hA.1 (by omega)) y h1
    · exact ((hB (coalesce_prev A (x.1, { x.2 with free := true })).2).1 (by omega)) y h1
  · intro hall
    have h1 := hA.2 (fun y hy => hall y (List.mem_append_left _ hy))
    have h2 := (hB (coalesce_prev A (x.1, { x.2 with free := true })).2).2
      (fun y hy => hall y (List.mem_append_right _ hy))
    omega

/-- `GL_HeapFree` of a used node leaves a single node exactly when it was the only used node,
and that single node is free and spans the heap. -/
theorem free_empties_iff {S : Nat} (hS : S < 2 ^ 64) {heap : glheap_t} (hok : heap_ok S heap)
    {node : Nat} {n : glheapnode_t} (hn : load heap.cells node = some n)
    (hu : n.free = false) :
    ((GL_HeapFree heap node).1.nodes.length = 1
        ↔ ∀ x ∈ heap.nodes, x.2.free = false → x.1 = node)
    ∧ ((GL_HeapFree heap node).1.nodes.length = 1 →
        (GL_HeapFree heap node).1.ranges = [{ offset := 0, size := S, free := true }]) := by
  obtain ⟨hwf, hp, hnaf⟩ := hok
  have hp2 := free_partition hS hwf hp hn hu
  obtain ⟨A, B, h2, e0, e, -, hw2, e2⟩ := free_cases hwf hn hu
  rw [e] at hp2 ⊢
  simp only
  rw [ranges_eq, e0] at hnaf
  have hL : Linked heap.cells heap.head (A ++ (node, n.range) :: B) := by
    rw [← e0]; exact hwf.linked
  obtain ⟨hnA, hnB⟩ := nodup_mid hL.nodup
  constructor
  · rw [e2, free_list_length_one_iff A B _ hnaf, e0]
    constructor
    · intro hall x hx hxu
      rcases List.mem_append.1 hx with h1 | h1
      · have := hall x (List.mem_append_left _ h1)
        rw [this] at hxu; cases hxu
      · rcases List.mem_cons.1 h1 with rfl | h1
        · rfl
        · have := hall x (List.mem_append_right _ h1)
          rw [this] at hxu; cases hxu
    · intro hall y hy
      by_contra hyf
      have hyu : y.2.free = false := by simpa using hyf
      rcases List.mem_append.1 hy with h1 | h1
      · have := hall y (by simp [h1]) hyu
        exact hnA (this ▸ mem_addrs_of_mem h1)
      · have := hall y (by simp [h1]) hyu
        exact hnB (this ▸ mem_addrs_of_mem h1)
  · intro hlen
    obtain ⟨P, m, Q, e3, hm, -, -, e4⟩ := free_list_free A B (node, n.range)
    rw [e2] at hlen
    have hP : P = [] := List.length_eq_zero.1 (by omega)
    have hQ : Q = [] := List.length_eq_zero.1 (by omega)
    subst hP hQ
    rw [ranges_eq, e2, e3] at hp2 ⊢
    simp only [List.nil_append, List.map_cons, List.map_nil] at hp2 ⊢
    rw [partition_inv_iff] at hp2
    obtain ⟨-, h3, h4⟩ := hp2
    rw [tiles_nil] at h4
    obtain ⟨o, s, f⟩ := m
    simp only at h3 h4 hm ⊢
    subst h3 hm
    simp only [zero_add] at h4
    subst h4
    rfl

theorem heap_ok_create {S : Nat} : heap_ok S (GL_CreateHeap S) :=
  ⟨wf_create S, partition_create S, naf_create S⟩

theorem heap_ok_alloc {S : Nat} (hS : S < 2 ^ 64) {heap heap2 : glheap_t}
    {size alignment : Nat} {node : Option Nat} {off : Nat} (hok : heap_ok S heap)
    (hal : 0 < alignment) (h : GL_HeapAllocate heap size alignment = some (heap2, node, off)) :
    heap_ok S heap2 :=
  ⟨alloc_wf hok.1 hal h, alloc_partition hS hok.1 hok.2.1 hal h, alloc_naf hok.1 hok.2.2 hal h⟩

theorem heap_ok_free {S : Nat} (hS : S < 2 ^ 64) {heap : glheap_t} (hok : heap_ok S heap)
    {node : Nat} {n : glheapnode_t} (hn : load heap.cells node = some n)
    (hu : n.free = false) : heap_ok S (GL_HeapFree heap node).1 :=
  ⟨free_wf hok.1 hn hu, free_partition hS hok.1 hok.2.1 hn hu, free_naf hok.1 hok.2.2 hn hu⟩

theorem Reachable.heap_ok {S : Nat} (hS : S < 2 ^ 64) {heap : glheap_t}
    (h : Reachable S heap) : heap_ok S heap :=
  ⟨h.well_formed, h.partition hS, h.naf⟩

theorem clear_slots_eq {pool : pool_t} (hn : pool.num_heaps = pool.heaps.length) (hp : Nat) :
    clear_slots pool.num_heaps pool.heaps hp
      = pool.heaps.map (fun slot => if slot = some hp then none else slot) := by
  unfold clear_slots
  rw [hn, List.take_length, List.drop_length, List.append_nil]

/-- A pool stays well formed when one of its heaps is replaced by a heap that satisfies the
invariants. -/
theorem pool_ok_update {S : Nat} {pool : pool_t} (hok : pool_ok S pool) {hp : Nat}
    {h h2 : glheap_t} (hload : load pool.objects hp = some h) (h2ok : heap_ok S h2) :
    pool_ok S { pool with objects := pool.objects.set hp (some h2) } := by
  refine ⟨hok.count, fun i hp2 hi => ?_, hok.distinct⟩
  obtain ⟨h3, e1, e2⟩ := hok.heaps_ok i hp2 hi
  by_cases he : hp2 = hp
  · subst he
    exact ⟨h2, load_set_eq _ _ _ (load_lt hload), h2ok⟩
  · exact ⟨h3, by rw [load_set_ne _ _ he]; exact e1, e2⟩

/-- A pool stays well formed when a new heap is put into an empty or appended slot. -/
theorem pool_ok_fresh {S : Nat} {pool : pool_t} (hok : pool_ok S pool) {k : Nat}
    {h2 : glheap_t} (hk : k = pool.num_heaps ∨ pool.heaps[k]? = some none)
    (h2ok : heap_ok S h2) : pool_ok S (fresh_pool pool k h2) := by
  have hcount := hok.count
  have hklt : k < (if k = pool.num_heaps then pool.heaps ++ [none] else pool.heaps).length := by
    split_ifs with h1
    · rw [List.length_append, h1, hcount]; simp
    · rcases hk with h3 | h3
      · exact absurd h3 h1
      · by_contra hge
        rw [List.getElem?_eq_none (by omega)] at h3
        cases h3
  -- an occupied slot of the new array other than `k` is an occupied slot of the old one
  have hold : ∀ (j hp2 : Nat), j ≠ k →
      ((if k = pool.num_heaps then pool.heaps ++ [none] else pool.heaps).set k
        (some pool.objects.length))[j]? = some (some hp2) →
      pool.heaps[j]? = some (some hp2) := by
    intro j hp2 hjk hj
    rw [List.getElem?_set_ne (Ne.symm hjk)] at hj
    split_ifs at hj with h1
    · rw [List.getElem?_append] at hj
      split_ifs at hj with h2
      · exact hj
      · have : j - pool.heaps.length = 0 ∨ 0 < j - pool.heaps.length := by omega
        rcases this with h3 | h3
        · rw [h3] at hj; simp at hj
        · rw [List.getElem?_eq_none (by simp; omega)] at hj; cases hj
    · exact hj
  have hnew : ((if k = pool.num_heaps then pool.heaps ++ [none] else pool.heaps).set k
        (some pool.objects.length))[k]? = some (some pool.objects.length) :=
    List.getElem?_set_self hklt
  have hptr : ∀ (j hp2 : Nat), pool.heaps[j]? = some (some hp2) → hp2 < pool.objects.length := by
    intro j hp2 hj
    obtain ⟨h3, e1, -⟩ := hok.heaps_ok j hp2 hj
    exact load_lt e1
  refine ⟨?_, fun j hp2 hj => ?_, fun i j hp2 hi hj => ?_⟩
  · simp only [fresh_pool, List.length_set]
    split_ifs with h1
    · rw [List.length_append, hcount]; simp
    · exact hcount
  · simp only [fresh_pool] at hj ⊢
    by_cases hjk : j = k
    · subst hjk
      rw [hnew] at hj
      simp only [Option.some.injEq] at hj
      subst hj
      exact ⟨h2, load_append_new _ _, h2ok⟩
    · have hj2 := hold j hp2 hjk hj
      obtain ⟨h3, e1, e2⟩ := hok.heaps_ok j hp2 hj2
      exact ⟨h3, by rw [load_append_left _ _ (load_lt e1)]; exact e1, e2⟩
  · simp only [fresh_pool] at hi hj
    by_cases hik : i = k
    · by_cases hjk : j = k
      · rw [hik, hjk]
      · exfalso
        subst hik
        rw [hnew] at hi
        simp only [Option.some.injEq] at hi
        subst hi
        exact absurd (hptr j _ (hold j _ hjk hj)) (lt_irrefl _)
    · by_cases hjk : j = k
      · exfalso
        subst hjk
        rw [hnew] at hj
        simp only [Option.some.injEq] at hj
        subst hj
        exact absurd (hptr i _ (hold i _ hik hi)) (lt_irrefl _)
      · exact hok.distinct i j hp2 (hold i hp2 hik hi) (hold j hp2 hjk hj)

/-- `GL_AllocateFromHeaps` keeps a pool well formed. -/
theorem pool_ok_alloc {S : Nat} (hS : S < 2 ^ 64) {pool : pool_t} (hok : pool_ok S pool)
    (size : Nat) {alignment : Nat} (hal : 0 < alignment) :
    pool_ok S (GL_AllocateFromHeaps pool S size alignment).1 := by
  obtain ⟨k, -, -, hcase⟩ := alloc_from_heaps_spec S size alignment hal pool hok
  rcases hcase with ⟨hp, h, h2, node, off, hk, hload, e, eres⟩
    | ⟨hk, h2, node, off, e, eres⟩
  · rw [eres]
    obtain ⟨h3, e1, e2⟩ := hok.heaps_ok k hp hk
    rw [hload] at e1
    cases e1
    exact pool_ok_update hok hload (heap_ok_alloc hS e2 hal e)
  · rw [eres]
    exact pool_ok_fresh hok hk (heap_ok_alloc hS heap_ok_create hal e)

/-- `GL_FreeFromHeaps` of a used node of a heap of the pool keeps the pool well formed. -/
theorem pool_ok_free {S : Nat} (hS : S < 2 ^ 64) {pool : pool_t} (hok : pool_ok S pool)
    {i hp : Nat} {h : glheap_t} {node : Nat} {n : glheapnode_t}
    (hslot : pool.heaps[i]? = some (some hp)) (hload : load pool.objects hp = some h)
    (hn : load h.cells node = some n) (hu : n.free = false) :
    pool_ok S (GL_FreeFromHeaps pool hp node).1 := by
  obtain ⟨h3, e1, hhok⟩ := hok.heaps_ok i hp hslot
  rw [hload] at e1
  cases e1
  rw [free_from_heaps_spec hload hhok.1 hn hu]
  split_ifs with hlen
  · simp only [clear_slots_eq hok.count]
    refine ⟨by simpa using hok.count, fun j hp2 hj => ?_, fun j1 j2 hp2 hj1 hj2 => ?_⟩
    · simp only [List.getElem?_map] at hj
      cases hs : pool.heaps[j]? with
      | none => rw [hs] at hj; simp at hj
      | some slot =>
        rw [hs] at hj
        simp only [Option.map_some', Option.some.injEq] at hj
        split_ifs at hj with h1
        subst hj
        obtain ⟨h4, e1, e2⟩ := hok.heaps_ok j hp2 hs
        have hne : hp2 ≠ hp := fun he => h1 (by rw [he])
        exact ⟨h4, by simp only; rw [load_set_ne _ _ hne]; exact e1, e2⟩
    · simp only [List.getElem?_map] at hj1 hj2
      have key : ∀ j : Nat, Option.map (fun slot => if slot = some hp then none else slot)
          pool.heaps[j]? = some (some hp2) → pool.heaps[j]? = some (some hp2) := by
        intro j hj
        cases hs : pool.heaps[j]? with
        | none => rw [hs] at hj; simp at hj
        | some slot =>
          rw [hs] at hj
          simp only [Option.map_some', Option.some.injEq] at hj
          split_ifs at hj with h1
          rw [hj]
      exact hok.distinct j1 j2 hp2 (key j1 hj1) (key j2 hj2)
  · exact pool_ok_update hok hload (heap_ok_free hS hhok hn hu)

theorem pool_ok_empty (S : Nat) : pool_ok S demo_pool_0 :=
  ⟨rfl, fun i hp h => by simp [demo_pool_0] at h, fun i j hp h => by simp [demo_pool_0] at h⟩

theorem demo_pool_1_eq :
    GL_AllocateFromHeaps demo_pool_0 1024 100 16 = (demo_pool_1, .allocated 0 0 1) := by
  decide

theorem demo_pool_1_ok : pool_ok 1024 demo_pool_1 := by
  have h := pool_ok_alloc (by norm_num : 1024 < 2 ^ 64) (pool_ok_empty 1024) 100
    (by norm_num : 0 < 16)
  rw [demo_pool_1_eq] at h
  exact h

theorem slot_fails_not_serves {pool : pool_t} {size alignment j : Nat}
    (h : slot_fails pool size alignment j) :
    ∃ hp hh, pool.heaps[j]? = some (some hp) ∧ load pool.objects hp = some hh
      ∧ ¬ serves hh size alignment := by
  obtain ⟨hp, hh, h1, h2, h3⟩ := h
  refine ⟨hp, hh, h1, h2, ?_⟩
  rintro ⟨heap2, node, off, e⟩
  rw [h3] at e
  simp at e

/-- A new heap serves every request that is not larger than the heap. -/
theorem fresh_serves {S size alignment : Nat} (hal : 0 < alignment) (hsize : size ≤ S)
    (hS : S < 2 ^ 64 - 1) :
    ∃ h2 node, GL_HeapAllocate (GL_CreateHeap S) size alignment = some (h2, some node, 0)
      ∧ ∃ rest, h2.nodes = (node, { offset := 0, size := size, free := false }) :: rest := by
  rcases Nat.lt_or_eq_of_le hsize with h1 | h1
  · have e := fresh_alloc_split S size alignment hal h1 hS
    exact ⟨_, 1, e, [(0, { offset := size, size := S - size, free := true })], rfl⟩
  · subst h1
    have e := fresh_alloc_exact size alignment hal (by omega)
    refine ⟨_, 0, e, [], ?_⟩
    rfl

theorem fresh_pool_slot {pool : pool_t} (hcount : pool.num_heaps = pool.heaps.length)
    {k : Nat} (hk : k = pool.num_heaps ∨ pool.heaps[k]? = some none) (h2 : glheap_t) :
    (fresh_pool pool k h2).heaps[k]? = some (some pool.objects.length) := by
  have hklt : k < (if k = pool.num_heaps then pool.heaps ++ [none] else pool.heaps).length := by
    split_ifs with h1
    · rw [List.length_append, h1, hcount]; simp
    · rcases hk with h3 | h3
      · exact absurd h3 h1
      · by_contra hge
        rw [List.getElem?_eq_none (by omega)] at h3
        cases h3
  exact List.getElem?_set_self hklt

theorem not_serves_of_null {heap heap2 : glheap_t} {size alignment off : Nat}
    (e : GL_HeapAllocate heap size alignment = some (heap2, none, off)) :
    ¬ serves heap size alignment := by
  rintro ⟨h3, node, off2, e2⟩
  rw [e] at e2
  simp at e2

/-- C4, pool allocation fails only when nothing can fit (amended).  For a well-formed pool
whose heaps have size `heap_size < 2 ^ 64 - 1` and satisfy the heap invariants, and a request
with `alignment > 0` and `size + alignment` within the 64-bit range: `GL_AllocateFromHeaps`
ends in the out-of-space `Sys_Error` if and only if neither a newly created heap nor any
heap of the pool can satisfy the request; it never runs into undefined behaviour; every
request with `size ≤ heap_size` succeeds; and on success the returned heap occupies a slot
and the returned node is a used node of it that contains
`[returned offset, returned offset + size)`, the offset being a multiple of the alignment. -/
theorem pool_allocation (heap_size size alignment : Nat) (pool : pool_t)
    (hok : pool_ok heap_size pool) (hS : heap_size < 2 ^ 64 - 1) (hal : 0 < alignment)
    (hsz : size + alignment < 2 ^ 64) :
    ((GL_AllocateFromHeaps pool heap_size size alignment).2 = .sys_error
        ↔ (¬ serves (GL_CreateHeap heap_size) size alignment
            ∧ ∀ (i hp : Nat) (h : glheap_t), pool.heaps[i]? = some (some hp) →
                load pool.objects hp = some h → ¬ serves h size alignment))
    ∧ (GL_AllocateFromHeaps pool heap_size size alignment).2 ≠ .fault
    ∧ (size ≤ heap_size → ∃ off hp node,
        (GL_AllocateFromHeaps pool heap_size size alignment).2 = .allocated off hp node)
    ∧ (∀ off hp node,
        (GL_AllocateFromHeaps pool heap_size size alignment).2 = .allocated off hp node →
        ∃ (i : Nat) (h : glheap_t) (n : glheapnode_t),
          (GL_AllocateFromHeaps pool heap_size size alignment).1.heaps[i]? = some (some hp)
          ∧ load (GL_AllocateFromHeaps pool heap_size size alignment).1.objects hp = some h
          ∧ load h.cells node = some n ∧ (node, n.range) ∈ h.nodes ∧ n.free = false
          ∧ off % alignment = 0 ∧ n.offset ≤ off ∧ off + size = n.offset + n.size) := by
  have hS64 : heap_size < 2 ^ 64 := by omega
  obtain ⟨k, -, -, hcase⟩ := alloc_from_heaps_spec heap_size size alignment hal pool hok
  rcases hcase with ⟨hp, h, h2, node, off, hk, hload, e, eres⟩
    | ⟨hk, h2, node, off, e, eres⟩
  · rw [eres]
    obtain ⟨h3, e1, hhok⟩ := hok.heaps_ok k hp hk
    rw [hload] at e1
    cases e1
    refine ⟨⟨fun hf => (by cases hf), fun hns => ?_⟩, by simp, fun _ => ⟨off, hp, node, rfl⟩, ?_⟩
    · exact absurd ⟨h2, node, off, e⟩ (hns.2 k hp h hk hload)
    · intro off2 hp2 node2 heq
      simp only [alloc_t.allocated.injEq] at heq
      obtain ⟨rfl, rfl, rfl⟩ := heq
      obtain ⟨n, hn1, hn2, hn3, hn4, hn5, hn6⟩ :=
        alloc_placement heap_size hS64 h h2 size alignment node off hhok.1 hhok.2.1 hal hsz e
      exact ⟨k, h2, n, hk, load_set_eq _ _ _ (load_lt hload), hn1, hn2, hn3, hn4, hn5, hn6⟩
  · rw [eres]
    cases node with
    | none =>
      have hlt : heap_size < size := by
        by_contra hle
        obtain ⟨h3, node, e3, -⟩ := @fresh_serves heap_size size alignment hal (by omega) hS
        rw [e] at e3
        simp at e3
      refine ⟨⟨fun _ => ⟨not_serves_of_null e, fun i hp h hi hl => ?_⟩, fun _ => rfl⟩, by simp,
        fun hle => absurd hlt (by omega), fun off2 hp2 node2 heq => by simp at heq⟩
      obtain ⟨h3, e1, hhok⟩ := hok.heaps_ok i hp hi
      rw [hl] at e1
      cases e1
      exact not_serves_of_null (alloc_too_large hhok hal hlt hsz)
    | some node =>
      refine ⟨⟨fun hf => (by simp at hf), fun hns => absurd ⟨h2, node, off, e⟩ hns.1⟩, by simp,
        fun _ => ⟨off, _, node, rfl⟩, ?_⟩
      intro off2 hp2 node2 heq
      simp only [alloc_t.allocated.injEq] at heq
      obtain ⟨rfl, rfl, rfl⟩ := heq
      obtain ⟨n, hn1, hn2, hn3, hn4, hn5, hn6⟩ :=
        alloc_placement heap_size hS64 _ h2 size alignment node off (wf_create heap_size)
          (partition_create heap_size) hal hsz e
      exact ⟨k, h2, n, fresh_pool_slot hok.count hk h2, load_append_new _ _, hn1, hn2, hn3,
        hn4, hn5, hn6⟩

theorem pool_allocation_witness :
    (pool_ok 1024 demo_pool_1 ∧ 1024 < 2 ^ 64 - 1 ∧ 0 < 16 ∧ 50 + 16 < 2 ^ 64)
    ∧ ((GL_AllocateFromHeaps demo_pool_1 1024 50 16).2 = .sys_error
        ↔ (¬ serves (GL_CreateHeap 1024) 50 16
            ∧ ∀ (i hp : Nat) (h : glheap_t), demo_pool_1.heaps[i]? = some (some hp) →
                load demo_pool_1.objects hp = some h → ¬ serves h 50 16))
    ∧ (GL_AllocateFromHeaps demo_pool_1 1024 50 16).2 ≠ .fault
    ∧ (50 ≤ 1024 → ∃ off hp node,
        (GL_AllocateFromHeaps demo_pool_1 1024 50 16).2 = .allocated off hp node)
    ∧ (∀ off hp node,
        (GL_AllocateFromHeaps demo_pool_1 1024 50 16).2 = .allocated off hp node →
        ∃ (i : Nat) (h : glheap_t) (n : glheapnode_t),
          (GL_AllocateFromHeaps demo_pool_1 1024 50 16).1.heaps[i]? = some (some hp)
          ∧ load (GL_AllocateFromHeaps demo_pool_1 1024 50 16).1.objects hp = some h
          ∧ load h.cells node = some n ∧ (node, n.range) ∈ h.nodes ∧ n.free = false
          ∧ off % 16 = 0 ∧ n.offset ≤ off ∧ off + 50 = n.offset + n.size) :=
  ⟨⟨demo_pool_1_ok, by norm_num, by norm_num, by norm_num⟩,
    pool_allocation 1024 50 16 demo_pool_1 demo_pool_1_ok (by norm_num) (by norm_num)
      (by norm_num)⟩

/-- C4 as stated fails.  (a) In the well-formed pool `demo_pool_1` (one heap of 1024 bytes
with the nodes used 0/100, free 100/924) the request of `2 ^ 64 - 4` bytes at alignment 16
succeeds, because `size + align_padding` wraps to 8: the returned node has offset 100 and
size 8 and does not contain `[112, 112 + size)`.  (b) With `heap_size = 2 ^ 64 - 1` a request
of 16 bytes, not larger than the heap, ends in `Sys_Error`: a node of size `UINT64_MAX` is
never below the initial `best_fit_size`. -/
theorem pool_allocation_counterexample :
    pool_ok 1024 demo_pool_1
    ∧ (GL_AllocateFromHeaps demo_pool_1 1024 (2 ^ 64 - 4) 16).2 = .allocated 112 0 2
    ∧ ((GL_AllocateFromHeaps demo_pool_1 1024 (2 ^ 64 - 4) 16).1.objects[0]?.join.map
        (fun h => h.ranges))
        = some [{ offset := 0, size := 100, free := false },
                { offset := 100, size := 8, free := false },
                { offset := 108, size := 916, free := true }]
    ∧ ¬ (112 + (2 ^ 64 - 4) ≤ 100 + 8)
    ∧ pool_ok (2 ^ 64 - 1) demo_pool_0
    ∧ (GL_AllocateFromHeaps demo_pool_0 (2 ^ 64 - 1) 16 16).2 = .sys_error := by
  refine ⟨demo_pool_1_ok, by decide, by decide, by norm_num, pool_ok_empty _, by decide⟩

/-- C5, oversized request (amended).  For a well-formed pool whose heaps have size
`heap_size`, and a request with `size > heap_size`, `alignment > 0` and `size + alignment`
within the 64-bit range, `GL_AllocateFromHeaps` ends in the out-of-space `Sys_Error`, after
it has created one new, entirely free heap (one more heap object, the counter one up).  When
the pool has an empty slot, the new heap is stored in the first empty slot, the other slots
are as before and the slot count is the same as before the call; when all slots are occupied
the array has been grown by one slot, which holds the new heap. -/
theorem oversized_request (heap_size size alignment : Nat) (pool : pool_t)
    (hok : pool_ok heap_size pool) (hal : 0 < alignment) (hlt : heap_size < size)
    (hsz : size + alignment < 2 ^ 64) :
    (GL_AllocateFromHeaps pool heap_size size alignment).2 = .sys_error
    ∧ (GL_AllocateFromHeaps pool heap_size size alignment).1.objects
        = pool.objects ++ [some (GL_CreateHeap heap_size)]
    ∧ (GL_AllocateFromHeaps pool heap_size size alignment).1.num_allocations
        = (pool.num_allocations + 1) % 2 ^ 32
    ∧ ((∃ i : Nat, pool.heaps[i]? = some none) →
        (GL_AllocateFromHeaps pool heap_size size alignment).1.num_heaps = pool.num_heaps
        ∧ (GL_AllocateFromHeaps pool heap_size size alignment).1.heaps.length
            = pool.heaps.length
        ∧ ∃ k : Nat, pool.heaps[k]? = some none
          ∧ (∀ j : Nat, j < k → ∃ hp, pool.heaps[j]? = some (some hp))
          ∧ (GL_AllocateFromHeaps pool heap_size size alignment).1.heaps
              = pool.heaps.set k (some pool.objects.length)
          ∧ (GL_AllocateFromHeaps pool heap_size size alignment).1.heaps[k]?
              = some (some pool.objects.length))
    ∧ ((∀ i : Nat, i < pool.num_heaps → ∃ hp, pool.heaps[i]? = some (some hp)) →
        (GL_AllocateFromHeaps pool heap_size size alignment).1.num_heaps
            = pool.num_heaps + 1
        ∧ (GL_AllocateFromHeaps pool heap_size size alignment).1.heaps
            = pool.heaps ++ [some pool.objects.length]) := by
  obtain ⟨k, hkn, hbelow, hcase⟩ := alloc_from_heaps_spec heap_size size alignment hal pool hok
  rcases hcase with ⟨hp, h, h2, node, off, hk, hload, e, eres⟩
    | ⟨hk, h2, node, off, e, eres⟩
  · exfalso
    obtain ⟨h3, e1, hhok⟩ := hok.heaps_ok k hp hk
    rw [hload] at e1
    cases e1
    rw [alloc_too_large hhok hal hlt hsz] at e
    simp at e
  · rw [fresh_alloc_none heap_size size alignment hal hlt (by omega)] at e
    simp only [Option.some.injEq, Prod.mk.injEq] at e
    obtain ⟨rfl, rfl, rfl⟩ := e
    rw [eres]
    refine ⟨rfl, rfl, rfl, ?_, ?_⟩
    · rintro ⟨i, hi⟩
      have hkne : k ≠ pool.num_heaps := by
        rintro rfl
        have hilt : i < pool.heaps.length := by
          by_contra hge
          rw [List.getElem?_eq_none (by omega)] at hi
          cases hi
        obtain ⟨hp, hh, h1, -⟩ := hbelow i (by rw [hok.count]; exact hilt)
        rw [hi] at h1
        cases h1
      have hke : pool.heaps[k]? = some none := by
        rcases hk with h1 | h1
        · exact absurd h1 hkne
        · exact h1
      have hklt : k < pool.heaps.length := by
        by_contra hge
        rw [List.getElem?_eq_none (by omega)] at hke
        cases hke
      refine ⟨by simp [fresh_pool, hkne], by simp [fresh_pool, hkne], k, hke, fun j hj => ?_,
        by simp [fresh_pool, hkne], by simp [fresh_pool, hkne, hklt]⟩
      obtain ⟨hp, hh, h1, -⟩ := hbelow j hj
      exact ⟨hp, h1⟩
    · intro hall
      have hke : k = pool.num_heaps := by
        rcases hk with h1 | h1
        · exact h1
        · by_contra hne
          obtain ⟨hp, h2⟩ := hall k (by omega)
          rw [h1] at h2
          cases h2
      subst hke
      simp only [fresh_pool, if_true, true_and]
      rw [hok.count]
      exact set_append_new _ _ _

/-- C5 as stated fails.  (a) On the pool with no slot (and on every pool whose slots are
all occupied) a request larger than `heap_size` ends in `Sys_Error` only after the array has
been grown: the slot count goes from 0 to 1.  (b) In the pool `demo_pool_1` (heap size 1024)
the request of `2 ^ 64 - 4 > heap_size` bytes at alignment 16 does not fail at all, because
`size + align_padding` wraps to 8. -/
theorem oversized_request_counterexample :
    (GL_AllocateFromHeaps demo_pool_0 1024 2000 16).2 = .sys_error
    ∧ demo_pool_0.num_heaps = 0
    ∧ (GL_AllocateFromHeaps demo_pool_0 1024 2000 16).1.num_heaps = 1
    ∧ 1024 < 2 ^ 64 - 4
    ∧ (GL_AllocateFromHeaps demo_pool_1 1024 (2 ^ 64 - 4) 16).2 = .allocated 112 0 2 := by
  refine ⟨by decide, rfl, by decide, by norm_num, by decide⟩

/-- C7, a heap is destroyed exactly when it is fully free.  Let `hp` be a heap in slot `i`
of a pool, in a state reachable from `GL_CreateHeap heap_size`, and `node` a used node of it.
`GL_FreeFromHeaps` returns; afterwards the heap object is destroyed if and only if `node` was
the only used node of the heap.  When it was, the node list at the `GL_IsHeapEmpty` test is
exactly one free node with offset 0 and size `heap_size`, the test is true, slot `i` (every
slot that held the heap) is empty and the slot count is unchanged; when it was not, the test
is false, no slot changes and the heap object lives on with the node list after
`GL_HeapFree`. -/
theorem heap_destroyed_iff_fully_free (heap_size : Nat) (pool : pool_t) (i hp : Nat)
    (h : glheap_t) (node : Nat) (n : glheapnode_t) (hS : heap_size < 2 ^ 64)
    (hcount : pool.num_heaps = pool.heaps.length)
    (hslot : pool.heaps[i]? = some (some hp)) (hload : load pool.objects hp = some h)
    (hreach : Reachable heap_size h) (hn : load h.cells node = some n)
    (hu : n.free = false) :
    (GL_FreeFromHeaps pool hp node).2 = .returned
    ∧ (load (GL_FreeFromHeaps pool hp node).1.objects hp = none
        ↔ ∀ x ∈ h.nodes, x.2.free = false → x.1 = node)
    ∧ ((∀ x ∈ h.nodes, x.2.free = false → x.1 = node) →
        (GL_HeapFree h node).1.ranges = [{ offset := 0, size := heap_size, free := true }]
        ∧ GL_IsHeapEmpty (GL_HeapFree h node).1 = some true
        ∧ (GL_FreeFromHeaps pool hp node).1.heaps[i]? = some none
        ∧ (GL_FreeFromHeaps pool hp node).1.heaps
            = pool.heaps.map (fun slot => if slot = some hp then none else slot)
        ∧ (GL_FreeFromHeaps pool hp node).1.num_heaps = pool.num_heaps)
    ∧ (¬ (∀ x ∈ h.nodes, x.2.free = false → x.1 = node) →
        GL_IsHeapEmpty (GL_HeapFree h node).1 = some false
        ∧ (GL_FreeFromHeaps pool hp node).1.heaps = pool.heaps
        ∧ load (GL_FreeFromHeaps pool hp node).1.objects hp = some (GL_HeapFree h node).1) := by
  have hok := hreach.heap_ok hS
  have hlt := load_lt hload
  obtain ⟨hiff, hrange⟩ := free_empties_iff hS hok hn hu
  have hw2 := free_wf hok.1 hn hu
  have hspec := @free_from_heaps_spec pool hp h node n hload hok.1 hn hu
  have hempty := is_empty_spec hw2
  by_cases hlen : (GL_HeapFree h node).1.nodes.length = 1
  · rw [if_pos hlen] at hspec
    have honly := hiff.1 hlen
    rw [hspec]
    refine ⟨rfl, ⟨fun _ => honly, fun _ => load_set_eq _ _ _ hlt⟩, fun _ => ?_,
      fun hnot => absurd honly hnot⟩
    refine ⟨hrange hlen, by rw [hempty]; simp [hlen], ?_, clear_slots_eq hcount hp, rfl⟩
    simp only [clear_slots_eq hcount hp, List.getElem?_map, hslot, Option.map_some', if_true]
  · rw [if_neg hlen] at hspec
    have honly : ¬ ∀ x ∈ h.nodes, x.2.free = false → x.1 = node := fun hx => hlen (hiff.2 hx)
    rw [hspec]
    refine ⟨rfl, ⟨fun hnone => ?_, fun hx => absurd hx honly⟩, fun hx => absurd hx honly,
      fun _ => ⟨by rw [hempty]; simp [hlen], rfl, load_set_eq _ _ _ hlt⟩⟩
    simp only at hnone
    rw [load_set_eq _ _ _ hlt] at hnone
    cases hnone

theorem heap_destroyed_iff_fully_free_witness :
    (1024 < 2 ^ 64 ∧ demo_pool_1.num_heaps = demo_pool_1.heaps.length
      ∧ demo_pool_1.heaps[0]? = some (some 0) ∧ load demo_pool_1.objects 0 = some demo_heap_1
      ∧ Reachable 1024 demo_heap_1
      ∧ load demo_heap_1.cells 1
          = some { offset := 0, size := 100, prev := none, next := some 0, free := false })
    ∧ (GL_FreeFromHeaps demo_pool_1 0 1).2 = .returned
    ∧ (load (GL_FreeFromHeaps demo_pool_1 0 1).1.objects 0 = none
        ↔ ∀ x ∈ demo_heap_1.nodes, x.2.free = false → x.1 = 1)
    ∧ ((∀ x ∈ demo_heap_1.nodes, x.2.free = false → x.1 = 1) →
        (GL_HeapFree demo_heap_1 1).1.ranges = [{ offset := 0, size := 1024, free := true }]
        ∧ GL_IsHeapEmpty (GL_HeapFree demo_heap_1 1).1 = some true
        ∧ (GL_FreeFromHeaps demo_pool_1 0 1).1.heaps[0]? = some none
        ∧ (GL_FreeFromHeaps demo_pool_1 0 1).1.heaps
            = demo_pool_1.heaps.map (fun slot => if slot = some 0 then none else slot)
        ∧ (GL_FreeFromHeaps demo_pool_1 0 1).1.num_heaps = demo_pool_1.num_heaps)
    ∧ (¬ (∀ x ∈ demo_heap_1.nodes, x.2.free = false → x.1 = 1) →
        GL_IsHeapEmpty (GL_HeapFree demo_heap_1 1).1 = some false
        ∧ (GL_FreeFromHeaps demo_pool_1 0 1).1.heaps = demo_pool_1.heaps
        ∧ load (GL_FreeFromHeaps demo_pool_1 0 1).1.objects 0
            = some (GL_HeapFree demo_heap_1 1).1) :=
  ⟨⟨by norm_num, rfl, rfl, rfl, demo_heap_1_reachable, rfl⟩,
    heap_destroyed_iff_fully_free 1024 demo_pool_1 0 0 demo_heap_1 1
      { offset := 0, size := 100, prev := none, next := some 0, free := false }
      (by norm_num) rfl rfl rfl demo_heap_1_reachable rfl rfl⟩

theorem demo_pool_2_eq :
    GL_AllocateFromHeaps demo_pool_1 1024 1000 16 = (demo_pool_2, .allocated 0 1 1) := by
  decide

theorem demo_pool_3_eq : GL_FreeFromHeaps demo_pool_2 0 1 = (demo_pool_3, .returned) := by
  decide

theorem demo_pool_2_ok : pool_ok 1024 demo_pool_2 := by
  have h := pool_ok_alloc (by norm_num : 1024 < 2 ^ 64) demo_pool_1_ok 1000
    (by norm_num : 0 < 16)
  rw [demo_pool_2_eq] at h
  exact h

theorem demo_pool_3_ok : pool_ok 1024 demo_pool_3 := by
  have h := pool_ok_free (by norm_num : 1024 < 2 ^ 64) demo_pool_2_ok
    (rfl : demo_pool_2.heaps[0]? = some (some 0))
    (rfl : load demo_pool_2.objects 0 = some demo_heap_1)
    (rfl : load demo_heap_1.cells 1
      = some { offset := 0, size := 100, prev := none, next := some 0, free := false }) rfl
  rw [demo_pool_3_eq] at h
  exact h

/-- C8, slot reuse (amended).  Let `GL_FreeFromHeaps` of a used node of the heap in slot `i`
leave slot `i` empty (the heap was emptied and destroyed).  Then for the next
`GL_AllocateFromHeaps` request with `alignment > 0` and `size ≤ heap_size < 2 ^ 64 - 1` such
that every slot below `i` is occupied by a heap that cannot satisfy the request, the
allocation is served, at offset 0, from a heap newly created in slot `i`; the slot count and
all other slots are unchanged, and the existing heap objects are unchanged. -/
theorem slot_reuse (heap_size size alignment : Nat) (pool0 : pool_t) (i hp : Nat)
    (h : glheap_t) (node : Nat) (n : glheapnode_t) (hok : pool_ok heap_size pool0)
    (hS : heap_size < 2 ^ 64 - 1) (hal : 0 < alignment) (hsize : size ≤ heap_size)
    (hslot : pool0.heaps[i]? = some (some hp)) (hload : load pool0.objects hp = some h)
    (hn : load h.cells node = some n) (hu : n.free = false)
    (hempty : (GL_FreeFromHeaps pool0 hp node).1.heaps[i]? = some none)
    (hbefore : ∀ j, j < i →
      slot_fails (GL_FreeFromHeaps pool0 hp node).1 size alignment j) :
    (GL_FreeFromHeaps pool0 hp node).1.num_heaps = pool0.num_heaps
    ∧ ∃ h2 node2,
        GL_HeapAllocate (GL_CreateHeap heap_size) size alignment = some (h2, some node2, 0)
        ∧ GL_AllocateFromHeaps (GL_FreeFromHeaps pool0 hp node).1 heap_size size alignment
          = ({ num_heaps := pool0.num_heaps
               heaps := (GL_FreeFromHeaps pool0 hp node).1.heaps.set i
                 (some (GL_FreeFromHeaps pool0 hp node).1.objects.length)
               objects := (GL_FreeFromHeaps pool0 hp node).1.objects ++ [some h2]
               num_allocations :=
                 ((GL_FreeFromHeaps pool0 hp node).1.num_allocations + 1) % 2 ^ 32 },
              .allocated 0 (GL_FreeFromHeaps pool0 hp node).1.objects.length node2) := by
  have hS64 : heap_size < 2 ^ 64 := by omega
  have hok1 := pool_ok_free hS64 hok hslot hload hn hu
  have hnum : (GL_FreeFromHeaps pool0 hp node).1.num_heaps = pool0.num_heaps := by
    obtain ⟨h3, e1, hhok⟩ := hok.heaps_ok i hp hslot
    rw [hload] at e1
    cases e1
    rw [free_from_heaps_spec hload hhok.1 hn hu]
    split_ifs <;> rfl
  refine ⟨hnum, ?_⟩
  revert hempty hbefore hok1 hnum
  generalize (GL_FreeFromHeaps pool0 hp node).1 = pool
  intro hempty hbefore hok1 hnum
  have hilt : i < pool.heaps.length := by
    by_contra hge
    rw [List.getElem?_eq_none (by omega)] at hempty
    cases hempty
  obtain ⟨h2, node2, e2, -⟩ := fresh_serves hal hsize hS
  refine ⟨h2, node2, e2, ?_⟩
  obtain ⟨k, hkn, hbelow, hcase⟩ := alloc_from_heaps_spec heap_size size alignment hal pool hok1
  have hki : k = i := by
    rcases Nat.lt_trichotomy k i with hlt | heq | hgt
    · exfalso
      obtain ⟨hp1, hh1, s1, s2, s3⟩ := hbefore k hlt
      rcases hcase with ⟨hp2, h3, h4, nd, off, hk, hl, e, -⟩ | ⟨hk, -⟩
      · rw [s1] at hk
        simp only [Option.some.injEq] at hk
        subst hk
        rw [s2] at hl
        cases hl
        rw [s3] at e
        simp at e
      · rcases hk with hk | hk
        · rw [hok1.count] at hk; omega
        · rw [s1] at hk; cases hk
    · exact heq
    · exfalso
      obtain ⟨hp1, hh1, s1, -⟩ := hbelow i hgt
      rw [hempty] at s1
      cases s1
  subst hki
  rcases hcase with ⟨hp2, h3, h4, nd, off, hk, -⟩ | ⟨hk, h5, nd, off, e, eres⟩
  · rw [hempty] at hk; cases hk
  · rw [e2] at e
    simp only [Option.some.injEq, Prod.mk.injEq] at e
    obtain ⟨rfl, rfl, rfl⟩ := e
    rw [eres]
    have hne : k ≠ pool.num_heaps := by rw [hok1.count]; omega
    have hne2 : k ≠ pool0.num_heaps := by rw [← hnum]; exact hne
    simp [fresh_pool, hne2, hnum]

theorem oversized_request_witness :
    (pool_ok 1024 demo_pool_3 ∧ 0 < 16 ∧ 1024 < 2000 ∧ 2000 + 16 < 2 ^ 64
      ∧ pool_ok 1024 demo_pool_1)
    ∧ ((GL_AllocateFromHeaps demo_pool_3 1024 2000 16).2 = .sys_error
      ∧ (GL_AllocateFromHeaps demo_pool_3 1024 2000 16).1.objects
          = demo_pool_3.objects ++ [some (GL_CreateHeap 1024)]
      ∧ (GL_AllocateFromHeaps demo_pool_3 1024 2000 16).1.num_allocations
          = (demo_pool_3.num_allocations + 1) % 2 ^ 32
      ∧ (GL_AllocateFromHeaps demo_pool_3 1024 2000 16).1.num_heaps = demo_pool_3.num_heaps
      ∧ (GL_AllocateFromHeaps demo_pool_3 1024 2000 16).1.heaps.length
          = demo_pool_3.heaps.length
      ∧ ∃ k : Nat, demo_pool_3.heaps[k]? = some none
        ∧ (∀ j : Nat, j < k → ∃ hp, demo_pool_3.heaps[j]? = some (some hp))
        ∧ (GL_AllocateFromHeaps demo_pool_3 1024 2000 16).1.heaps
            = demo_pool_3.heaps.set k (some demo_pool_3.objects.length)
        ∧ (GL_AllocateFromHeaps demo_pool_3 1024 2000 16).1.heaps[k]?
            = some (some demo_pool_3.objects.length))
    ∧ ((GL_AllocateFromHeaps demo_pool_1 1024 2000 16).2 = .sys_error
      ∧ (GL_AllocateFromHeaps demo_pool_1 1024 2000 16).1.num_heaps
          = demo_pool_1.num_heaps + 1
      ∧ (GL_AllocateFromHeaps demo_pool_1 1024 2000 16).1.heaps
          = demo_pool_1.heaps ++ [some demo_pool_1.objects.length]) := by
  have h3 := oversized_request 1024 2000 16 demo_pool_3 demo_pool_3_ok (by norm_num)
    (by norm_num) (by norm_num)
  have h1 := oversized_request 1024 2000 16 demo_pool_1 demo_pool_1_ok (by norm_num)
    (by norm_num) (by norm_num)
  exact ⟨⟨demo_pool_3_ok, by norm_num, by norm_num, by norm_num, demo_pool_1_ok⟩,
    ⟨h3.1, h3.2.1, h3.2.2.1, h3.2.2.2.1 ⟨0, rfl⟩⟩,
    ⟨h1.1, h1.2.2.2.2 (fun i hi => ⟨0, by
      have h0 : i = 0 := by
        have : demo_pool_1.num_heaps = 1 := rfl
        omega
      subst h0
      rfl⟩)⟩⟩

theorem slot_reuse_witness :
    (pool_ok 1024 demo_pool_2 ∧ 1024 < 2 ^ 64 - 1 ∧ 0 < 16 ∧ 1000 ≤ 1024
      ∧ demo_pool_2.heaps[1]? = some (some 1)
      ∧ (GL_FreeFromHeaps demo_pool_2 1 1).1.heaps[1]? = some none
      ∧ ∀ j, j < 1 → slot_fails (GL_FreeFromHeaps demo_pool_2 1 1).1 1000 16 j)
    ∧ (GL_FreeFromHeaps demo_pool_2 1 1).1.num_heaps = demo_pool_2.num_heaps
    ∧ ∃ h2 node2,
        GL_HeapAllocate (GL_CreateHeap 1024) 1000 16 = some (h2, some node2, 0)
        ∧ GL_AllocateFromHeaps (GL_FreeFromHeaps demo_pool_2 1 1).1 1024 1000 16
          = ({ num_heaps := demo_pool_2.num_heaps
               heaps := (GL_FreeFromHeaps demo_pool_2 1 1).1.heaps.set 1
                 (some (GL_FreeFromHeaps demo_pool_2 1 1).1.objects.length)
               objects := (GL_FreeFromHeaps demo_pool_2 1 1).1.objects ++ [some h2]
               num_allocations :=
                 ((GL_FreeFromHeaps demo_pool_2 1 1).1.num_allocations + 1) % 2 ^ 32 },
              .allocated 0 (GL_FreeFromHeaps demo_pool_2 1 1).1.objects.length node2) :=
  have hbefore : ∀ j, j < 1 → slot_fails (GL_FreeFromHeaps demo_pool_2 1 1).1 1000 16 j := by
    intro j hj
    obtain rfl : j = 0 := by omega
    exact ⟨0, demo_heap_1, by decide, by decide, by decide⟩
  ⟨⟨demo_pool_2_ok, by norm_num, by norm_num, by norm_num, rfl, by decide, hbefore⟩,
    slot_reuse 1024 1000 16 demo_pool_2 1 1
      { head := 1
        cells := [some { offset := 1000, size := 24, prev := some 1, next := none,
                         free := true },
                  some { offset := 0, size := 1000, prev := none, next := some 0,
                         free := false }] }
      1 { offset := 0, size := 1000, prev := none, next := some 0, free := false }
      demo_pool_2_ok (by norm_num) (by norm_num) (by norm_num) rfl rfl rfl rfl (by decide)
      hbefore⟩

/-- C8 as stated fails.  (a) In `demo_pool_3` slot 0 is empty and slot 1 holds a heap with
one allocation.  Freeing it empties the heap in slot 1; no heap in slot 0 can satisfy the
next request (there is none), yet the request `(10, 16)` is served from a heap created in
slot 0, the first empty slot, and slot 1 stays empty.  (b) With `heap_size = 2 ^ 64 - 1`,
after the only allocation of slot 0 has been freed, the next request of 16 bytes ends in
`Sys_Error`: the heap created in slot 0 cannot be split. -/
theorem slot_reuse_counterexample :
    pool_ok 1024 demo_pool_3
    ∧ demo_pool_3.heaps = [none, some 1]
    ∧ (GL_FreeFromHeaps demo_pool_3 1 1).1.heaps = [none, none]
    ∧ GL_AllocateFromHeaps (GL_FreeFromHeaps demo_pool_3 1 1).1 1024 10 16
        = ({ num_heaps := 2
             heaps := [some 2, none]
             objects := [none, none,
               some { head := 1
                      cells := [some { offset := 10, size := 1014, prev := some 1,
                                       next := none, free := true },
                                some { offset := 0, size := 10, prev := none, next := some 0,
                                       free := false }] }]
             num_allocations := 1 }, .allocated 0 2 1)
    ∧ (GL_AllocateFromHeaps demo_pool_0 (2 ^ 64 - 1) (2 ^ 64 - 1) 16).2 = .allocated 0 0 0
    ∧ (GL_FreeFromHeaps (GL_AllocateFromHeaps demo_pool_0 (2 ^ 64 - 1) (2 ^ 64 - 1) 16).1
        0 0).1.heaps = [none]
    ∧ (GL_AllocateFromHeaps
        (GL_FreeFromHeaps (GL_AllocateFromHeaps demo_pool_0 (2 ^ 64 - 1) (2 ^ 64 - 1) 16).1
          0 0).1 (2 ^ 64 - 1) 16 16).2 = .sys_error := by
  refine ⟨demo_pool_3_ok, rfl, by decide, by decide, by decide, by decide, by decide⟩

/-- C9, pool growth by exactly one (amended).  For a well-formed pool whose `n` slots are
all occupied by heaps that cannot satisfy the request, with `alignment > 0` and
`size ≤ heap_size < 2 ^ 64 - 1`, `GL_AllocateFromHeaps` succeeds: the slot count is `n + 1`,
the slots and heap objects that existed are unchanged, slot `n` holds a new heap of size
`heap_size` whose first node is the returned node, used, at offset 0, and the returned
aligned offset is 0.  No call on a well-formed pool decreases the slot count or increases it
by more than one. -/
theorem pool_growth (heap_size size alignment : Nat) (pool : pool_t)
    (hok : pool_ok heap_size pool) (hS : heap_size < 2 ^ 64 - 1) (hal : 0 < alignment)
    (hsize : size ≤ heap_size)
    (hfull : ∀ j, j < pool.num_heaps → slot_fails pool size alignment j) :
    (∃ h2 node rest,
        GL_HeapAllocate (GL_CreateHeap heap_size) size alignment = some (h2, some node, 0)
        ∧ Reachable heap_size h2
        ∧ h2.nodes = (node, { offset := 0, size := size, free := false }) :: rest
        ∧ GL_AllocateFromHeaps pool heap_size size alignment
          = ({ num_heaps := pool.num_heaps + 1
               heaps := pool.heaps ++ [some pool.objects.length]
               objects := pool.objects ++ [some h2]
               num_allocations := (pool.num_allocations + 1) % 2 ^ 32 },
              .allocated 0 pool.objects.length node))
    ∧ (∀ (pool2 : pool_t) (size2 alignment2 : Nat), pool_ok heap_size pool2 →
        0 < alignment2 →
        (GL_AllocateFromHeaps pool2 heap_size size2 alignment2).1.num_heaps = pool2.num_heaps
        ∨ (GL_AllocateFromHeaps pool2 heap_size size2 alignment2).1.num_heaps
            = pool2.num_heaps + 1) := by
  constructor
  · obtain ⟨h2, node, e2, rest, hnodes⟩ := fresh_serves hal hsize hS
    refine ⟨h2, node, rest, e2, Reachable.allocate Reachable.create hal e2, hnodes, ?_⟩
    obtain ⟨k, hkn, hbelow, hcase⟩ :=
      alloc_from_heaps_spec heap_size size alignment hal pool hok
    have hke : k = pool.num_heaps := by
      by_contra hne
      obtain ⟨hp1, hh1, s1, s2, s3⟩ := hfull k (by omega)
      rcases hcase with ⟨hp2, h3, h4, nd, off, hk, hl, e, -⟩ | ⟨hk, -⟩
      · rw [s1] at hk
        simp only [Option.some.injEq] at hk
        subst hk
        rw [s2] at hl
        cases hl
        rw [s3] at e
        simp at e
      · rcases hk with hk | hk
        · exact hne hk
        · rw [s1] at hk; cases hk
    subst hke
    rcases hcase with ⟨hp2, h3, h4, nd, off, hk, -⟩ | ⟨hk, h5, nd, off, e, eres⟩
    · rw [hok.count, List.getElem?_eq_none (le_refl _)] at hk
      cases hk
    · rw [e2] at e
      simp only [Option.some.injEq, Prod.mk.injEq] at e
      obtain ⟨rfl, rfl, rfl⟩ := e
      rw [eres]
      simp only [fresh_pool, if_true]
      rw [hok.count, set_append_new]
  · intro pool2 size2 alignment2 hok2 hal2
    obtain ⟨k, hkn, hbelow, hcase⟩ :=
      alloc_from_heaps_spec heap_size size2 alignment2 hal2 pool2 hok2
    rcases hcase with ⟨hp2, h3, h4, nd, off, hk, hl, e, eres⟩ | ⟨hk, h5, nd, off, e, eres⟩
    · rw [eres]; left; rfl
    · rw [eres]
      simp only [fresh_pool]
      split_ifs
      · right; rfl
      · left; rfl

theorem pool_growth_witness :
    (pool_ok 1024 demo_pool_1 ∧ 1024 < 2 ^ 64 - 1 ∧ 0 < 16 ∧ 1000 ≤ 1024
      ∧ ∀ j, j < demo_pool_1.num_heaps → slot_fails demo_pool_1 1000 16 j)
    ∧ (∃ h2 node rest,
        GL_HeapAllocate (GL_CreateHeap 1024) 1000 16 = some (h2, some node, 0)
        ∧ Reachable 1024 h2
        ∧ h2.nodes = (node, { offset := 0, size := 1000, free := false }) :: rest
        ∧ GL_AllocateFromHeaps demo_pool_1 1024 1000 16
          = ({ num_heaps := demo_pool_1.num_heaps + 1
               heaps := demo_pool_1.heaps ++ [some demo_pool_1.objects.length]
               objects := demo_pool_1.objects ++ [some h2]
               num_allocations := (demo_pool_1.num_allocations + 1) % 2 ^ 32 },
              .allocated 0 demo_pool_1.objects.length node))
    ∧ (∀ (pool2 : pool_t) (size2 alignment2 : Nat), pool_ok 1024 pool2 →
        0 < alignment2 →
        (GL_AllocateFromHeaps pool2 1024 size2 alignment2).1.num_heaps = pool2.num_heaps
        ∨ (GL_AllocateFromHeaps pool2 1024 size2 alignment2).1.num_heaps
            = pool2.num_heaps + 1) :=
  have hfull : ∀ j, j < demo_pool_1.num_heaps → slot_fails demo_pool_1 1000 16 j := by
    intro j hj
    obtain rfl : j = 0 := by
      have : demo_pool_1.num_heaps = 1 := rfl
      omega
    exact ⟨0, demo_heap_1, by decide, by decide, by decide⟩
  ⟨⟨demo_pool_1_ok, by norm_num, by norm_num, by norm_num, hfull⟩,
    pool_growth 1024 1000 16 demo_pool_1 demo_pool_1_ok (by norm_num) (by norm_num)
      (by norm_num) hfull⟩

/-- C9 as stated fails for `heap_size = 2 ^ 64 - 1`: the pool has one slot, occupied by a heap
that one allocation of `2 ^ 64 - 1` bytes fills; the next request of 16 bytes, which that heap
cannot satisfy, does not succeed: the new heap's only node has size `UINT64_MAX`, which is
never below the initial `best_fit_size`, so `GL_AllocateFromHeaps` ends in `Sys_Error`. -/
theorem pool_growth_counterexample :
    pool_ok (2 ^ 64 - 1) (GL_AllocateFromHeaps demo_pool_0 (2 ^ 64 - 1) (2 ^ 64 - 1) 16).1
    ∧ (GL_AllocateFromHeaps demo_pool_0 (2 ^ 64 - 1) (2 ^ 64 - 1) 16).1.heaps = [some 0]
    ∧ slot_fails (GL_AllocateFromHeaps demo_pool_0 (2 ^ 64 - 1) (2 ^ 64 - 1) 16).1 16 16 0
    ∧ 16 ≤ 2 ^ 64 - 1
    ∧ (GL_AllocateFromHeaps
        (GL_AllocateFromHeaps demo_pool_0 (2 ^ 64 - 1) (2 ^ 64 - 1) 16).1
        (2 ^ 64 - 1) 16 16).2 = .sys_error := by
  refine ⟨pool_ok_alloc (by norm_num) (pool_ok_empty _) _ (by norm_num), by decide, ?_,
    by norm_num, by decide⟩
  exact ⟨0, (⟨0, [some ⟨0, 2 ^ 64 - 1, none, none, false⟩]⟩ : glheap_t), by decide, by decide,
    by decide⟩

theorem occupied_eq (pool : pool_t) : pool.occupied = occ pool.heaps := rfl

theorem occ_cons (s : Option Nat) (l : List (Option Nat)) :
    occ (s :: l) = (if s.isSome then 1 else 0) + occ l := by
  unfold occ
  rw [List.filter_cons]
  by_cases h : s.isSome = true
  · simp [h]; omega
  · simp [h]

theorem occ_le (l : List (Option Nat)) : occ l ≤ l.length :=
  List.length_filter_le _ _

theorem occ_append_none (l : List (Option Nat)) : occ (l ++ [none]) = occ l := by
  simp [occ, List.filter_append]

theorem occ_set {l : List (Option Nat)} {k : Nat} (a : Nat) (h : l[k]? = some none) :
    occ (l.set k (some a)) = occ l + 1 := by
  induction l generalizing k with
  | nil => simp at h
  | cons s l ih =>
    cases k with
    | zero =>
      simp only [List.getElem?_cons_zero, Option.some.injEq] at h
      subst h
      simp [occ_cons]
      omega
    | succ k =>
      simp only [List.getElem?_cons_succ] at h
      simp only [List.set_cons_succ, occ_cons, ih h]
      omega

theorem occ_pos {l : List (Option Nat)} {i hp : Nat} (h : l[i]? = some (some hp)) :
    0 < occ l := by
  induction l generalizing i with
  | nil => simp at h
  | cons s l ih =>
    cases i with
    | zero =>
      simp only [List.getElem?_cons_zero, Option.some.injEq] at h
      subst h
      simp [occ_cons]
    | succ i =>
      simp only [List.getElem?_cons_succ] at h
      have := ih h
      rw [occ_cons]
      omega

theorem map_clear_absent {l : List (Option Nat)} {hp : Nat}
    (h : ∀ j : Nat, l[j]? ≠ some (some hp)) :
    l.map (fun slot => if slot = some hp then none else slot) = l := by
  induction l with
  | nil => rfl
  | cons s l ih =>
    have h0 : s ≠ some hp := fun e => h 0 (by simp [e])
    simp only [List.map_cons, h0, if_false]
    rw [ih (fun j => by simpa using h (j + 1))]

theorem occ_clear {l : List (Option Nat)} {i hp : Nat} (h : l[i]? = some (some hp))
    (hd : ∀ j : Nat, l[j]? = some (some hp) → j = i) :
    occ (l.map (fun slot => if slot = some hp then none else slot)) + 1 = occ l := by
  induction l generalizing i with
  | nil => simp at h
  | cons s l ih =>
    cases i with
    | zero =>
      simp only [List.getElem?_cons_zero, Option.some.injEq] at h
      subst h
      have habs : ∀ j : Nat, l[j]? ≠ some (some hp) := by
        intro j hj
        have := hd (j + 1) (by simpa using hj)
        omega
      simp only [List.map_cons, if_true, map_clear_absent habs, occ_cons]
      simp
      omega
    | succ i =>
      simp only [List.getElem?_cons_succ] at h
      have h0 : s ≠ some hp := by
        intro e
        have := hd 0 (by simp [e])
        omega
      have := ih h (fun j hj => by
        have := hd (j + 1) (by simpa using hj)
        omega)
      simp only [List.map_cons, h0, if_false, occ_cons]
      omega

/-- What one `GL_AllocateFromHeaps` call does to the counter: it creates at most one heap,
destroys none, and the counter goes up by one exactly when a heap is created. -/
theorem alloc_counter {S : Nat} {pool : pool_t} (hok : pool_ok S pool) (size : Nat)
    {alignment : Nat} (hal : 0 < alignment)
    (hc : pool.num_allocations = pool.occupied) (hint : pool.num_heaps + 1 < 2 ^ 32) :
    ((GL_AllocateFromHeaps pool S size alignment).1.objects.length = pool.objects.length + 1
        ∧ (GL_AllocateFromHeaps pool S size alignment).1.num_allocations
            = pool.num_allocations + 1
        ∧ (GL_AllocateFromHeaps pool S size alignment).1.occupied = pool.occupied + 1)
    ∨ ((GL_AllocateFromHeaps pool S size alignment).1.objects.length = pool.objects.length
        ∧ (GL_AllocateFromHeaps pool S size alignment).1.num_allocations
            = pool.num_allocations
        ∧ (GL_AllocateFromHeaps pool S size alignment).1.occupied = pool.occupied) := by
  obtain ⟨k, hkn, -, hcase⟩ := alloc_from_heaps_spec S size alignment hal pool hok
  rcases hcase with ⟨hp, h, h2, node, off, hk, hload, e, eres⟩
    | ⟨hk, h2, node, off, e, eres⟩
  · right
    rw [eres]
    exact ⟨by simp, rfl, rfl⟩
  · left
    rw [eres]
    have hslot : (if k = pool.num_heaps then pool.heaps ++ [none] else pool.heaps)[k]?
        = some none := by
      split_ifs with h1
      · rw [h1, hok.count]; simp
      · rcases hk with h3 | h3
        · exact absurd h3 h1
        · exact h3
    have hocc : occ (if k = pool.num_heaps then pool.heaps ++ [none] else pool.heaps)
        = occ pool.heaps := by
      split_ifs
      · exact occ_append_none _
      · rfl
    have hle := occ_le pool.heaps
    have hcnt := hok.count
    refine ⟨by simp [fresh_pool], ?_, ?_⟩
    · simp only [fresh_pool]
      rw [hc, occupied_eq]
      exact Nat.mod_eq_of_lt (by omega)
    · simp only [occupied_eq, fresh_pool]
      rw [occ_set _ hslot, hocc]

theorem alloc_num_heaps_le {S : Nat} {pool : pool_t} (hok : pool_ok S pool) (size : Nat)
    {alignment : Nat} (hal : 0 < alignment) :
    pool.num_heaps ≤ (GL_AllocateFromHeaps pool S size alignment).1.num_heaps
    ∧ (GL_AllocateFromHeaps pool S size alignment).1.num_heaps ≤ pool.num_heaps + 1 := by
  obtain ⟨k, hkn, -, hcase⟩ := alloc_from_heaps_spec S size alignment hal pool hok
  rcases hcase with ⟨hp, h, h2, node, off, hk, hload, e, eres⟩
    | ⟨hk, h2, node, off, e, eres⟩
  · rw [eres]; simp
  · rw [eres]
    simp only [fresh_pool]
    split_ifs <;> omega

/-- What one `GL_FreeFromHeaps` call on a live allocation does to the counter: it creates no
heap, and the counter goes down by one exactly when the heap is destroyed. -/
theorem free_counter {S : Nat} {pool : pool_t} (hok : pool_ok S pool)
    {i hp : Nat} {h : glheap_t} {node : Nat} {n : glheapnode_t}
    (hslot : pool.heaps[i]? = some (some hp)) (hload : load pool.objects hp = some h)
    (hn : load h.cells node = some n) (hu : n.free = false)
    (hc : pool.num_allocations = pool.occupied) (hint : pool.num_heaps < 2 ^ 32) :
    (GL_FreeFromHeaps pool hp node).1.num_heaps = pool.num_heaps
    ∧ (GL_FreeFromHeaps pool hp node).1.objects.length = pool.objects.length
    ∧ ((load (GL_FreeFromHeaps pool hp node).1.objects hp = none
          ∧ (GL_FreeFromHeaps pool hp node).1.num_allocations + 1 = pool.num_allocations
          ∧ (GL_FreeFromHeaps pool hp node).1.occupied + 1 = pool.occupied)
      ∨ (load (GL_FreeFromHeaps pool hp node).1.objects hp ≠ none
          ∧ (GL_FreeFromHeaps pool hp node).1.num_allocations = pool.num_allocations
          ∧ (GL_FreeFromHeaps pool hp node).1.occupied = pool.occupied)) := by
  obtain ⟨h3, e1, hhok⟩ := hok.heaps_ok i hp hslot
  rw [hload] at e1
  cases e1
  have hlt := load_lt hload
  rw [free_from_heaps_spec hload hhok.1 hn hu]
  split_ifs with hlen
  · refine ⟨rfl, by simp, Or.inl ⟨load_set_eq _ _ _ hlt, ?_, ?_⟩⟩
    · have hpos := occ_pos hslot
      have hle := occ_le pool.heaps
      have hcnt := hok.count
      simp only
      rw [hc, occupied_eq]
      have : (occ pool.heaps + 2 ^ 32 - 1) = (occ pool.heaps - 1) + 2 ^ 32 := by omega
      rw [this, Nat.add_mod_right, Nat.mod_eq_of_lt (by omega)]
      omega
    · simp only [occupied_eq, clear_slots_eq hok.count]
      exact occ_clear hslot (fun j hj => hok.distinct j i hp hj hslot)
  · refine ⟨rfl, by simp, Or.inr ⟨?_, rfl, rfl⟩⟩
    simp only
    rw [load_set_eq _ _ _ hlt]
    simp

theorem pool_reachable_inv {S : Nat} (hS : S < 2 ^ 64) {pool : pool_t}
    (h : PoolReachable S pool) :
    pool_ok S pool ∧ (pool.num_heaps < 2 ^ 32 → pool.num_allocations = pool.occupied) := by
  induction h with
  | empty => exact ⟨pool_ok_empty S, fun _ => rfl⟩
  | @allocate pool size alignment _ hal ih =>
    refine ⟨pool_ok_alloc hS ih.1 size hal, fun hint => ?_⟩
    obtain ⟨hle1, hle2⟩ := alloc_num_heaps_le ih.1 size hal
    have hc := ih.2 (by omega)
    obtain ⟨k, hkn, -, hcase⟩ := alloc_from_heaps_spec S size alignment hal pool ih.1
    rcases hcase with ⟨hp, h, h2, node, off, hk, hload, e, eres⟩
      | ⟨hk, h2, node, off, e, eres⟩
    · rw [eres]; exact hc
    · rw [eres] at hint ⊢
      have hslot : (if k = pool.num_heaps then pool.heaps ++ [none] else pool.heaps)[k]?
          = some none := by
        split_ifs with h1
        · rw [h1, ih.1.count]; simp
        · rcases hk with h3 | h3
          · exact absurd h3 h1
          · exact h3
      have hocc : occ (if k = pool.num_heaps then pool.heaps ++ [none] else pool.heaps)
          = occ pool.heaps := by
        split_ifs
        · exact occ_append_none _
        · rfl
      have hle := occ_le pool.heaps
      have hcnt := ih.1.count
      simp only [fresh_pool, occupied_eq] at hint ⊢
      rw [occ_set _ hslot, hocc, hc, occupied_eq]
      refine Nat.mod_eq_of_lt ?_
      split_ifs at hint with h1
      · omega
      · have hklt : k < pool.heaps.length := by omega
        have hpos : occ pool.heaps < pool.heaps.length := by
          rcases hk with h3 | h3
          · exact absurd h3 h1
          · have := occ_set 0 h3
            have := occ_le (pool.heaps.set k (some 0))
            simp only [List.length_set] at this
            omega
        omega
  | @free pool i hp h node n _ hslot hload hn hu ih =>
    refine ⟨pool_ok_free hS ih.1 hslot hload hn hu, fun hint => ?_⟩
    have hnum : (GL_FreeFromHeaps pool hp node).1.num_heaps = pool.num_heaps := by
      obtain ⟨h3, e1, hhok⟩ := ih.1.heaps_ok i hp hslot
      rw [hload] at e1
      cases e1
      rw [free_from_heaps_spec hload hhok.1 hn hu]
      split_ifs <;> rfl
    rw [hnum] at hint
    obtain ⟨-, -, hcase⟩ := free_counter ih.1 hslot hload hn hu (ih.2 hint) hint
    have hc := ih.2 hint
    rcases hcase with ⟨-, h1, h2⟩ | ⟨-, h1, h2⟩ <;> omega

theorem demo_pool_1_reachable : PoolReachable 1024 demo_pool_1 := by
  have h : PoolReachable 1024 (GL_AllocateFromHeaps demo_pool_0 1024 100 16).1 :=
    PoolReachable.allocate (PoolReachable.empty : PoolReachable 1024 demo_pool_0)
      (by norm_num : 0 < 16)
  rw [demo_pool_1_eq] at h
  exact h

/-- C10, live-heap counter invariant.  In every pool state reachable from the pool with no
slot and counter 0 by `GL_AllocateFromHeaps` calls (also those ending in `Sys_Error`) and
`GL_FreeFromHeaps` calls on live allocations, with a slot count below `INT_MAX`, the counter
`num_allocations` equals the number of occupied slots.  A `GL_AllocateFromHeaps` call raises
the counter by one exactly when it creates a heap (and then one more slot is occupied), and
otherwise leaves it; a `GL_FreeFromHeaps` call on a live allocation creates no heap and
lowers the counter by one exactly when it destroys the heap, and otherwise leaves it. -/
theorem live_heap_counter (heap_size : Nat) (pool : pool_t) (hS : heap_size < 2 ^ 64)
    (hreach : PoolReachable heap_size pool) (hint : pool.num_heaps < 2 ^ 31 - 1) :
    pool.num_allocations = pool.occupied
    ∧ (∀ size alignment : Nat, 0 < alignment →
        ((GL_AllocateFromHeaps pool heap_size size alignment).1.objects.length
            = pool.objects.length + 1
          ∧ (GL_AllocateFromHeaps pool heap_size size alignment).1.num_allocations
              = pool.num_allocations + 1
          ∧ (GL_AllocateFromHeaps pool heap_size size alignment).1.occupied
              = pool.occupied + 1)
        ∨ ((GL_AllocateFromHeaps pool heap_size size alignment).1.objects.length
            = pool.objects.length
          ∧ (GL_AllocateFromHeaps pool heap_size size alignment).1.num_allocations
              = pool.num_allocations
          ∧ (GL_AllocateFromHeaps pool heap_size size alignment).1.occupied = pool.occupied))
    ∧ (∀ (i hp : Nat) (h : glheap_t) (node : Nat) (n : glheapnode_t),
        pool.heaps[i]? = some (some hp) → load pool.objects hp = some h →
        load h.cells node = some n → n.free = false →
        (GL_FreeFromHeaps pool hp node).1.objects.length = pool.objects.length
        ∧ ((load (GL_FreeFromHeaps pool hp node).1.objects hp = none
              ∧ (GL_FreeFromHeaps pool hp node).1.num_allocations + 1 = pool.num_allocations
              ∧ (GL_FreeFromHeaps pool hp node).1.occupied + 1 = pool.occupied)
          ∨ (load (GL_FreeFromHeaps pool hp node).1.objects hp ≠ none
              ∧ (GL_FreeFromHeaps pool hp node).1.num_allocations = pool.num_allocations
              ∧ (GL_FreeFromHeaps pool hp node).1.occupied = pool.occupied))) := by
  obtain ⟨hok, hcnt⟩ := pool_reachable_inv hS hreach
  have hc := hcnt (by omega)
  refine ⟨hc, fun size alignment hal => alloc_counter hok size hal hc (by omega),
    fun i hp h node n hslot hload hn hu => ?_⟩
  exact (free_counter hok hslot hload hn hu hc (by omega)).2

theorem live_heap_counter_witness :
    (1024 < 2 ^ 64 ∧ PoolReachable 1024 demo_pool_1 ∧ demo_pool_1.num_heaps < 2 ^ 31 - 1)
    ∧ demo_pool_1.num_allocations = demo_pool_1.occupied
    ∧ (∀ size alignment : Nat, 0 < alignment →
        ((GL_AllocateFromHeaps demo_pool_1 1024 size alignment).1.objects.length
            = demo_pool_1.objects.length + 1
          ∧ (GL_AllocateFromHeaps demo_pool_1 1024 size alignment).1.num_allocations
              = demo_pool_1.num_allocations + 1
          ∧ (GL_AllocateFromHeaps demo_pool_1 1024 size alignment).1.occupied
              = demo_pool_1.occupied + 1)
        ∨ ((GL_AllocateFromHeaps demo_pool_1 1024 size alignment).1.objects.length
            = demo_pool_1.objects.length
          ∧ (GL_AllocateFromHeaps demo_pool_1 1024 size alignment).1.num_allocations
              = demo_pool_1.num_allocations
          ∧ (GL_AllocateFromHeaps demo_pool_1 1024 size alignment).1.occupied
              = demo_pool_1.occupied))
    ∧ (∀ (i hp : Nat) (h : glheap_t) (node : Nat) (n : glheapnode_t),
        demo_pool_1.heaps[i]? = some (some hp) → load demo_pool_1.objects hp = some h →
        load h.cells node = some n → n.free = false →
        (GL_FreeFromHeaps demo_pool_1 hp node).1.objects.length = demo_pool_1.objects.length
        ∧ ((load (GL_FreeFromHeaps demo_pool_1 hp node).1.objects hp = none
              ∧ (GL_FreeFromHeaps demo_pool_1 hp node).1.num_allocations + 1
                  = demo_pool_1.num_allocations
              ∧ (GL_FreeFromHeaps demo_pool_1 hp node).1.occupied + 1 = demo_pool_1.occupied)
          ∨ (load (GL_FreeFromHeaps demo_pool_1 hp node).1.objects hp ≠ none
              ∧ (GL_FreeFromHeaps demo_pool_1 hp node).1.num_allocations
                  = demo_pool_1.num_allocations
              ∧ (GL_FreeFromHeaps demo_pool_1 hp node).1.occupied = demo_pool_1.occupied))) :=
  ⟨⟨by norm_num, demo_pool_1_reachable, by decide⟩,
    live_heap_counter 1024 demo_pool_1 (by norm_num) demo_pool_1_reachable (by decide)⟩

/-! ## The worked example -/

/-- C11, worked example.  On `GL_CreateHeap 1024`, `GL_HeapAllocate (100, 16)` returns a node
with aligned offset 0 and leaves the list [used 0/100, free 100/924]; then
`GL_HeapAllocate (50, 16)` computes padding 12 and needed size 62, returns a node with aligned
offset 112 and leaves [used 0/100, used 100/62, free 162/862]; then `GL_HeapFree` of the
100-byte node and of the 62-byte node, in either order, returns both times and leaves the
single free node 0/1024, and `GL_IsHeapEmpty` is true. -/
theorem worked_example :
    GL_HeapAllocate (GL_CreateHeap 1024) 100 16 = some (demo_heap_1, some 1, 0)
    ∧ demo_heap_1.ranges
        = [{ offset := 0, size := 100, free := false },
           { offset := 100, size := 924, free := true }]
    ∧ align_padding 100 16 = 12 ∧ (50 + align_padding 100 16) % 2 ^ 64 = 62
    ∧ GL_HeapAllocate demo_heap_1 50 16 = some (demo_heap_2, some 2, 112)
    ∧ demo_heap_2.ranges
        = [{ offset := 0, size := 100, free := false },
           { offset := 100, size := 62, free := false },
           { offset := 162, size := 862, free := true }]
    ∧ (load demo_heap_2.cells 1).map glheapnode_t.range
        = some { offset := 0, size := 100, free := false }
    ∧ (load demo_heap_2.cells 2).map glheapnode_t.range
        = some { offset := 100, size := 62, free := false }
    ∧ (GL_HeapFree demo_heap_2 1).2 = .returned
    ∧ (GL_HeapFree (GL_HeapFree demo_heap_2 1).1 2).2 = .returned
    ∧ (GL_HeapFree (GL_HeapFree demo_heap_2 1).1 2).1.ranges
        = [{ offset := 0, size := 1024, free := true }]
    ∧ GL_IsHeapEmpty (GL_HeapFree (GL_HeapFree demo_heap_2 1).1 2).1 = some true
    ∧ (GL_HeapFree demo_heap_2 2).2 = .returned
    ∧ (GL_HeapFree (GL_HeapFree demo_heap_2 2).1 1).2 = .returned
    ∧ (GL_HeapFree (GL_HeapFree demo_heap_2 2).1 1).1.ranges
        = [{ offset := 0, size := 1024, free := true }]
    ∧ GL_IsHeapEmpty (GL_HeapFree (GL_HeapFree demo_heap_2 2).1 1).1 = some true := by
  and_intros
  all_goals decide

/-! ## Exact fit -/

/-- The heap after an exact fit: only the free flag of the chosen node has changed. -/
theorem alloc_exact_state {heap : glheap_t} {L : List (Nat × range_t)}
    {size alignment p : Nat} {n : glheapnode_t}
    (hL : Linked heap.cells heap.head L) (hal : alignment ≠ 0)
    (hs : scan_list size alignment L none UINT64_MAX = .exact_fit p)
    (hn : load heap.cells p = some n) :
    GL_HeapAllocate heap size alignment
      = some ({ heap with cells := heap.cells.set p (some { n with free := false }) }, some p,
          (n.offset + align_padding n.offset alignment) % 2 ^ 64) := by
  unfold GL_HeapAllocate
  rw [hL.scan size hal, hs]
  simp only [hn, modify_eq _ hn, Option.bind_eq_bind, Option.some_bind]

/-- Without wrap-around the needed size is the plain sum of size and padding. -/
theorem aligned_size_exact {size alignment : Nat} (offset : Nat) (hal : 0 < alignment)
    (hsz : size + alignment ≤ 2 ^ 64) :
    aligned_size size alignment offset = size + align_padding offset alignment := by
  have := align_padding_lt offset hal
  exact Nat.mod_eq_of_lt (by omega)

/-- C12, exact fit without split.  On a properly linked heap, for an alignment above 0, if
some free node has exactly the needed size (`size` plus the padding at the node's offset, the
64-bit sum the code computes), then `GL_HeapAllocate` returns the first such node in list
order; the heap afterwards differs from the heap before only in the free flag of that node's
object, which is now used: same head, same number of nodes, same offsets, same sizes.  When
`size + alignment` is within the 64-bit range the needed size is the plain sum at every
offset. -/
theorem exact_fit_no_split (heap : glheap_t) (size alignment : Nat) (hwf : heap.WF)
    (hal : 0 < alignment)
    (hex : ∃ x ∈ heap.nodes, x.2.free = true
      ∧ x.2.size = aligned_size size alignment x.2.offset) :
    ∃ A p r B n heap2, heap.nodes = A ++ (p, r) :: B ∧ load heap.cells p = some n
      ∧ r.free = true ∧ r.size = aligned_size size alignment r.offset
      ∧ (∀ x ∈ A, ¬ (x.2.free = true ∧ x.2.size = aligned_size size alignment x.2.offset))
      ∧ GL_HeapAllocate heap size alignment
          = some (heap2, some p, (r.offset + align_padding r.offset alignment) % 2 ^ 64)
      ∧ heap2 = { heap with cells := heap.cells.set p (some { n with free := false }) }
      ∧ heap2.nodes = A ++ (p, { r with free := false }) :: B
      ∧ heap2.nodes.length = heap.nodes.length
      ∧ heap2.ranges.map range_t.offset = heap.ranges.map range_t.offset
      ∧ heap2.ranges.map range_t.size = heap.ranges.map range_t.size
      ∧ (size + alignment ≤ 2 ^ 64 → ∀ offset,
          aligned_size size alignment offset = size + align_padding offset alignment) := by
  have hal0 : alignment ≠ 0 := Nat.pos_iff_ne_zero.1 hal
  have hL := hwf.linked
  obtain ⟨x, hx, hxf, hxs⟩ := hex
  rcases hs : scan_list size alignment heap.nodes none UINT64_MAX with p | res
  · obtain ⟨A, r, B, hLeq, h1, h2, h3⟩ := scan_list_exact hs
    obtain ⟨n, hn1, hn2⟩ := hL.load_of_mem (x := (p, r)) (by rw [hLeq]; simp)
    simp only at hn1 hn2
    obtain ⟨h2', e1, -, e3⟩ := alloc_exact hL hal0 hs hLeq
    have e4 := alloc_exact_state hL hal0 hs hn1
    have hh : h2' = { heap with cells := heap.cells.set p (some { n with free := false }) } := by
      rw [e1] at e4
      simp only [Option.some.injEq, Prod.mk.injEq] at e4
      exact e4.1
    have hnodes := e3.nodes_eq
    refine ⟨A, p, r, B, n, h2', hLeq, hn1, h1, h2, fun y hy hq => h3 y hy hq.1 hq.2, e1, hh,
      hnodes, ?_, ?_, ?_, fun hsz o => aligned_size_exact o hal hsz⟩
    · rw [hnodes, hLeq]; simp
    · rw [ranges_eq, ranges_eq, hnodes, hLeq]; simp
    · rw [ranges_eq, ranges_eq, hnodes, hLeq]; simp
  · exact absurd hxs (scan_list_finished_no_exact hs x hx hxf)

theorem exact_fit_no_split_witness :
    (demo_heap_1.WF ∧ 0 < 16
      ∧ ∃ x ∈ demo_heap_1.nodes, x.2.free = true ∧ x.2.size = aligned_size 912 16 x.2.offset)
    ∧ ∃ A p r B n heap2, demo_heap_1.nodes = A ++ (p, r) :: B
      ∧ load demo_heap_1.cells p = some n
      ∧ r.free = true ∧ r.size = aligned_size 912 16 r.offset
      ∧ (∀ x ∈ A, ¬ (x.2.free = true ∧ x.2.size = aligned_size 912 16 x.2.offset))
      ∧ GL_HeapAllocate demo_heap_1 912 16
          = some (heap2, some p, (r.offset + align_padding r.offset 16) % 2 ^ 64)
      ∧ heap2 = { demo_heap_1 with
          cells := demo_heap_1.cells.set p (some { n with free := false }) }
      ∧ heap2.nodes = A ++ (p, { r with free := false }) :: B
      ∧ heap2.nodes.length = demo_heap_1.nodes.length
      ∧ heap2.ranges.map range_t.offset = demo_heap_1.ranges.map range_t.offset
      ∧ heap2.ranges.map range_t.size = demo_heap_1.ranges.map range_t.size
      ∧ (912 + 16 ≤ 2 ^ 64 → ∀ offset,
          aligned_size 912 16 offset = 912 + align_padding offset 16) :=
  ⟨⟨demo_heap_1_reachable.well_formed, by decide,
      ⟨(0, { offset := 100, size := 924, free := true }), by decide, rfl, by decide⟩⟩,
    exact_fit_no_split demo_heap_1 912 16 demo_heap_1_reachable.well_formed (by decide)
      ⟨(0, { offset := 100, size := 924, free := true }), by decide, rfl, by decide⟩⟩

/-! ## Best fit and split -/

theorem demo_heap_wrap_eq :
    GL_HeapAllocate demo_heap_1 (2 ^ 64 - 4) 16 = some (demo_heap_wrap, some 2, 112) := by
  decide

/-- What a scan that ends with best fit `p` says about the node list: either `p` was the best
fit before and no node qualified, or `p` is a free node larger than needed, strictly smaller
than every qualifying node before it and not larger than any qualifying node after it. -/
theorem scan_list_best {size alignment : Nat} {L : List (Nat × range_t)} {best : Option Nat}
    {bs p : Nat} (h : scan_list size alignment L best bs = .finished (some p)) :
    (best = some p ∧ ∀ x ∈ L, x.2.free = true →
        ¬ (aligned_size size alignment x.2.offset < x.2.size ∧ x.2.size < bs))
    ∨ ∃ A r B, L = A ++ (p, r) :: B ∧ r.free = true
        ∧ aligned_size size alignment r.offset < r.size ∧ r.size < bs
        ∧ (∀ x ∈ A, x.2.free = true → aligned_size size alignment x.2.offset < x.2.size →
            r.size < x.2.size)
        ∧ (∀ x ∈ B, x.2.free = true → aligned_size size alignment x.2.offset < x.2.size →
            r.size ≤ x.2.size) := by
  induction L generalizing best bs with
  | nil => left; exact ⟨by simpa [scan_list] using h, by simp⟩
  | cons x L ih =>
    obtain ⟨q, rq⟩ := x
    simp only [scan_list] at h
    split_ifs at h with h1 h2 h3
    · rcases ih h with ⟨hb, hn⟩ | ⟨A, r, B, rfl, hr⟩
      · left
        refine ⟨hb, fun y hy hf => ?_⟩
        rcases List.mem_cons.1 hy with rfl | hy
        · simp_all
        · exact hn y hy hf
      · right
        refine ⟨(q, rq) :: A, r, B, rfl, hr.1, hr.2.1, hr.2.2.1, fun y hy hf => ?_, hr.2.2.2.2⟩
        rcases List.mem_cons.1 hy with rfl | hy
        · simp_all
        · exact hr.2.2.2.1 y hy hf
    · rcases ih h with ⟨hb, hn⟩ | ⟨A, r, B, rfl, hr⟩
      · right
        cases hb
        refine ⟨[], rq, L, rfl, by simpa using h1, h3.1, h3.2, by simp, fun y hy hf hq => ?_⟩
        have := hn y hy hf
        simp only at this
        omega
      · right
        refine ⟨(q, rq) :: A, r, B, rfl, hr.1, hr.2.1, lt_trans hr.2.2.1 h3.2,
          fun y hy hf => ?_, hr.2.2.2.2⟩
        rcases List.mem_cons.1 hy with rfl | hy
        · intro _; exact hr.2.2.1
        · exact hr.2.2.2.1 y hy hf
    · rcases ih h with ⟨hb, hn⟩ | ⟨A, r, B, rfl, hr⟩
      · left
        refine ⟨hb, fun y hy hf => ?_⟩
        rcases List.mem_cons.1 hy with rfl | hy
        · exact h3
        · exact hn y hy hf
      · right
        refine ⟨(q, rq) :: A, r, B, rfl, hr.1, hr.2.1, hr.2.2.1, fun y hy hf => ?_, hr.2.2.2.2⟩
        rcases List.mem_cons.1 hy with rfl | hy
        · intro hq
          have hlt := hr.2.2.1
          have hq2 : aligned_size size alignment rq.offset < rq.size := hq
          show r.size < rq.size
          omega
        · exact hr.2.2.2.1 y hy hf

/-- A successful `GL_HeapAllocate` on a heap without an exact fit splits the best fit. -/
theorem alloc_split_spec {heap heap2 : glheap_t} (hwf : heap.WF) {size alignment node off : Nat}
    (hal : alignment ≠ 0)
    (hno : ∀ x ∈ heap.nodes, x.2.free = true →
      x.2.size ≠ aligned_size size alignment x.2.offset)
    (h : GL_HeapAllocate heap size alignment = some (heap2, some node, off)) :
    ∃ A c r B, heap.nodes = A ++ (c, r) :: B ∧ r.free = true
      ∧ aligned_size size alignment r.offset < r.size ∧ r.size < UINT64_MAX
      ∧ (∀ x ∈ A, x.2.free = true → aligned_size size alignment x.2.offset < x.2.size →
          r.size < x.2.size)
      ∧ (∀ x ∈ B, x.2.free = true → aligned_size size alignment x.2.offset < x.2.size →
          r.size ≤ x.2.size)
      ∧ node = heap.cells.length
      ∧ off = (r.offset + align_padding r.offset alignment) % 2 ^ 64
      ∧ heap2.head = (if A = [] then heap.cells.length else heap.head) ∧ heap2.WF
      ∧ heap2.nodes = A ++ (heap.cells.length,
                  { offset := r.offset, size := aligned_size size alignment r.offset,
                    free := false })
             :: (c, { offset := (r.offset + aligned_size size alignment r.offset) % 2 ^ 64,
                      size := (r.size + 2 ^ 64 - aligned_size size alignment r.offset) % 2 ^ 64,
                      free := r.free }) :: B := by
  have hL := hwf.linked
  rcases hs : scan_list size alignment heap.nodes none UINT64_MAX with p | (_ | c)
  · obtain ⟨A, r, B, hLeq, h1, h2, -⟩ := scan_list_exact hs
    exact absurd h2 (hno (p, r) (by rw [hLeq]; simp) h1)
  · rw [alloc_none hL hal hs] at h
    simp at h
  · rcases scan_list_best hs with ⟨h0, -⟩ | ⟨A, r, B, hLeq, h1, h2, h3, h4, h5⟩
    · cases h0
    · obtain ⟨h2', e1, e2, e3⟩ := alloc_split hL hal hs hLeq
      rw [e1] at h
      simp only [Option.some.injEq, Prod.mk.injEq] at h
      obtain ⟨rfl, rfl, rfl⟩ := h
      exact ⟨A, c, r, B, hLeq, h1, h2, h3, h4, h5, rfl, rfl, e2, e3.heap_wf, e3.nodes_eq⟩

/-- The remainder of a split, without wrap-around. -/
theorem split_rest {a s : Nat} (h1 : a < s) (h2 : s < UINT64_MAX) :
    (s + 2 ^ 64 - a) % 2 ^ 64 = s - a := by
  unfold UINT64_MAX at h2
  have : s + 2 ^ 64 - a = (s - a) + 2 ^ 64 := by omega
  rw [this, Nat.add_mod_right]
  exact Nat.mod_eq_of_lt (by omega)

/-- C13, split correctness (amended).  On a properly linked heap, for an alignment above 0, when no free
node is an exact fit and `GL_HeapAllocate` returns a node, it has split a free node `c` with
offset `o` and size `s` whose needed size (`size` plus the padding at `o`, the 64-bit sum the
code computes) is below `s`: the list afterwards has, in the position of `c`, the returned
node, a new object, used, with offset `o` and the needed size, immediately followed by `c`,
free, with offset `o + needed` and size `s - needed`; the two sizes sum to `s`, there is
exactly one node more, all other nodes are the same, and the head is the returned node exactly
when `c` was the head.  When `size + alignment` is within the 64-bit range the needed size is
the plain sum, at every offset; on a heap that satisfies the partition invariant `o + needed`
does not wrap. -/
theorem split_correctness (heap heap2 : glheap_t) (size alignment node aligned_offset : Nat)
    (hwf : heap.WF) (hal : 0 < alignment)
    (hno : ∀ x ∈ heap.nodes, x.2.free = true →
      x.2.size ≠ aligned_size size alignment x.2.offset)
    (h : GL_HeapAllocate heap size alignment = some (heap2, some node, aligned_offset)) :
    ∃ A c r B needed, heap.nodes = A ++ (c, r) :: B ∧ r.free = true
      ∧ needed = aligned_size size alignment r.offset ∧ needed < r.size
      ∧ heap2.nodes = A ++ (node, { offset := r.offset, size := needed, free := false })
          :: (c, { offset := (r.offset + needed) % 2 ^ 64, size := r.size - needed,
                   free := true }) :: B
      ∧ needed + (r.size - needed) = r.size
      ∧ heap2.nodes.length = heap.nodes.length + 1
      ∧ (heap2.head = node ↔ c = heap.head)
      ∧ heap2.WF
      ∧ load heap.cells node = none
      ∧ aligned_offset = (r.offset + align_padding r.offset alignment) % 2 ^ 64
      ∧ (size + alignment ≤ 2 ^ 64 → needed = size + align_padding r.offset alignment)
      ∧ (∀ S, S < 2 ^ 64 → partition_inv S heap.ranges →
          (r.offset + needed) % 2 ^ 64 = r.offset + needed)
      ∧ (size + alignment ≤ 2 ^ 64 → ∀ offset,
          aligned_size size alignment offset = size + align_padding offset alignment) := by
  obtain ⟨A, c, r, B, hLeq, h1, h2, h3, -, -, rfl, rfl, e2, hw, e3⟩ :=
    alloc_split_spec hwf (Nat.pos_iff_ne_zero.1 hal) hno h
  have hL := hwf.linked
  have hhead : c = heap.head ↔ A = [] := by
    rw [hLeq] at hL
    exact hL.head_iff
  have hlt : heap.head < heap.cells.length := by
    obtain ⟨n, hn, -⟩ := hL.load_of_mem (x := (c, r)) (by rw [hLeq]; simp)
    by_cases hA : A = []
    · rw [← hhead.2 hA]; exact load_lt hn
    · obtain ⟨y, ys, rfl⟩ : ∃ y ys, A = y :: ys := List.exists_cons_of_ne_nil hA
      have hh := hL.head_eq
      rw [hLeq] at hh
      simp only [List.cons_append, first_or_cons, Option.some.injEq] at hh
      obtain ⟨ny, hny, -⟩ := hL.load_of_mem (x := y) (by rw [hLeq]; simp)
      rw [← hh]; exact load_lt hny
  refine ⟨A, c, r, B, aligned_size size alignment r.offset, hLeq, h1, rfl, h2, ?_, by omega,
    ?_, ?_, hw, ?_, rfl, fun hsz => aligned_size_exact _ hal hsz, fun S hS hp => ?_,
    fun hsz o => aligned_size_exact o hal hsz⟩
  · rw [e3, split_rest h2 h3, h1]
  · rw [e3, hLeq]
    simp only [List.length_append, List.length_cons]
    omega
  · rw [e2, hhead]
    by_cases hA : A = []
    · simp [hA]
    · simp only [hA, if_false, iff_false]
      omega
  · cases hl : load heap.cells heap.cells.length with
    | none => rfl
    | some v => exact absurd (load_lt hl) (lt_irrefl _)
  · rw [ranges_eq, partition_inv_iff, hLeq] at hp
    have hb := tiles_mem_le hp.2 (r := r) (by simp)
    exact Nat.mod_eq_of_lt (by omega)

theorem split_correctness_witness :
    (demo_heap_1.WF ∧ 0 < 16
      ∧ (∀ x ∈ demo_heap_1.nodes, x.2.free = true → x.2.size ≠ aligned_size 50 16 x.2.offset)
      ∧ GL_HeapAllocate demo_heap_1 50 16 = some (demo_heap_2, some 2, 112))
    ∧ ∃ A c r B needed, demo_heap_1.nodes = A ++ (c, r) :: B ∧ r.free = true
      ∧ needed = aligned_size 50 16 r.offset ∧ needed < r.size
      ∧ demo_heap_2.nodes = A ++ (2, { offset := r.offset, size := needed, free := false })
          :: (c, { offset := (r.offset + needed) % 2 ^ 64, size := r.size - needed,
                   free := true }) :: B
      ∧ needed + (r.size - needed) = r.size
      ∧ demo_heap_2.nodes.length = demo_heap_1.nodes.length + 1
      ∧ (demo_heap_2.head = 2 ↔ c = demo_heap_1.head)
      ∧ demo_heap_2.WF
      ∧ load demo_heap_1.cells 2 = none
      ∧ 112 = (r.offset + align_padding r.offset 16) % 2 ^ 64
      ∧ (50 + 16 ≤ 2 ^ 64 → needed = 50 + align_padding r.offset 16)
      ∧ (∀ S, S < 2 ^ 64 → partition_inv S demo_heap_1.ranges →
          (r.offset + needed) % 2 ^ 64 = r.offset + needed)
      ∧ (50 + 16 ≤ 2 ^ 64 → ∀ offset,
          aligned_size 50 16 offset = 50 + align_padding offset 16) :=
  ⟨⟨demo_heap_1_reachable.well_formed, by decide, by decide, demo_heap_2_eq⟩,
    split_correctness demo_heap_1 demo_heap_2 50 16 2 112 demo_heap_1_reachable.well_formed
      (by decide) (by decide) demo_heap_2_eq⟩

/-- C13 as stated fails when `size + padding` exceeds the 64-bit range.  In the reachable heap
`demo_heap_1` (used 0/100, free 100/924) no free node has the size `2 ^ 64 - 4` plus its
padding, and `GL_HeapAllocate (2 ^ 64 - 4, 16)` returns a node by splitting the free node: the
new used node has size 8, not `size + padding = 2 ^ 64 + 8`. -/
theorem split_correctness_counterexample :
    Reachable 1024 demo_heap_1
    ∧ (∀ x ∈ demo_heap_1.nodes, x.2.free = true →
        x.2.size ≠ (2 ^ 64 - 4) + align_padding x.2.offset 16)
    ∧ GL_HeapAllocate demo_heap_1 (2 ^ 64 - 4) 16 = some (demo_heap_wrap, some 2, 112)
    ∧ demo_heap_wrap.nodes
        = [(1, { offset := 0, size := 100, free := false }),
           (2, { offset := 100, size := 8, free := false }),
           (0, { offset := 108, size := 916, free := true })]
    ∧ (2 ^ 64 - 4) + align_padding 100 16 = 2 ^ 64 + 8
    ∧ ¬ (∀ (heap heap2 : glheap_t) (size alignment node off : Nat), heap.WF → 0 < alignment →
          (∀ x ∈ heap.nodes, x.2.free = true →
            x.2.size ≠ size + align_padding x.2.offset alignment) →
          GL_HeapAllocate heap size alignment = some (heap2, some node, off) →
          ∃ A c r B, heap.nodes = A ++ (c, r) :: B ∧ r.free = true
            ∧ heap2.nodes = A ++ (node,
                  { offset := r.offset, size := size + align_padding r.offset alignment,
                    free := false })
                :: (c, { offset := r.offset + (size + align_padding r.offset alignment),
                         size := r.size - (size + align_padding r.offset alignment),
                         free := true }) :: B) := by
  have hno : ∀ x ∈ demo_heap_1.nodes, x.2.free = true →
      x.2.size ≠ (2 ^ 64 - 4) + align_padding x.2.offset 16 := by decide
  refine ⟨demo_heap_1_reachable, hno, demo_heap_wrap_eq, by decide, by decide, fun hall => ?_⟩
  obtain ⟨A, c, r, B, -, -, e⟩ := hall demo_heap_1 demo_heap_wrap (2 ^ 64 - 4) 16 2 112
    demo_heap_1_reachable.well_formed (by decide) hno demo_heap_wrap_eq
  have hsmall : ∀ y ∈ demo_heap_wrap.nodes, y.2.size < 2 ^ 64 - 4 := by decide
  have hm := hsmall (2, (⟨r.offset, 2 ^ 64 - 4 + align_padding r.offset 16, false⟩ : range_t))
    (by rw [e]; simp)
  simp only at hm
  omega

theorem reachable_after_allocate {S : Nat} {heap : glheap_t} (h : Reachable S heap)
    (size : Nat) {alignment : Nat} (hal : 0 < alignment) :
    Reachable S (heap_after_allocate heap size alignment) := by
  unfold heap_after_allocate
  cases e : GL_HeapAllocate heap size alignment with
  | none => exact h
  | some res =>
    obtain ⟨heap2, node, off⟩ := res
    exact Reachable.allocate h hal e

theorem demo_heap_full_eq :
    heap_after_allocate (heap_after_allocate (heap_after_allocate
      (heap_after_allocate (GL_CreateHeap 352) 96 16) 64 16) 64 16) 64 16 = demo_heap_full := by
  decide

theorem demo_heap_tie_eq :
    (GL_HeapFree (GL_HeapFree demo_heap_full 1).1 3).1 = demo_heap_tie := by
  decide

theorem demo_heap_tie_2_eq :
    GL_HeapAllocate demo_heap_tie 32 16 = some (demo_heap_tie_2, some 5, 160) := by
  decide

theorem demo_heap_tie_reachable : Reachable 352 demo_heap_tie := by
  have h4 : Reachable 352 demo_heap_full := by
    rw [← demo_heap_full_eq]
    exact reachable_after_allocate (reachable_after_allocate (reachable_after_allocate
      (reachable_after_allocate Reachable.create 96 (by decide)) 64 (by decide)) 64
      (by decide)) 64 (by decide)
  have h5 : Reachable 352 (GL_HeapFree demo_heap_full 1).1 :=
    Reachable.free h4
      (rfl : load demo_heap_full.cells 1
        = some { offset := 0, size := 96, prev := none, next := some 2, free := false }) rfl
  have h6 := Reachable.free h5
    (by decide : load (GL_HeapFree demo_heap_full 1).1.cells 3
      = some { offset := 160, size := 64, prev := some 2, next := some 4, free := false }) rfl
  rw [demo_heap_tie_eq] at h6
  exact h6

/-- C15, best-fit choice with tie-break (amended).  On a properly linked heap, for an alignment above 0,
when no free node is an exact fit: `GL_HeapAllocate` returns a node exactly when some free
node below `UINT64_MAX` bytes is larger than its own needed size (`size` plus the padding at
its offset, the 64-bit sum the code computes), and the node `c` it then splits is a free node
larger than its own needed size, not larger than any free node that is larger than its own
needed size, and no such node before `c` in list order has the size of `c`.  When
`size + alignment` is within the 64-bit range the needed size is the plain sum. -/
theorem best_fit_choice (heap : glheap_t) (size alignment : Nat) (hwf : heap.WF)
    (hal : 0 < alignment)
    (hno : ∀ x ∈ heap.nodes, x.2.free = true →
      x.2.size ≠ aligned_size size alignment x.2.offset) :
    ((∃ x ∈ heap.nodes, x.2.free = true ∧ aligned_size size alignment x.2.offset < x.2.size
          ∧ x.2.size < UINT64_MAX)
        ↔ ∃ heap2 node off, GL_HeapAllocate heap size alignment = some (heap2, some node, off))
    ∧ (∀ heap2 node off, GL_HeapAllocate heap size alignment = some (heap2, some node, off) →
        ∃ A c r B, heap.nodes = A ++ (c, r) :: B
          ∧ heap2.nodes = A ++ (node,
                  { offset := r.offset, size := aligned_size size alignment r.offset,
                    free := false })
              :: (c, { offset := (r.offset + aligned_size size alignment r.offset) % 2 ^ 64,
                       size := r.size - aligned_size size alignment r.offset,
                       free := true }) :: B
          ∧ r.free = true ∧ aligned_size size alignment r.offset < r.size
          ∧ (∀ x ∈ heap.nodes, x.2.free = true →
              aligned_size size alignment x.2.offset < x.2.size → r.size ≤ x.2.size)
          ∧ (∀ x ∈ A, x.2.free = true →
              aligned_size size alignment x.2.offset < x.2.size → x.2.size ≠ r.size))
    ∧ (size + alignment ≤ 2 ^ 64 → ∀ offset,
        aligned_size size alignment offset = size + align_padding offset alignment) := by
  have hal0 : alignment ≠ 0 := Nat.pos_iff_ne_zero.1 hal
  refine ⟨⟨?_, ?_⟩, ?_, fun hsz o => aligned_size_exact o hal hsz⟩
  · rintro ⟨x, hx, hxf, hxq, hxs⟩
    rcases alloc_cases hwf size hal0 with
      ⟨A, p, r, B, h2, e0, hf, hr, -, -⟩ | ⟨A, p, r, B, h2, -, -, -, -, -, e, -⟩ | ⟨-, hn⟩
    · exact absurd hr (hno (p, r) (by rw [e0]; simp) hf)
    · exact ⟨h2, _, _, e⟩
    · exact absurd ⟨hxq, hxs⟩ (hn x hx hxf).2
  · rintro ⟨heap2, node, off, h⟩
    obtain ⟨A, c, r, B, hLeq, h1, h2, h3, -⟩ := alloc_split_spec hwf hal0 hno h
    exact ⟨(c, r), by rw [hLeq]; simp, h1, h2, h3⟩
  · intro heap2 node off h
    obtain ⟨A, c, r, B, hLeq, h1, h2, h3, h4, h5, rfl, -, -, -, e3⟩ :=
      alloc_split_spec hwf hal0 hno h
    refine ⟨A, c, r, B, hLeq, ?_, h1, h2, fun x hx hf hq => ?_, fun x hx hf hq => ?_⟩
    · rw [e3, split_rest h2 h3, h1]
    · rw [hLeq] at hx
      rcases List.mem_append.1 hx with hx | hx
      · exact le_of_lt (h4 x hx hf hq)
      · rcases List.mem_cons.1 hx with rfl | hx
        · exact le_refl _
        · exact h5 x hx hf hq
    · exact ne_of_gt (h4 x hx hf hq)

theorem best_fit_choice_witness :
    (demo_heap_tie.WF ∧ 0 < 16
      ∧ ∀ x ∈ demo_heap_tie.nodes, x.2.free = true → x.2.size ≠ aligned_size 32 16 x.2.offset)
    ∧ demo_heap_tie.ranges
        = [{ offset := 0, size := 96, free := true },
           { offset := 96, size := 64, free := false },
           { offset := 160, size := 64, free := true },
           { offset := 224, size := 64, free := false },
           { offset := 288, size := 64, free := true }]
    ∧ GL_HeapAllocate demo_heap_tie 32 16 = some (demo_heap_tie_2, some 5, 160)
    ∧ demo_heap_tie_2.ranges
        = [{ offset := 0, size := 96, free := true },
           { offset := 96, size := 64, free := false },
           { offset := 160, size := 32, free := false },
           { offset := 192, size := 32, free := true },
           { offset := 224, size := 64, free := false },
           { offset := 288, size := 64, free := true }]
    ∧ ∃ A c r B, demo_heap_tie.nodes = A ++ (c, r) :: B
        ∧ demo_heap_tie_2.nodes = A ++ (5,
                { offset := r.offset, size := aligned_size 32 16 r.offset, free := false })
            :: (c, { offset := (r.offset + aligned_size 32 16 r.offset) % 2 ^ 64,
                     size := r.size - aligned_size 32 16 r.offset, free := true }) :: B
        ∧ r.free = true ∧ aligned_size 32 16 r.offset < r.size
        ∧ (∀ x ∈ demo_heap_tie.nodes, x.2.free = true →
            aligned_size 32 16 x.2.offset < x.2.size → r.size ≤ x.2.size)
        ∧ (∀ x ∈ A, x.2.free = true →
            aligned_size 32 16 x.2.offset < x.2.size → x.2.size ≠ r.size) :=
  ⟨⟨demo_heap_tie_reachable.well_formed, by decide, by decide⟩, by decide, demo_heap_tie_2_eq,
    by decide,
    (best_fit_choice demo_heap_tie 32 16 demo_heap_tie_reachable.well_formed (by decide)
      (by decide)).2.1 demo_heap_tie_2 5 160 demo_heap_tie_2_eq⟩

/-- C15 as stated fails when `size + padding` exceeds the 64-bit range.  In the reachable heap
`demo_heap_1` (used 0/100, free 100/924) no free node has the size `2 ^ 64 - 4` plus its
padding and none is larger than that sum, yet `GL_HeapAllocate (2 ^ 64 - 4, 16)` splits the
free node of 924 bytes, because the sum wraps to 8. -/
theorem best_fit_choice_counterexample :
    Reachable 1024 demo_heap_1
    ∧ (∀ x ∈ demo_heap_1.nodes, x.2.free = true →
        x.2.size ≠ (2 ^ 64 - 4) + align_padding x.2.offset 16)
    ∧ GL_HeapAllocate demo_heap_1 (2 ^ 64 - 4) 16 = some (demo_heap_wrap, some 2, 112)
    ∧ demo_heap_1.ranges
        = [{ offset := 0, size := 100, free := false },
           { offset := 100, size := 924, free := true }]
    ∧ ¬ ((2 ^ 64 - 4) + align_padding 100 16 < 924)
    ∧ ¬ (∀ (heap heap2 : glheap_t) (size alignment node off : Nat), heap.WF → 0 < alignment →
          (∀ x ∈ heap.nodes, x.2.free = true →
            x.2.size ≠ size + align_padding x.2.offset alignment) →
          GL_HeapAllocate heap size alignment = some (heap2, some node, off) →
          ∃ x ∈ heap.nodes, x.2.free = true
            ∧ size + align_padding x.2.offset alignment < x.2.size) := by
  have hno : ∀ x ∈ demo_heap_1.nodes, x.2.free = true →
      x.2.size ≠ (2 ^ 64 - 4) + align_padding x.2.offset 16 := by decide
  refine ⟨demo_heap_1_reachable, hno, demo_heap_wrap_eq, by decide, by decide, fun hall => ?_⟩
  obtain ⟨x, hx, -, hlt⟩ := hall demo_heap_1 demo_heap_wrap (2 ^ 64 - 4) 16 2 112
    demo_heap_1_reachable.well_formed (by decide) hno demo_heap_wrap_eq
  have hsmall : ∀ y ∈ demo_heap_1.nodes, y.2.size < 2 ^ 64 - 4 := by decide
  have := hsmall x hx
  omega

/-! ## Allocation failure -/

/-- C16, allocation failure is exact and atomic.  On a properly linked heap whose free nodes
are all below `UINT64_MAX` bytes, for an alignment above 0, `GL_HeapAllocate` returns, and it
returns no node if and only if no free node has at least its needed size (`size` plus the
padding at its offset, the 64-bit sum the code computes).  On every properly linked heap a call
that returns no node leaves the heap as it was, with aligned offset 0.  When `size + alignment`
is within the 64-bit range the needed size is the plain sum. -/
theorem allocation_failure (heap : glheap_t) (size alignment : Nat) (hwf : heap.WF)
    (hal : 0 < alignment) :
    (∃ res, GL_HeapAllocate heap size alignment = some res)
    ∧ ((∀ x ∈ heap.nodes, x.2.free = true → x.2.size < UINT64_MAX) →
        ((∃ heap2 off, GL_HeapAllocate heap size alignment = some (heap2, none, off))
          ↔ ∀ x ∈ heap.nodes, x.2.free = true →
              x.2.size < aligned_size size alignment x.2.offset))
    ∧ (∀ heap2 off, GL_HeapAllocate heap size alignment = some (heap2, none, off) →
        heap2 = heap ∧ off = 0)
    ∧ (size + alignment ≤ 2 ^ 64 → ∀ offset,
        aligned_size size alignment offset = size + align_padding offset alignment) := by
  have hal0 : alignment ≠ 0 := Nat.pos_iff_ne_zero.1 hal
  refine ⟨alloc_returns hwf size hal, fun hsent => ⟨?_, ?_⟩, ?_,
    fun hsz o => aligned_size_exact o hal hsz⟩
  · rintro ⟨heap2, off, h⟩ x hx hf
    rcases alloc_cases hwf size hal0 with
      ⟨A, p, r, B, h2, -, -, -, -, e, -⟩ | ⟨A, p, r, B, h2, -, -, -, -, -, e, -⟩ | ⟨-, hn⟩
    · rw [e] at h; simp at h
    · rw [e] at h; simp at h
    · have h1 := (hn x hx hf).1
      have h2 := (hn x hx hf).2
      have h3 := hsent x hx hf
      omega
  · intro hn
    rcases alloc_cases hwf size hal0 with
      ⟨A, p, r, B, h2, e0, hf, hr, -, -⟩ | ⟨A, p, r, B, h2, e0, hf, hr, -, -⟩ | ⟨e, -⟩
    · have := hn (p, r) (by rw [e0]; simp) hf
      simp only at this
      omega
    · have := hn (p, r) (by rw [e0]; simp) hf
      simp only at this
      omega
    · exact ⟨heap, 0, e⟩
  · intro heap2 off h
    rcases alloc_cases hwf size hal0 with
      ⟨A, p, r, B, h2, -, -, -, -, e, -⟩ | ⟨A, p, r, B, h2, -, -, -, -, -, e, -⟩ | ⟨e, -⟩
    · rw [e] at h; simp at h
    · rw [e] at h; simp at h
    · rw [e] at h
      simp only [Option.some.injEq, Prod.mk.injEq, true_and] at h
      exact ⟨h.1.symm, h.2.symm⟩

theorem allocation_failure_witness :
    (demo_heap_1.WF ∧ 0 < 16)
    ∧ ((∀ x ∈ demo_heap_1.nodes, x.2.free = true → x.2.size < UINT64_MAX) →
        ((∃ heap2 off, GL_HeapAllocate demo_heap_1 2000 16 = some (heap2, none, off))
          ↔ ∀ x ∈ demo_heap_1.nodes, x.2.free = true →
              x.2.size < aligned_size 2000 16 x.2.offset)) :=
  ⟨⟨demo_heap_1_reachable.well_formed, by decide⟩,
    (allocation_failure demo_heap_1 2000 16 demo_heap_1_reachable.well_formed
      (by decide)).2.1⟩

/-- The claim without the bound on the free nodes fails: the only node of a new heap of
`UINT64_MAX` bytes is free and larger than a request of one byte, yet `GL_HeapAllocate`
returns no node, because a best fit must be smaller than the initial `best_fit_size`. -/
theorem allocation_failure_counterexample :
    (GL_CreateHeap UINT64_MAX).WF
    ∧ partition_inv UINT64_MAX (GL_CreateHeap UINT64_MAX).ranges
    ∧ (GL_CreateHeap UINT64_MAX).ranges = [{ offset := 0, size := UINT64_MAX, free := true }]
    ∧ 1 + align_padding 0 1 ≤ UINT64_MAX
    ∧ GL_HeapAllocate (GL_CreateHeap UINT64_MAX) 1 1 = some (GL_CreateHeap UINT64_MAX, none, 0)
    ∧ ¬ (∀ (heap : glheap_t) (size alignment : Nat), heap.WF → 0 < alignment →
          ((∃ heap2 off, GL_HeapAllocate heap size alignment = some (heap2, none, off))
            ↔ ∀ x ∈ heap.nodes, x.2.free = true →
                x.2.size < aligned_size size alignment x.2.offset)) := by
  have hw := wf_create UINT64_MAX
  have he : GL_HeapAllocate (GL_CreateHeap UINT64_MAX) 1 1
      = some (GL_CreateHeap UINT64_MAX, none, 0) := by decide
  refine ⟨hw, partition_create _, by decide, by decide, he, fun hall => ?_⟩
  have h := (hall (GL_CreateHeap UINT64_MAX) 1 1 hw (by decide)).1 ⟨_, _, he⟩
    (0, { offset := 0, size := UINT64_MAX, free := true }) (by decide) rfl
  revert h
  decide

/-! ## Coalescing with the immediate neighbours -/

theorem free_pred_nil : free_pred [] = [] := rfl

theorem free_pred_snoc (A0 : List (Nat × range_t)) (q : Nat × range_t) :
    free_pred (A0 ++ [q]) = if q.2.free then [q] else [] := by
  unfold free_pred
  by_cases h : q.2.free = true <;> simp [h, Option.filter]

theorem free_succ_nil : free_succ [] = [] := rfl

theorem free_succ_cons (y : Nat × range_t) (B0 : List (Nat × range_t)) :
    free_succ (y :: B0) = if y.2.free then [y] else [] := by
  unfold free_succ
  by_cases h : y.2.free = true <;> simp [h, Option.filter]

theorem free_pred_length (A : List (Nat × range_t)) : (free_pred A).length ≤ 1 := by
  rcases eq_nil_or_snoc A with rfl | ⟨A0, q, rfl⟩
  · simp [free_pred_nil]
  · rw [free_pred_snoc]; split_ifs <;> simp

theorem free_succ_length (B : List (Nat × range_t)) : (free_succ B).length ≤ 1 := by
  cases B with
  | nil => simp [free_succ_nil]
  | cons y B0 => rw [free_succ_cons]; split_ifs <;> simp

theorem free_pred_free (A : List (Nat × range_t)) : ∀ q ∈ free_pred A, q.2.free = true := by
  rcases eq_nil_or_snoc A with rfl | ⟨A0, q, rfl⟩
  · simp [free_pred_nil]
  · rw [free_pred_snoc]; split_ifs with h <;> simp [h]

theorem free_succ_free (B : List (Nat × range_t)) : ∀ q ∈ free_succ B, q.2.free = true := by
  cases B with
  | nil => simp [free_succ_nil]
  | cons y B0 => rw [free_succ_cons]; split_ifs with h <;> simp [h]

/-- The nodes before the freed node that stay: all but a free immediate predecessor. -/
theorem coalesce_prev_kept (A : List (Nat × range_t)) (x : Nat × range_t) :
    (coalesce_prev A x).1 ++ free_pred A = A := by
  rcases eq_nil_or_snoc A with rfl | ⟨A0, q, rfl⟩
  · simp [coalesce_prev_nil, free_pred_nil]
  · rw [coalesce_prev_snoc, free_pred_snoc]
    split_ifs <;> simp

/-- The nodes after the freed node that stay: all but a free immediate successor. -/
theorem coalesce_next_kept (x : Nat × range_t) (B : List (Nat × range_t)) :
    free_succ B ++ (coalesce_next x B).2 = B := by
  cases B with
  | nil => simp [coalesce_next, free_succ_nil]
  | cons y B0 =>
    rw [free_succ_cons]
    simp only [coalesce_next]
    split_ifs <;> simp

/-- The node that replaces the freed node and its free immediate neighbours, on a list that
tiles a span of 64-bit addresses: free, at the smallest of the replaced offsets, with the sum
of the replaced sizes. -/
theorem free_list_merged {s e : Nat} (he : e < 2 ^ 64) (A B : List (Nat × range_t))
    (x : Nat × range_t) (ht : tiles s ((A ++ x :: B).map Prod.snd) e) :
    ∃ m, free_list A x B
        = (coalesce_prev A (x.1, { x.2 with free := true })).1 ++ m
          :: (coalesce_next (coalesce_prev A (x.1, { x.2 with free := true })).2 B).2
      ∧ m.2.free = true
      ∧ m.2.size = ((free_pred A ++ x :: free_succ B).map (fun z => z.2.size)).sum
      ∧ (∀ z ∈ free_pred A ++ x :: free_succ B, m.2.offset ≤ z.2.offset)
      ∧ (∃ z ∈ free_pred A ++ x :: free_succ B, m.2.offset = z.2.offset ∧ m.1 = z.1) := by
  refine ⟨_, rfl, ?_, ?_, ?_, ?_⟩
  · rw [(coalesce_next_fst _ B).2.1]
    exact coalesce_prev_free A x
  all_goals
    rcases eq_nil_or_snoc A with rfl | ⟨A0, q, rfl⟩ <;> cases B with
    | nil => ?_
    | cons y B0 => ?_
  all_goals
    simp only [List.map_append, List.map_cons, List.map_nil, List.append_assoc,
      List.singleton_append, List.nil_append] at ht
    have hbx := tiles_mem_le ht (r := x.2) (by simp)
    try have hby := tiles_mem_le ht (r := y.2) (by simp)
    try have hbq := tiles_mem_le ht (r := q.2) (by simp)
    try
      have hxq : x.2.offset = q.2.offset + q.2.size := by
        rw [tiles_append] at ht
        obtain ⟨mid, -, h2, h3, -⟩ := ht
        omega
    try
      have hyx : y.2.offset = x.2.offset + x.2.size := by
        have ht2 : tiles s ((A0.map Prod.snd ++ [q.2]) ++ x.2 :: y.2 :: B0.map Prod.snd) e := by
          simpa using ht
        rw [tiles_append] at ht2
        obtain ⟨mid, -, h2, h3, -⟩ := ht2
        omega
    try
      have hyx : y.2.offset = x.2.offset + x.2.size := by
        obtain ⟨h2, h3, -⟩ := ht
        omega
    simp only [coalesce_prev_nil, coalesce_prev_snoc, coalesce_next, free_pred_nil,
      free_pred_snoc, free_succ_nil, free_succ_cons]
    first
      | (split_ifs <;> simp <;> omega)
      | simp

theorem first_or_none (L : List (Nat × range_t)) :
    first_or L none = L.head?.map Prod.fst := by
  cases L <;> rfl

theorem last_or_none (L : List (Nat × range_t)) :
    last_or L none = L.getLast?.map Prod.fst := by
  rcases eq_nil_or_snoc L with rfl | ⟨L0, q, rfl⟩
  · rfl
  · rw [last_or_concat]; simp

/-- The head pointer of a properly linked heap is the address of its first node. -/
theorem glheap_t.WF.head_first {heap : glheap_t} (hwf : heap.WF) :
    heap.nodes.head?.map Prod.fst = some heap.head := by
  rw [← first_or_none]
  exact hwf.linked.head_eq

/-- `GL_HeapFree` of a used node on a heap that satisfies the partition invariant: the nodes
before and after that stay, and the node that replaces the rest. -/
theorem free_shape {S : Nat} (hS : S < 2 ^ 64) {heap : glheap_t} (hwf : heap.WF)
    (hp : partition_inv S heap.ranges) {node : Nat} {n : glheapnode_t}
    (hn : load heap.cells node = some n) (hu : n.free = false) :
    ∃ A B heap2 KA KB m, heap.nodes = A ++ (node, n.range) :: B
      ∧ GL_HeapFree heap node = (heap2, .returned)
      ∧ A = KA ++ free_pred A ∧ B = free_succ B ++ KB
      ∧ heap2.nodes = KA ++ m :: KB
      ∧ m.2.free = true
      ∧ m.2.size
          = ((free_pred A ++ (node, n.range) :: free_succ B).map (fun z => z.2.size)).sum
      ∧ (∀ z ∈ free_pred A ++ (node, n.range) :: free_succ B, m.2.offset ≤ z.2.offset)
      ∧ (∃ z ∈ free_pred A ++ (node, n.range) :: free_succ B,
          m.2.offset = z.2.offset ∧ m.1 = z.1)
      ∧ heap2.head = heap.head ∧ heap2.WF := by
  obtain ⟨A, B, h2, e0, e, ehead, hw, e2⟩ := free_cases hwf hn hu
  rw [ranges_eq, partition_inv_iff, e0] at hp
  obtain ⟨m, em, hm1, hm2, hm3, hm4⟩ := free_list_merged hS A B (node, n.range) hp.2
  exact ⟨A, B, h2, _, _, m, e0, e, (coalesce_prev_kept A _).symm,
    (coalesce_next_kept _ B).symm, e2.trans em, hm1, hm2, hm3, hm4, ehead, hw⟩

/-- C17, free coalesces with its immediate neighbours only.  On a properly linked heap of
size `S` that satisfies the partition invariant, let `n` be a used node, `A` the nodes before
it (the last one is its predecessor `prev`) and `B` the nodes after it (the first one is its
successor `next`).  `GL_HeapFree` of `n` returns and leaves the list `KA ++ m :: KB`, where `KA`
is `A` without a free predecessor, `KB` is `B` without a free successor, and `m` is one free
node that replaces `n` and its free immediate neighbours: its offset is the smallest of the
replaced offsets (it is the object of the first replaced node) and its size is the sum of the
replaced sizes.  The number of nodes goes down by the number of free immediate neighbours,
which is 0, 1 or 2; the nodes of `KA` and `KB` are the same, in the same order; the head
pointer is unchanged and is the first node of the list. -/
theorem free_coalesces_neighbours (S : Nat) (hS : S < 2 ^ 64) (heap : glheap_t) (node : Nat)
    (n : glheapnode_t) (hwf : heap.WF) (hp : partition_inv S heap.ranges)
    (hn : load heap.cells node = some n) (hu : n.free = false) :
    ∃ A B heap2 KA KB m, heap.nodes = A ++ (node, n.range) :: B
      ∧ n.prev = A.getLast?.map Prod.fst ∧ n.next = B.head?.map Prod.fst
      ∧ GL_HeapFree heap node = (heap2, .returned)
      ∧ A = KA ++ free_pred A ∧ B = free_succ B ++ KB
      ∧ heap2.nodes = KA ++ m :: KB
      ∧ m.2.free = true
      ∧ m.2.size
          = ((free_pred A ++ (node, n.range) :: free_succ B).map (fun z => z.2.size)).sum
      ∧ (∀ z ∈ free_pred A ++ (node, n.range) :: free_succ B, m.2.offset ≤ z.2.offset)
      ∧ (∃ z ∈ free_pred A ++ (node, n.range) :: free_succ B,
          m.2.offset = z.2.offset ∧ m.1 = z.1)
      ∧ heap2.nodes.length + ((free_pred A).length + (free_succ B).length)
          = heap.nodes.length
      ∧ (free_pred A).length ≤ 1 ∧ (free_succ B).length ≤ 1
      ∧ heap2.head = heap.head
      ∧ heap2.nodes.head?.map Prod.fst = some heap2.head := by
  obtain ⟨A, B, heap2, KA, KB, m, e0, e, eA, eB, e2, hm1, hm2, hm3, hm4, ehead, hw⟩ :=
    free_shape hS hwf hp hn hu
  have hL := hwf.linked
  rw [e0] at hL
  obtain ⟨hprev, hnext, -⟩ := hL.prev_eq hn
  refine ⟨A, B, heap2, KA, KB, m, e0, by rw [hprev, last_or_none],
    by rw [hnext, first_or_none], e, eA, eB, e2, hm1, hm2, hm3, hm4, ?_,
    free_pred_length A, free_succ_length B, ehead, hw.head_first⟩
  have hlA := congrArg List.length eA
  have hlB := congrArg List.length eB
  rw [e2, e0]
  simp only [List.length_append, List.length_cons] at hlA hlB ⊢
  omega

theorem free_coalesces_neighbours_witness :
    (1024 < 2 ^ 64 ∧ demo_heap_2.WF ∧ partition_inv 1024 demo_heap_2.ranges
      ∧ load demo_heap_2.cells 2
          = some { offset := 100, size := 62, prev := some 1, next := some 0, free := false })
    ∧ ∃ A B heap2 KA KB m,
      demo_heap_2.nodes = A ++ (2, { offset := 100, size := 62, free := false }) :: B
      ∧ some 1 = A.getLast?.map Prod.fst ∧ some 0 = B.head?.map Prod.fst
      ∧ GL_HeapFree demo_heap_2 2 = (heap2, .returned)
      ∧ A = KA ++ free_pred A ∧ B = free_succ B ++ KB
      ∧ heap2.nodes = KA ++ m :: KB
      ∧ m.2.free = true
      ∧ m.2.size = ((free_pred A ++ (2, { offset := 100, size := 62, free := false })
          :: free_succ B).map (fun z => z.2.size)).sum
      ∧ (∀ z ∈ free_pred A ++ (2, { offset := 100, size := 62, free := false })
          :: free_succ B, m.2.offset ≤ z.2.offset)
      ∧ (∃ z ∈ free_pred A ++ (2, { offset := 100, size := 62, free := false })
          :: free_succ B, m.2.offset = z.2.offset ∧ m.1 = z.1)
      ∧ heap2.nodes.length + ((free_pred A).length + (free_succ B).length)
          = demo_heap_2.nodes.length
      ∧ (free_pred A).length ≤ 1 ∧ (free_succ B).length ≤ 1
      ∧ heap2.head = demo_heap_2.head
      ∧ heap2.nodes.head?.map Prod.fst = some heap2.head :=
  ⟨⟨by norm_num, demo_heap_2_reachable.well_formed,
      demo_heap_2_reachable.partition (by norm_num), rfl⟩,
    free_coalesces_neighbours 1024 (by norm_num) demo_heap_2 2
      { offset := 100, size := 62, prev := some 1, next := some 0, free := false }
      demo_heap_2_reachable.well_formed (demo_heap_2_reachable.partition (by norm_num))
      rfl rfl⟩

/-! ## Strictly increasing offsets -/

theorem ReachablePos.reachable {S : Nat} {heap : glheap_t} (h : ReachablePos S heap) :
    Reachable S heap := by
  induction h with
  | create => exact Reachable.create
  | allocate _ hal _ _ e ih => exact Reachable.allocate ih hal e
  | free _ hn hu ih => exact Reachable.free ih hn hu

/-- In a tiling the offsets never decrease; they increase when no node is empty. -/
theorem tiles_offsets {s e : Nat} {l : List range_t} (h : tiles s l e) :
    (l.map range_t.offset).Pairwise (· ≤ ·) ∧ (∀ o ∈ l.map range_t.offset, s ≤ o)
    ∧ ((∀ r ∈ l, 0 < r.size) → (l.map range_t.offset).Pairwise (· < ·)) := by
  induction l generalizing s with
  | nil => simp
  | cons r l ih =>
    rw [tiles_cons] at h
    obtain ⟨h1, h2, h3⟩ := ih h.2
    refine ⟨?_, ?_, fun hpos => ?_⟩
    · simp only [List.map_cons, List.pairwise_cons]
      exact ⟨fun o ho => by have := h2 o ho; omega, h1⟩
    · intro o ho
      simp only [List.map_cons, List.mem_cons] at ho
      rcases ho with rfl | ho
      · omega
      · have := h2 o ho; omega
    · simp only [List.map_cons, List.pairwise_cons]
      refine ⟨fun o ho => ?_, h3 (fun x hx => hpos x (List.mem_cons_of_mem _ hx))⟩
      have := h2 o ho
      have := hpos r (List.mem_cons_self _ _)
      omega

/-- Requests with a size above 0 that do not wrap never create an empty node. -/
theorem ReachablePos.sizes_pos {S : Nat} (hS0 : 0 < S) (hS : S < 2 ^ 64) {heap : glheap_t}
    (h : ReachablePos S heap) : ∀ x ∈ heap.nodes, 0 < x.2.size := by
  induction h with
  | create => rw [nodes_create]; simpa using hS0
  | @allocate heap heap2 size alignment node off hr hal hsz hsum e ih =>
    have hwf := hr.reachable.well_formed
    rcases alloc_cases hwf size (Nat.pos_iff_ne_zero.1 hal) with
      ⟨A, p, r, B, h2, e0, -, -, -, e1, -, -, e2⟩
      | ⟨A, p, r, B, h2, e0, -, hlt, hmax, -, e1, -, -, e2⟩ | ⟨e1, -⟩
    all_goals
      rw [e1] at e
      simp only [Option.some.injEq, Prod.mk.injEq] at e
      obtain ⟨rfl, -, -⟩ := e
    · rw [e0] at ih
      rw [e2]
      intro x hx
      simp only [List.mem_append, List.mem_cons] at hx
      rcases hx with hx | rfl | hx
      · exact ih x (by simp [hx])
      · exact ih (p, r) (by simp)
      · exact ih x (by simp [hx])
    · rw [e0] at ih
      rw [e2]
      intro x hx
      simp only [List.mem_append, List.mem_cons] at hx
      rcases hx with hx | rfl | rfl | hx
      · exact ih x (by simp [hx])
      · show 0 < aligned_size size alignment r.offset
        rw [aligned_size_exact _ hal hsum]
        omega
      · show 0 < (r.size + 2 ^ 64 - aligned_size size alignment r.offset) % 2 ^ 64
        rw [split_rest hlt hmax]
        omega
      · exact ih x (by simp [hx])
    · exact ih
  | @free heap node n hr hn hu ih =>
    obtain ⟨A, B, heap2, KA, KB, m, e0, e, eA, eB, e2, -, hm2, -, -, -, -⟩ :=
      free_shape hS hr.reachable.well_formed (hr.reachable.partition hS) hn hu
    rw [e, e2]
    rw [e0] at ih
    intro x hx
    simp only [List.mem_append, List.mem_cons] at hx
    rcases hx with hx | rfl | hx
    · exact ih x (by rw [eA]; simp [hx])
    · have := ih (node, n.range) (by simp)
      rw [hm2]
      simp only [List.map_append, List.map_cons, List.sum_append, List.sum_cons]
      simp only at this
      omega
    · exact ih x (by rw [eB]; simp [hx])

/-- C14, partition invariant (strictness part).  In every heap state reachable from
`GL_CreateHeap S`, with `0 < S < 2 ^ 64`, by calls of `GL_HeapAllocate` with an alignment above
0, a size above 0 and `size + alignment` within the 64-bit range, and calls of `GL_HeapFree` on
used nodes, every node has a size above 0 and the offsets of the nodes in list order are
strictly increasing, so no two nodes have the same offset.  With requests of any size the
offsets still never decrease. -/
theorem strict_offsets (S : Nat) (hS0 : 0 < S) (hS : S < 2 ^ 64) (heap : glheap_t)
    (h : ReachablePos S heap) :
    (heap.ranges.map range_t.offset).Pairwise (· < ·)
    ∧ (heap.ranges.map range_t.offset).Nodup
    ∧ (∀ r ∈ heap.ranges, 0 < r.size)
    ∧ (∀ heap2, Reachable S heap2 → (heap2.ranges.map range_t.offset).Pairwise (· ≤ ·)) := by
  have hp := h.reachable.partition hS
  rw [partition_inv_iff] at hp
  have hpos : ∀ r ∈ heap.ranges, 0 < r.size := by
    intro r hr
    rw [ranges_eq] at hr
    obtain ⟨x, hx, rfl⟩ := List.mem_map.1 hr
    exact h.sizes_pos hS0 hS x hx
  have hlt := (tiles_offsets hp.2).2.2 hpos
  refine ⟨hlt, ?_, hpos, fun heap2 h2 => ?_⟩
  · exact hlt.imp (fun hab => ne_of_lt hab)
  · have hp2 := h2.partition hS
    rw [partition_inv_iff] at hp2
    exact (tiles_offsets hp2.2).1

theorem strict_offsets_witness :
    (0 < 1024 ∧ 1024 < 2 ^ 64 ∧ ReachablePos 1024 demo_heap_2)
    ∧ (demo_heap_2.ranges.map range_t.offset).Pairwise (· < ·)
    ∧ (demo_heap_2.ranges.map range_t.offset).Nodup
    ∧ (∀ r ∈ demo_heap_2.ranges, 0 < r.size)
    ∧ (∀ heap2, Reachable 1024 heap2 →
        (heap2.ranges.map range_t.offset).Pairwise (· ≤ ·)) :=
  ⟨⟨by norm_num, by norm_num,
      ReachablePos.allocate
        (ReachablePos.allocate ReachablePos.create (by decide) (by decide) (by decide)
          demo_heap_1_eq)
        (by decide) (by decide) (by decide) demo_heap_2_eq⟩,
    strict_offsets 1024 (by norm_num) (by norm_num) demo_heap_2
      (ReachablePos.allocate
        (ReachablePos.allocate ReachablePos.create (by decide) (by decide) (by decide)
          demo_heap_1_eq)
        (by decide) (by decide) (by decide) demo_heap_2_eq)⟩

/-- The claim for requests of any size fails: `GL_HeapAllocate (0, 16)` on a new heap of 1024
bytes splits off a used node of size 0 at offset 0, in front of the free node at offset 0; and
a request whose needed size wraps to 0 does the same in the middle of a list. -/
theorem strict_offsets_counterexample :
    GL_HeapAllocate (GL_CreateHeap 1024) 0 16 = some (demo_heap_zero, some 1, 0)
    ∧ Reachable 1024 demo_heap_zero
    ∧ demo_heap_zero.ranges
        = [{ offset := 0, size := 0, free := false },
           { offset := 0, size := 1024, free := true }]
    ∧ ¬ (demo_heap_zero.ranges.map range_t.offset).Pairwise (· < ·)
    ∧ (GL_HeapAllocate demo_heap_1 (2 ^ 64 - 12) 16).map (fun res => res.1.ranges)
        = some [{ offset := 0, size := 100, free := false },
                { offset := 100, size := 0, free := false },
                { offset := 100, size := 924, free := true }]
    ∧ ¬ (∀ (S : Nat) (heap : glheap_t), 0 < S → Reachable S heap →
          (heap.ranges.map range_t.offset).Pairwise (· < ·)) := by
  have he : GL_HeapAllocate (GL_CreateHeap 1024) 0 16 = some (demo_heap_zero, some 1, 0) := by
    decide
  have hr : Reachable 1024 demo_heap_zero := Reachable.allocate Reachable.create (by decide) he
  have hn : ¬ (demo_heap_zero.ranges.map range_t.offset).Pairwise (· < ·) := by decide
  exact ⟨he, hr, by decide, hn, by decide, fun hall => hn (hall 1024 _ (by decide) hr)⟩

/-! ## Allocate, then free -/

theorem coalesce_prev_none {A : List (Nat × range_t)} (x : Nat × range_t)
    (h : free_pred A = []) : coalesce_prev A x = (A, x) := by
  rcases eq_nil_or_snoc A with rfl | ⟨A0, q, rfl⟩
  · rfl
  · rw [free_pred_snoc] at h
    rw [coalesce_prev_snoc]
    split_ifs at h ⊢ with hq
    rfl

theorem coalesce_next_none {B : List (Nat × range_t)} (x : Nat × range_t)
    (h : free_succ B = []) : coalesce_next x B = (x, B) := by
  cases B with
  | nil => rfl
  | cons y B0 =>
    rw [free_succ_cons] at h
    simp only [coalesce_next]
    split_ifs at h ⊢ with hy
    rfl

/-- In a list without two adjacent free nodes a free node has no free immediate neighbour. -/
theorem naf_neighbours {A B : List (Nat × range_t)} {x : Nat × range_t}
    (h : no_adjacent_free ((A ++ x :: B).map Prod.snd)) (hx : x.2.free = true) :
    free_pred A = [] ∧ free_succ B = [] := by
  unfold no_adjacent_free at h
  constructor
  · rcases eq_nil_or_snoc A with rfl | ⟨A0, q, rfl⟩
    · rfl
    · simp only [List.map_append, List.map_cons, List.map_nil, List.append_assoc,
        List.singleton_append] at h
      have h2 := (List.chain'_append.1 h).2.1
      rw [List.chain'_cons] at h2
      have hq : q.2.free = false := by
        cases hqf : q.2.free with
        | false => rfl
        | true => exact absurd ⟨hqf, hx⟩ h2.1
      rw [free_pred_snoc]
      simp [hq]
  · cases B with
    | nil => rfl
    | cons y B0 =>
      simp only [List.map_append, List.map_cons] at h
      have h2 := (List.chain'_append.1 h).2.1
      rw [List.chain'_cons] at h2
      have hy : y.2.free = false := by
        cases hyf : y.2.free with
        | false => rfl
        | true => exact absurd ⟨hx, hyf⟩ h2.1
      rw [free_succ_cons]
      simp [hy]

/-- C18, allocate-then-free round trip.  On a properly linked heap without two adjacent free
nodes, for an alignment above 0, if `GL_HeapAllocate` returns a node, then `GL_HeapFree` of
that node returns and the node list afterwards (sequence of offset, size, free flag) is the
list before the allocation; the head is the first node of it. -/
theorem allocate_free_round_trip (heap heap2 : glheap_t)
    (size alignment node aligned_offset : Nat) (hwf : heap.WF)
    (hnaf : no_adjacent_free heap.ranges) (hal : 0 < alignment)
    (h : GL_HeapAllocate heap size alignment = some (heap2, some node, aligned_offset)) :
    (GL_HeapFree heap2 node).2 = .returned
    ∧ (GL_HeapFree heap2 node).1.ranges = heap.ranges
    ∧ (GL_HeapFree heap2 node).1.nodes.head?.map Prod.fst
        = some (GL_HeapFree heap2 node).1.head := by
  rw [ranges_eq] at hnaf
  rcases alloc_cases hwf size (Nat.pos_iff_ne_zero.1 hal) with
    ⟨A, p, r, B, h2, e0, hf, -, -, e, -, hw, e2⟩
    | ⟨A, p, r, B, h2, e0, hf, hlt, hmax, -, e, -, hw, e2⟩ | ⟨e, -⟩
  · rw [e] at h
    simp only [Option.some.injEq, Prod.mk.injEq] at h
    obtain ⟨rfl, rfl, -⟩ := h
    rw [e0] at hnaf
    obtain ⟨hA, hB⟩ := naf_neighbours hnaf hf
    have hL2 := hw.linked
    rw [e2] at hL2
    obtain ⟨h3, e3, -, hL3⟩ := free_spec hL2 rfl
    rw [e3]
    refine ⟨rfl, ?_, hL3.heap_wf.head_first⟩
    rw [ranges_eq, ranges_eq, hL3.nodes_eq, e0]
    simp only [free_list, coalesce_prev_none _ hA, coalesce_next_none _ hB, List.map_append,
      List.map_cons]
    rw [← hf]
  · rw [e] at h
    simp only [Option.some.injEq, Prod.mk.injEq] at h
    obtain ⟨rfl, rfl, -⟩ := h
    rw [e0] at hnaf
    obtain ⟨hA, -⟩ := naf_neighbours hnaf hf
    have hL2 := hw.linked
    rw [e2] at hL2
    obtain ⟨h3, e3, -, hL3⟩ := free_spec hL2 rfl
    rw [e3]
    refine ⟨rfl, ?_, hL3.heap_wf.head_first⟩
    rw [ranges_eq, ranges_eq, hL3.nodes_eq, e0]
    have hsum : (aligned_size size alignment r.offset
        + (r.size + 2 ^ 64 - aligned_size size alignment r.offset) % 2 ^ 64) % 2 ^ 64
        = r.size := by
      rw [split_rest hlt hmax]
      unfold UINT64_MAX at hmax
      have hs : aligned_size size alignment r.offset
          + (r.size - aligned_size size alignment r.offset) = r.size := by omega
      rw [hs]
      exact Nat.mod_eq_of_lt (by omega)
    simp only [free_list, coalesce_prev_none _ hA, coalesce_next, hf, if_true, List.map_append,
      List.map_cons, hsum]
    rw [← hf]
  · rw [e] at h
    simp at h

theorem allocate_free_round_trip_witness :
    (demo_heap_1.WF ∧ no_adjacent_free demo_heap_1.ranges ∧ 0 < 16
      ∧ GL_HeapAllocate demo_heap_1 50 16 = some (demo_heap_2, some 2, 112))
    ∧ (GL_HeapFree demo_heap_2 2).2 = .returned
    ∧ (GL_HeapFree demo_heap_2 2).1.ranges = demo_heap_1.ranges
    ∧ (GL_HeapFree demo_heap_2 2).1.nodes.head?.map Prod.fst
        = some (GL_HeapFree demo_heap_2 2).1.head :=
  ⟨⟨demo_heap_1_reachable.well_formed, demo_heap_1_reachable.naf, by decide, demo_heap_2_eq⟩,
    allocate_free_round_trip demo_heap_1 demo_heap_2 50 16 2 112
      demo_heap_1_reachable.well_formed demo_heap_1_reachable.naf (by decide) demo_heap_2_eq⟩

/-! ## Live allocations -/

/-- With alignment 0 the scan is defined only when it meets no free node; it then ends
without a change of the best fit. -/
theorem scan_zero_alignment (cells : List (Option glheapnode_t)) (size : Nat) :
    ∀ (fuel : Nat) (current_node best : Option Nat) (bs : Nat) (s : scan_t),
      GL_HeapAllocate_scan cells size 0 fuel current_node best bs = some s →
      s = .finished best := by
  intro fuel
  induction fuel with
  | zero =>
    intro cur best bs s h
    cases cur with
    | none => simpa [GL_HeapAllocate_scan] using h.symm
    | some c => simp [GL_HeapAllocate_scan] at h
  | succ fuel ih =>
    intro cur best bs s h
    cases cur with
    | none => simpa [GL_HeapAllocate_scan] using h.symm
    | some c =>
      simp only [GL_HeapAllocate_scan] at h
      cases hl : load cells c with
      | none => simp [hl] at h
      | some n =>
        simp only [hl] at h
        by_cases hf : n.free = true
        · simp [hf] at h
        · simp only [hf, Bool.not_false, if_true] at h
          exact ih _ _ _ _ h

/-- A call of `GL_HeapAllocate` with alignment 0 that is defined returns no node and leaves
the heap as it was. -/
theorem alloc_zero_alignment {heap heap2 : glheap_t} {size : Nat} {node : Option Nat}
    {off : Nat} (h : GL_HeapAllocate heap size 0 = some (heap2, node, off)) :
    heap2 = heap ∧ node = none ∧ off = 0 := by
  unfold GL_HeapAllocate at h
  cases hs : GL_HeapAllocate_scan heap.cells size 0 heap.cells.length (some heap.head) none
      UINT64_MAX with
  | none => simp [hs] at h
  | some s =>
    have := scan_zero_alignment _ _ _ _ _ _ _ hs
    subst this
    simp only [hs, Option.some.injEq, Prod.mk.injEq] at h
    exact ⟨h.1.symm, h.2.1.symm, h.2.2.symm⟩

/-- A node of a properly linked list is determined by its address. -/
theorem Linked.eq_of_fst {m : List (Option glheapnode_t)} {head : Nat}
    {L : List (Nat × range_t)} (h : Linked m head L) {y z : Nat × range_t} (hy : y ∈ L)
    (hz : z ∈ L) (hyz : y.1 = z.1) : y = z := by
  obtain ⟨n1, h1, h2⟩ := h.load_of_mem hy
  obtain ⟨n2, h3, h4⟩ := h.load_of_mem hz
  rw [hyz, h3] at h1
  cases h1
  exact Prod.ext hyz (h2.symm.trans h4)

/-- The used nodes after `GL_HeapAllocate`: those before, and the returned node. -/
theorem alloc_used_nodes {heap heap2 : glheap_t} (hwf : heap.WF) {size alignment : Nat}
    {node : Option Nat} {off : Nat}
    (h : GL_HeapAllocate heap size alignment = some (heap2, node, off)) :
    heap2.WF
    ∧ (∀ y : Nat × range_t, y.2.free = false →
        (y ∈ heap2.nodes ↔ y ∈ heap.nodes ∨ (node = some y.1 ∧ y ∈ heap2.nodes)))
    ∧ (∀ y ∈ heap.nodes, node = some y.1 → y.2.free = true)
    ∧ (∀ y ∈ heap2.nodes, node = some y.1 → y.2.free = false)
    ∧ (∀ n, node = some n → ∃ rn : range_t, (n, rn) ∈ heap2.nodes)
    ∧ (node = none → heap2 = heap) := by
  by_cases hal : alignment = 0
  · subst hal
    obtain ⟨rfl, rfl, -⟩ := alloc_zero_alignment h
    exact ⟨hwf, fun y _ => by simp, fun y _ hy => by simp at hy, fun y _ hy => by simp at hy,
      fun n hn => by simp at hn, fun _ => rfl⟩
  rcases alloc_cases hwf size hal with
    ⟨A, p, r, B, h2, e0, hf, -, -, e, -, hw, e2⟩
    | ⟨A, p, r, B, h2, e0, hf, -, -, -, e, -, hw, e2⟩ | ⟨e, -⟩
  · rw [e] at h
    simp only [Option.some.injEq, Prod.mk.injEq] at h
    obtain ⟨rfl, rfl, -⟩ := h
    have hnew : (p, ({ r with free := false } : range_t)) ∈ h2.nodes := by rw [e2]; simp
    have hold : (p, r) ∈ heap.nodes := by rw [e0]; simp
    refine ⟨hw, fun y hy => ⟨fun hm => ?_, fun hm => ?_⟩, fun y hy hp => ?_, fun y hy hp => ?_,
      fun n hn => ?_, fun hn => by simp at hn⟩
    rotate_right
    · simp only [Option.some.injEq] at hn
      subst hn
      exact ⟨_, hnew⟩
    · rw [e2] at hm
      simp only [List.mem_append, List.mem_cons] at hm
      rcases hm with hm | rfl | hm
      · left; rw [e0]; simp [hm]
      · right; exact ⟨rfl, hnew⟩
      · left; rw [e0]; simp [hm]
    · rcases hm with hm | ⟨-, hm⟩
      · rw [e0] at hm
        simp only [List.mem_append, List.mem_cons] at hm
        rcases hm with hm | rfl | hm
        · rw [e2]; simp [hm]
        · rw [hf] at hy; cases hy
        · rw [e2]; simp [hm]
      · exact hm
    · simp only [Option.some.injEq] at hp
      rw [← hwf.linked.eq_of_fst hold hy hp]
      exact hf
    · simp only [Option.some.injEq] at hp
      rw [← hw.linked.eq_of_fst hnew hy hp]
  · rw [e] at h
    simp only [Option.some.injEq, Prod.mk.injEq] at h
    obtain ⟨rfl, rfl, -⟩ := h
    have hnew : (heap.cells.length, (⟨r.offset, aligned_size size alignment r.offset, false⟩
        : range_t)) ∈ h2.nodes := by rw [e2]; simp
    refine ⟨hw, fun y hy => ⟨fun hm => ?_, fun hm => ?_⟩, fun y hy hp => ?_, fun y hy hp => ?_,
      fun n hn => ?_, fun hn => by simp at hn⟩
    rotate_right
    · simp only [Option.some.injEq] at hn
      subst hn
      exact ⟨_, hnew⟩
    · rw [e2] at hm
      simp only [List.mem_append, List.mem_cons] at hm
      rcases hm with hm | rfl | rfl | hm
      · left; rw [e0]; simp [hm]
      · right; exact ⟨rfl, hnew⟩
      · rw [hf] at hy; cases hy
      · left; rw [e0]; simp [hm]
    · rcases hm with hm | ⟨-, hm⟩
      · rw [e0] at hm
        simp only [List.mem_append, List.mem_cons] at hm
        rcases hm with hm | rfl | hm
        · rw [e2]; simp [hm]
        · rw [hf] at hy; cases hy
        · rw [e2]; simp [hm]
      · exact hm
    · simp only [Option.some.injEq] at hp
      obtain ⟨n, hn, -⟩ := hwf.linked.load_of_mem hy
      rw [← hp] at hn
      exact absurd (load_lt hn) (lt_irrefl _)
    · simp only [Option.some.injEq] at hp
      rw [← hw.linked.eq_of_fst hnew hy hp]
  · rw [e] at h
    simp only [Option.some.injEq, Prod.mk.injEq] at h
    obtain ⟨rfl, rfl, -⟩ := h
    exact ⟨hwf, fun y _ => by simp, fun y _ hy => by simp at hy, fun y _ hy => by simp at hy,
      fun n hn => by simp at hn, fun _ => rfl⟩

/-- The used nodes after `GL_HeapFree`: those before, without the freed node. -/
theorem free_used_nodes {heap : glheap_t} (hwf : heap.WF) {x : Nat} {nx : glheapnode_t}
    (hn : load heap.cells x = some nx) (hu : nx.free = false) :
    (GL_HeapFree heap x).2 = .returned ∧ (GL_HeapFree heap x).1.WF
    ∧ ∀ y : Nat × range_t, y.2.free = false →
        (y ∈ (GL_HeapFree heap x).1.nodes ↔ y ∈ heap.nodes ∧ y.1 ≠ x) := by
  obtain ⟨A, B, h2, e0, e, -, hw, e2⟩ := free_cases hwf hn hu
  rw [e]
  refine ⟨rfl, hw, fun y hy => ?_⟩
  have hL := hwf.linked
  rw [e0] at hL
  obtain ⟨hxA, hxB⟩ := nodup_mid hL.nodup
  have hA := coalesce_prev_kept A (x, { nx.range with free := true })
  have hB := coalesce_next_kept (coalesce_prev A (x, { nx.range with free := true })).2 B
  have hm : (coalesce_next (coalesce_prev A (x, { nx.range with free := true })).2 B).1.2.free
      = true := by
    rw [(coalesce_next_fst _ B).2.1]
    exact coalesce_prev_free A (x, nx.range)
  have hPf := free_pred_free A
  have hQf := free_succ_free B
  simp only [e2, e0, free_list, List.mem_append, List.mem_cons]
  constructor
  · rintro (hm1 | rfl | hm1)
    · have hyA : y ∈ A := by rw [← hA]; simp [hm1]
      exact ⟨Or.inl hyA, fun hyx => hxA (hyx ▸ mem_addrs_of_mem hyA)⟩
    · rw [hm] at hy; cases hy
    · have hyB : y ∈ B := by rw [← hB]; simp [hm1]
      exact ⟨Or.inr (Or.inr hyB), fun hyx => hxB (hyx ▸ mem_addrs_of_mem hyB)⟩
  · rintro ⟨hyA | rfl | hyB, hne⟩
    · rw [← hA] at hyA
      rcases List.mem_append.1 hyA with h1 | h1
      · exact Or.inl h1
      · rw [hPf y h1] at hy; cases hy
    · exact absurd rfl hne
    · rw [← hB] at hyB
      rcases List.mem_append.1 hyB with h1 | h1
      · rw [hQf y h1] at hy; cases hy
      · exact Or.inr (Or.inr h1)

/-- C19, live allocations are never disturbed.  On a properly linked heap let `u` be a node
marked used.  Every `GL_HeapAllocate` call that is defined (every call with an alignment above
0 is), whether it returns a node or not, and every `GL_HeapFree` call on a used node other than
`u` (such a call returns) leaves `u` allocated, in the list, marked used, with the same offset
and size.  When an allocation returns a node, that node is in the list afterwards, marked
used, it was not a used node before, and the used nodes afterwards are the used nodes before
together with it; when it returns no node the heap is unchanged.  The used nodes after a free
are the used nodes before without the freed node.  A node is its address with its range, so
two used nodes with the same range are told apart. -/
theorem live_allocations_kept (heap : glheap_t) (u : Nat) (nu : glheapnode_t) (hwf : heap.WF)
    (hu : load heap.cells u = some nu) (huf : nu.free = false) :
    (∀ size alignment, 0 < alignment →
        ∃ res, GL_HeapAllocate heap size alignment = some res)
    ∧ (∀ size alignment heap2 node off,
        GL_HeapAllocate heap size alignment = some (heap2, node, off) →
        (∃ nu2, load heap2.cells u = some nu2 ∧ nu2.range = nu.range)
        ∧ (u, nu.range) ∈ heap2.nodes
        ∧ (∀ y : Nat × range_t, (y ∈ heap2.nodes ∧ y.2.free = false) ↔
            ((y ∈ heap.nodes ∧ y.2.free = false) ∨ (node = some y.1 ∧ y ∈ heap2.nodes)))
        ∧ (∀ y ∈ heap.nodes, node = some y.1 → y.2.free = true)
        ∧ (∀ n, node = some n → ∃ rn : range_t, (n, rn) ∈ heap2.nodes ∧ rn.free = false
            ∧ ∀ y : Nat × range_t, (y ∈ heap2.nodes ∧ y.2.free = false) ↔
                ((y ∈ heap.nodes ∧ y.2.free = false) ∨ y = (n, rn)))
        ∧ (node = none → heap2 = heap))
    ∧ (∀ x nx, x ≠ u → load heap.cells x = some nx → nx.free = false →
        (GL_HeapFree heap x).2 = .returned
        ∧ (∃ nu2, load (GL_HeapFree heap x).1.cells u = some nu2 ∧ nu2.range = nu.range)
        ∧ (u, nu.range) ∈ (GL_HeapFree heap x).1.nodes
        ∧ (∀ y : Nat × range_t, (y ∈ (GL_HeapFree heap x).1.nodes ∧ y.2.free = false) ↔
            (y ∈ heap.nodes ∧ y.2.free = false ∧ y.1 ≠ x))) := by
  have hmem : (u, nu.range) ∈ heap.nodes := hwf.linked.mem_of_load hu
  have hused : (u, nu.range).2.free = false := huf
  refine ⟨fun size alignment hal => alloc_returns hwf size hal,
    fun size alignment heap2 node off h => ?_, fun x nx hxu hx hxf => ?_⟩
  · obtain ⟨hw, h1, h2, h3, h5, h6⟩ := alloc_used_nodes hwf h
    have hm2 : (u, nu.range) ∈ heap2.nodes := (h1 _ hused).2 (Or.inl hmem)
    have hiff : ∀ y : Nat × range_t, (y ∈ heap2.nodes ∧ y.2.free = false) ↔
        ((y ∈ heap.nodes ∧ y.2.free = false) ∨ (node = some y.1 ∧ y ∈ heap2.nodes)) := by
      intro y
      constructor
      · intro hy
        rcases (h1 y hy.2).1 hy.1 with h4 | h4
        · exact Or.inl ⟨h4, hy.2⟩
        · exact Or.inr h4
      · rintro (⟨h4, h7⟩ | ⟨h4, h7⟩)
        · exact ⟨(h1 y h7).2 (Or.inl h4), h7⟩
        · exact ⟨h7, h3 y h7 h4⟩
    refine ⟨hw.linked.load_of_mem hm2, hm2, hiff, h2, fun n hn => ?_, h6⟩
    obtain ⟨rn, hrn⟩ := h5 n hn
    refine ⟨rn, hrn, h3 (n, rn) hrn hn, fun y => ?_⟩
    rw [hiff y]
    constructor
    · rintro (h4 | ⟨h4, h7⟩)
      · exact Or.inl h4
      · right
        rw [hn] at h4
        simp only [Option.some.injEq] at h4
        exact hw.linked.eq_of_fst h7 hrn h4.symm
    · rintro (h4 | rfl)
      · exact Or.inl h4
      · exact Or.inr ⟨hn, hrn⟩
  · obtain ⟨h1, hw, h2⟩ := free_used_nodes hwf hx hxf
    have hm2 : (u, nu.range) ∈ (GL_HeapFree heap x).1.nodes :=
      (h2 _ hused).2 ⟨hmem, fun h => hxu h.symm⟩
    refine ⟨h1, hw.linked.load_of_mem hm2, hm2, fun y => ⟨fun hy => ?_, fun hy => ?_⟩⟩
    · exact ⟨((h2 y hy.2).1 hy.1).1, hy.2, ((h2 y hy.2).1 hy.1).2⟩
    · exact ⟨(h2 y hy.2.1).2 ⟨hy.1, hy.2.2⟩, hy.2.1⟩

theorem live_allocations_kept_witness :
    (demo_heap_1.WF
      ∧ load demo_heap_1.cells 1
          = some { offset := 0, size := 100, prev := none, next := some 0, free := false }
      ∧ GL_HeapAllocate demo_heap_1 50 16 = some (demo_heap_2, some 2, 112)
      ∧ demo_heap_2.WF
      ∧ load demo_heap_2.cells 1
          = some { offset := 0, size := 100, prev := none, next := some 2, free := false })
    ∧ ((∃ nu2, load demo_heap_2.cells 1 = some nu2
          ∧ nu2.range = { offset := 0, size := 100, free := false })
      ∧ (1, { offset := 0, size := 100, free := false }) ∈ demo_heap_2.nodes
      ∧ ∃ rn : range_t, (2, rn) ∈ demo_heap_2.nodes ∧ rn.free = false
          ∧ ∀ y : Nat × range_t, (y ∈ demo_heap_2.nodes ∧ y.2.free = false) ↔
              ((y ∈ demo_heap_1.nodes ∧ y.2.free = false) ∨ y = (2, rn)))
    ∧ (GL_HeapFree demo_heap_2 2).2 = .returned
    ∧ (∃ nu2, load (GL_HeapFree demo_heap_2 2).1.cells 1 = some nu2
        ∧ nu2.range = { offset := 0, size := 100, free := false })
    ∧ (1, { offset := 0, size := 100, free := false }) ∈ (GL_HeapFree demo_heap_2 2).1.nodes
    ∧ (∀ y : Nat × range_t, (y ∈ (GL_HeapFree demo_heap_2 2).1.nodes ∧ y.2.free = false) ↔
        (y ∈ demo_heap_2.nodes ∧ y.2.free = false ∧ y.1 ≠ 2)) := by
  have ha := (live_allocations_kept demo_heap_1 1
    { offset := 0, size := 100, prev := none, next := some 0, free := false }
    demo_heap_1_reachable.well_formed rfl rfl).2.1 50 16 demo_heap_2 (some 2) 112
    demo_heap_2_eq
  have hf := (live_allocations_kept demo_heap_2 1
    { offset := 0, size := 100, prev := none, next := some 2, free := false }
    demo_heap_2_reachable.well_formed rfl rfl).2.2 2
    { offset := 100, size := 62, prev := some 1, next := some 0, free := false }
    (by decide) rfl rfl
  exact ⟨⟨demo_heap_1_reachable.well_formed, rfl, demo_heap_2_eq,
      demo_heap_2_reachable.well_formed, rfl⟩,
    ⟨ha.1, ha.2.1, ha.2.2.2.2.1 2 rfl⟩, hf⟩

/-! ## Two frees -/

theorem coalesce_next_append (x : Nat × range_t) {M : List (Nat × range_t)} (hM : M ≠ [])
    (N : List (Nat × range_t)) :
    coalesce_next x (M ++ N) = ((coalesce_next x M).1, (coalesce_next x M).2 ++ N) := by
  cases M with
  | nil => exact absurd rfl hM
  | cons y M0 =>
    simp only [List.cons_append, coalesce_next]
    split_ifs <;> rfl

theorem coalesce_prev_append (N : List (Nat × range_t)) {M : List (Nat × range_t)}
    (hM : M ≠ []) (x : Nat × range_t) :
    coalesce_prev (N ++ M) x = (N ++ (coalesce_prev M x).1, (coalesce_prev M x).2) := by
  rcases eq_nil_or_snoc M with rfl | ⟨M0, z, rfl⟩
  · exact absurd rfl hM
  · rw [← List.append_assoc, coalesce_prev_snoc, coalesce_prev_snoc]
    split_ifs <;> simp

/-- Nodes after the first successor do not matter to a free. -/
theorem free_list_append (A : List (Nat × range_t)) (a : Nat × range_t)
    {M : List (Nat × range_t)} (hM : M ≠ []) (N : List (Nat × range_t)) :
    free_list A a (M ++ N) = free_list A a M ++ N := by
  simp only [free_list, coalesce_next_append _ hM, List.append_assoc, List.cons_append]

/-- Nodes before the last predecessor do not matter to a free. -/
theorem free_list_prepend (N : List (Nat × range_t)) {M : List (Nat × range_t)} (hM : M ≠ [])
    (b : Nat × range_t) (B : List (Nat × range_t)) :
    free_list (N ++ M) b B = N ++ free_list M b B := by
  simp only [free_list, coalesce_prev_append _ hM, List.append_assoc]

/-- A used node after the freed node stays where it is. -/
theorem free_list_used_right (A M B : List (Nat × range_t)) (a b : Nat × range_t)
    (hb : b.2.free = false) :
    free_list A a (M ++ b :: B) = free_list A a M ++ b :: B := by
  by_cases hM : M = []
  · subst hM
    simp [free_list, coalesce_next, hb]
  · exact free_list_append A a hM _

/-- A used node before the freed node stays where it is. -/
theorem free_list_used_left (A M B : List (Nat × range_t)) (a b : Nat × range_t)
    (ha : a.2.free = false) :
    free_list (A ++ a :: M) b B = A ++ a :: free_list M b B := by
  by_cases hM : M = []
  · subst hM
    simp [free_list, coalesce_prev_snoc, coalesce_prev_nil, ha]
  · have h := free_list_prepend (A ++ [a]) hM b B
    simpa using h

/-- Freeing `a` and then `b` gives the same list as freeing `b` and then `a`, when `a` stands
before `b` with the nodes `M` between them. -/
theorem free_list_comm (A M B : List (Nat × range_t)) (a b : Nat × range_t) :
    free_list (free_list A a M) b B = free_list A a (free_list M b B) := by
  rcases eq_nil_or_snoc M with rfl | ⟨M0, z, rfl⟩
  · have hcf := coalesce_prev_free A a
    generalize hc : coalesce_prev A (a.1, { a.2 with free := true }) = c at hcf
    cases B with
    | nil =>
      simp [free_list, hc, coalesce_next, coalesce_prev_snoc, coalesce_prev_nil, hcf]
    | cons y B0 =>
      by_cases hy : y.2.free = true
      · simp [free_list, hc, coalesce_next, coalesce_prev_snoc, coalesce_prev_nil, hcf, hy,
          Nat.add_assoc]
      · simp [free_list, hc, coalesce_next, coalesce_prev_snoc, coalesce_prev_nil, hcf, hy]
  · by_cases hM0 : M0 = []
    · subst hM0
      have hcf := coalesce_prev_free A a
      generalize hc : coalesce_prev A (a.1, { a.2 with free := true }) = c at hcf
      have hsn : ∀ w : Nat × range_t, coalesce_prev [z] w
          = if z.2.free then ([], (z.1, { z.2 with size := (z.2.size + w.2.size) % 2 ^ 64 }))
            else ([z], w) := fun w => by simpa using coalesce_prev_snoc [] z w
      by_cases hz : z.2.free = true
      · cases B with
        | nil =>
          simp [free_list, hc, coalesce_next, coalesce_prev_snoc, hsn, hcf, hz, Nat.add_assoc]
        | cons y B0 =>
          by_cases hy : y.2.free = true
          · simp [free_list, hc, coalesce_next, coalesce_prev_snoc, hsn, hcf, hz, hy,
              Nat.add_assoc]
          · simp [free_list, hc, coalesce_next, coalesce_prev_snoc, hsn, hcf, hz, hy,
              Nat.add_assoc]
      · have h1 : free_list A a [z] = (c.1 ++ [c.2]) ++ [z] := by
          simp [free_list, hc, coalesce_next, hz]
        have h2 : free_list [z] b B = z :: free_list [] b B := by
          simp [free_list, hsn, hz, coalesce_prev_nil]
        have hz1 : ([z] : List (Nat × range_t)) ≠ [] := by simp
        have h3 : free_list A a (z :: free_list [] b B)
            = free_list A a [z] ++ free_list [] b B := free_list_append A a hz1 _
        simp only [List.nil_append]
        rw [h2, h3, h1, free_list_prepend _ hz1, h2]
        simp
    · have hz1 : ([z] : List (Nat × range_t)) ≠ [] := by simp
      rw [free_list_append A a hM0 [z], free_list_prepend _ hz1, free_list_prepend M0 hz1,
        free_list_append A a hM0]

/-- Two frees of used nodes, in both orders, when `a` stands before `b` in the list. -/
theorem frees_ordered {heap : glheap_t} {A M B : List (Nat × range_t)} {a b : Nat}
    {ra rb : range_t} (hL : Linked heap.cells heap.head (A ++ (a, ra) :: (M ++ (b, rb) :: B)))
    (ha : ra.free = false) (hb : rb.free = false) :
    (GL_HeapFree heap a).2 = .returned
    ∧ (GL_HeapFree (GL_HeapFree heap a).1 b).2 = .returned
    ∧ (GL_HeapFree heap b).2 = .returned
    ∧ (GL_HeapFree (GL_HeapFree heap b).1 a).2 = .returned
    ∧ (GL_HeapFree (GL_HeapFree heap a).1 b).1.nodes
        = (GL_HeapFree (GL_HeapFree heap b).1 a).1.nodes := by
  obtain ⟨h1, e1, -, hL1⟩ := free_spec hL ha
  rw [free_list_used_right A M B (a, ra) (b, rb) hb] at hL1
  obtain ⟨h12, e12, -, hL12⟩ := free_spec hL1 hb
  have hL' : Linked heap.cells heap.head ((A ++ (a, ra) :: M) ++ (b, rb) :: B) := by
    simpa using hL
  obtain ⟨h2, e2, -, hL2⟩ := free_spec hL' hb
  rw [free_list_used_left A M B (a, ra) (b, rb) ha] at hL2
  obtain ⟨h21, e21, -, hL21⟩ := free_spec hL2 ha
  rw [e1, e12, e2, e21]
  refine ⟨rfl, rfl, rfl, rfl, ?_⟩
  rw [hL12.nodes_eq, hL21.nodes_eq]
  exact free_list_comm A M B (a, ra) (b, rb)

/-- C20, frees commute.  On a properly linked heap, for two distinct nodes `a` and `b` that are
both marked used, `GL_HeapFree` of `a` and then of `b`, and `GL_HeapFree` of `b` and then of
`a`, all return, and the two resulting node lists are the same: the same sequence of offset,
size and free flag, held by the same node objects. -/
theorem frees_commute (heap : glheap_t) (a b : Nat) (na nb : glheapnode_t) (hwf : heap.WF)
    (hab : a ≠ b) (ha : load heap.cells a = some na) (hau : na.free = false)
    (hb : load heap.cells b = some nb) (hbu : nb.free = false) :
    (GL_HeapFree heap a).2 = .returned
    ∧ (GL_HeapFree (GL_HeapFree heap a).1 b).2 = .returned
    ∧ (GL_HeapFree heap b).2 = .returned
    ∧ (GL_HeapFree (GL_HeapFree heap b).1 a).2 = .returned
    ∧ (GL_HeapFree (GL_HeapFree heap a).1 b).1.ranges
        = (GL_HeapFree (GL_HeapFree heap b).1 a).1.ranges
    ∧ (GL_HeapFree (GL_HeapFree heap a).1 b).1.nodes
        = (GL_HeapFree (GL_HeapFree heap b).1 a).1.nodes := by
  have hL := hwf.linked
  have hma := hL.mem_of_load ha
  have hmb := hL.mem_of_load hb
  have hra : na.range.free = false := hau
  have hrb : nb.range.free = false := hbu
  obtain ⟨A, R, hAR⟩ := List.append_of_mem hma
  rw [hAR] at hmb
  rcases List.mem_append.1 hmb with hm | hm
  · obtain ⟨A1, M, rfl⟩ := List.append_of_mem hm
    have hL2 : Linked heap.cells heap.head
        (A1 ++ (b, nb.range) :: (M ++ (a, na.range) :: R)) := by
      rw [hAR] at hL
      simpa using hL
    obtain ⟨h1, h2, h3, h4, h5⟩ := frees_ordered hL2 hrb hra
    exact ⟨h3, h4, h1, h2, by rw [ranges_eq, ranges_eq, h5], h5.symm⟩
  · rcases List.mem_cons.1 hm with hm | hm
    · exact absurd (congrArg Prod.fst hm).symm hab
    · obtain ⟨M, B, rfl⟩ := List.append_of_mem hm
      rw [hAR] at hL
      obtain ⟨h1, h2, h3, h4, h5⟩ := frees_ordered hL hra hrb
      exact ⟨h1, h2, h3, h4, by rw [ranges_eq, ranges_eq, h5], h5⟩

theorem frees_commute_witness :
    (demo_heap_2.WF ∧ 1 ≠ 2
      ∧ load demo_heap_2.cells 1
          = some { offset := 0, size := 100, prev := none, next := some 2, free := false }
      ∧ load demo_heap_2.cells 2
          = some { offset := 100, size := 62, prev := some 1, next := some 0, free := false })
    ∧ (GL_HeapFree demo_heap_2 1).2 = .returned
    ∧ (GL_HeapFree (GL_HeapFree demo_heap_2 1).1 2).2 = .returned
    ∧ (GL_HeapFree demo_heap_2 2).2 = .returned
    ∧ (GL_HeapFree (GL_HeapFree demo_heap_2 2).1 1).2 = .returned
    ∧ (GL_HeapFree (GL_HeapFree demo_heap_2 1).1 2).1.ranges
        = (GL_HeapFree (GL_HeapFree demo_heap_2 2).1 1).1.ranges
    ∧ (GL_HeapFree (GL_HeapFree demo_heap_2 1).1 2).1.nodes
        = (GL_HeapFree (GL_HeapFree demo_heap_2 2).1 1).1.nodes :=
  ⟨⟨demo_heap_2_reachable.well_formed, by decide, rfl, rfl⟩,
    frees_commute demo_heap_2 1 2
      { offset := 0, size := 100, prev := none, next := some 2, free := false }
      { offset := 100, size := 62, prev := some 1, next := some 0, free := false }
      demo_heap_2_reachable.well_formed (by decide) rfl rfl rfl rfl⟩

end GLHeap
